import Mathlib

/-!
# instafix: profile resolution, format selection and fit geometry

A shallow embedding of the Go packages `config` and `pkg/instafix`.

Conventions of the embedding:
* Go `int` is `Int`; no operation modelled here can overflow.
* Go `float64` is modelled twice.  In the namespace `IEEE` a value is an `F64`
  (a finite rational, `+Inf`, `-Inf` or `NaN`) and every operation rounds to the
  nearest float64 value, ties to even; the configuration, the format
  selection, the fit, the composition and the watermark outline are modelled
  there with this arithmetic, for the statements in which a rounding, an
  infinity or a `NaN` decides a branch, a truncation or a comparison.  Outside
  that namespace the `float64` values of the configuration are finite and the
  arithmetic is exact (`ℚ`); this is used for the statements on which no
  rounding bears: error paths, offsets that are whole numbers or halves of
  whole numbers far below `2^53`, and coordinates handed to the drawing
  library.
* A Go `map[string]T` is an association list in which the first entry of a
  key is the live one.
* A Go result tuple `(T, error)` is a pair whose second component is
  `Option GoError` (`none` is the nil error).
* The standard library functions `strings.ToLower` and `strings.TrimSpace`
  are parameters (`Strings`), as are the imaging and drawing primitives.
-/

namespace Instafix

/-! ## Go runtime -/

/-- The two functions of package `strings` used by the configuration code. -/
structure Strings where
  ToLower : String → String
  TrimSpace : String → String

/-- ASCII lower-casing of one character. -/
def asciiLowerChar (c : Char) : Char :=
  if 65 ≤ c.toNat ∧ c.toNat ≤ 90 then Char.ofNat (c.toNat + 32) else c

/-- ASCII white space as recognised by `strings.TrimSpace`. -/
def asciiIsSpace (c : Char) : Bool :=
  c.toNat = 32 || (9 ≤ c.toNat && c.toNat ≤ 13)

/-- The behaviour of `strings.ToLower` and `strings.TrimSpace` on ASCII text. -/
def asciiStrings : Strings where
  ToLower := fun s => String.mk (s.data.map asciiLowerChar)
  TrimSpace := fun s =>
    String.mk ((s.data.dropWhile asciiIsSpace).reverse.dropWhile asciiIsSpace).reverse

/-- A Go `map[string]α`. -/
structure GoMap (α : Type) where
  entries : List (String × α)

/-- Lookup in an association list: the first entry with the key wins. -/
def lookupEntry {α : Type} (k : String) : List (String × α) → Option α
  | [] => none
  | (k', v) :: rest => if k' = k then some v else lookupEntry k rest

/-- The Go expression `v, ok := m[k]`. -/
def GoMap.find {α : Type} (m : GoMap α) (k : String) : Option α :=
  lookupEntry k m.entries

/-- The live entries of an association list, skipping shadowed keys. -/
def liveEntries {α : Type} (seen : List String) : List (String × α) → List (String × α)
  | [] => []
  | (k, v) :: rest =>
    if k ∈ seen then liveEntries seen rest else (k, v) :: liveEntries (k :: seen) rest

/-- The entries visited by `for k, v := range m`, in the order of the model. -/
def GoMap.range {α : Type} (m : GoMap α) : List (String × α) :=
  liveEntries [] m.entries

/-- The package-level error values of package `config`. -/
inductive Sentinel where
  | ErrProfileNotFound
  | ErrFormatNotFound
  | ErrBackgroundNotFound
  | ErrWatermarkNotFound
  deriving DecidableEq, Repr

/-- The message of a package-level error value. -/
def Sentinel.text : Sentinel → String
  | .ErrProfileNotFound => "profile not found"
  | .ErrFormatNotFound => "format not found"
  | .ErrBackgroundNotFound => "background not found"
  | .ErrWatermarkNotFound => "watermark not found"

/-- Go error values built by this program. -/
inductive GoError where
  /-- One of the `errors.New` package variables. -/
  | sentinel (s : Sentinel)
  /-- The result of `fmt.Errorf` without `%w`; `msg` is the formatted text. -/
  | errorf (msg : String)
  /-- The result of `fmt.Errorf` with one `%w` verb applied to `inner`; `msg` is the
  formatted text. -/
  | wrapf (inner : GoError) (msg : String)
  /-- The struct `UserError{Err: inner}` of package instafix. -/
  | userError (inner : GoError)
  /-- An error value returned by a library call. -/
  | external (msg : String)
  deriving DecidableEq, Repr

/-- The method `Error()`. -/
def GoError.Error : GoError → String
  | .sentinel s => s.text
  | .errorf msg => msg
  | .wrapf _ msg => msg
  | .userError inner => inner.Error
  | .external msg => msg

/-- The Go call `errors.Is(e, target)` for a sentinel target: walks the `Unwrap` chain. -/
def errorsIs : GoError → Sentinel → Bool
  | .sentinel s, t => decide (s = t)
  | .errorf _, _ => false
  | .wrapf inner _, t => errorsIs inner t
  | .userError inner, t => errorsIs inner t
  | .external _, _ => false

/-- The Go call `fmt.Errorf("%w: %s", target, arg)` for a sentinel target. -/
def wrapSentinel (t : Sentinel) (arg : String) : GoError :=
  .wrapf (.sentinel t) (t.text ++ ": " ++ arg)

/-- The first return value of a loop body run over a list, `none` when no step returns. -/
def firstErr {α : Type} (f : α → Option GoError) : List α → Option GoError
  | [] => none
  | a :: rest =>
    match f a with
    | some e => some e
    | none => firstErr f rest

/-- A float64 value that need not be finite. -/
inductive F64 where
  | fin (q : ℚ)
  | posInf
  | negInf
  | nan
  deriving DecidableEq

/-- Float division of two finite values. -/
def F64.quot (a b : ℚ) : F64 :=
  if b = 0 then
    (if 0 < a then F64.posInf else if a < 0 then F64.negInf else F64.nan)
  else F64.fin (a / b)

/-- The float expression `math.Abs(a - x)` for a finite `a`. -/
def F64.absDiff (a : ℚ) : F64 → F64
  | .fin q => .fin |a - q|
  | .posInf => .posInf
  | .negInf => .posInf
  | .nan => .nan

/-- The float comparison `x < b` for a finite `b`. -/
def F64.ltFin : F64 → ℚ → Bool
  | .fin q, b => decide (q < b)
  | .posInf, _ => false
  | .negInf, _ => true
  | .nan, _ => false

/-- The float comparison `x > b` for a finite `b`. -/
def F64.gtFin : F64 → ℚ → Bool
  | .fin q, b => decide (b < q)
  | .posInf, _ => true
  | .negInf, _ => false
  | .nan, _ => false

/-- The function `math.Min`. -/
def F64.min : F64 → F64 → F64
  | .negInf, _ => .negInf
  | _, .negInf => .negInf
  | .nan, _ => .nan
  | _, .nan => .nan
  | .posInf, y => y
  | x, .posInf => x
  | .fin a, .fin b => if a < b then .fin a else .fin b

/-- The constant `math.MaxFloat64`, `2^1024 - 2^971`. -/
def MaxFloat64 : ℚ := ((2 ^ 1024 - 2 ^ 971 : Int) : ℚ)

/-- The float-to-int conversion `int(x)` of a finite value: truncation toward zero. -/
def goInt (q : ℚ) : Int := Int.tdiv q.num q.den

/-! ## Package config

In this section the `float64` fields are finite values and their comparisons are exact; the
section "Package config over float64" repeats the package with `F64` fields, which can hold
`NaN` and the infinities. -/

def FormatTypeFixed : String := "fixed"

def FormatTypeAuto : String := "auto"

structure Settings where
  JpegQuality : Int
  AssetsPath : String
  deriving DecidableEq

structure Profile where
  BackgroundRef : String
  WatermarkRef : String
  FormatRef : String
  PaddingPercent : Option ℚ
  BorderWidth : Int
  BorderColor : String
  NoUpscale : Bool
  JpegQuality : Int
  deriving DecidableEq

structure Format where
  Type_ : String
  Width : Int
  Height : Int
  FromList : List String
  PaddingPercent : ℚ
  deriving DecidableEq

structure Background where
  Type_ : String
  Color : String
  BlurRadius : ℚ
  Darken : ℚ
  deriving DecidableEq

structure Watermark where
  Font : String
  Size : ℚ
  Color : String
  Opacity : ℚ
  Align : String
  OffsetX : ℚ
  OffsetY : ℚ
  Outline : Bool
  OutlineColor : String
  OutlineWidth : ℚ
  deriving DecidableEq

structure Config where
  Settings : Settings
  Backgrounds : GoMap Background
  Watermarks : GoMap Watermark
  Formats : GoMap Format
  Profiles : GoMap Profile

structure ResolvedProfile where
  Name : String
  Background : Background
  Watermark : Option Watermark
  Format : Format
  FormatName : String
  PaddingPercent : ℚ
  BorderWidth : Int
  BorderColor : String
  NoUpscale : Bool
  JpegQuality : Int
  AssetsPath : String
  deriving DecidableEq

/-- The zero value `Format{}`. -/
def Format.zero : Format := ⟨"", 0, 0, [], 0⟩

/-- The zero value `Background{}`. -/
def Background.zero : Background := ⟨"", "", 0, 0⟩

/-- The zero value `ResolvedProfile{}`. -/
def ResolvedProfile.zero : ResolvedProfile :=
  ⟨"", Background.zero, none, Format.zero, "", 0, 0, "", false, 0, ""⟩

def validateFormat (S : Strings) (name : String) (format : Format) : Option GoError :=
  let t := S.ToLower (S.TrimSpace format.Type_)
  let kindErr : Option GoError :=
    if t = FormatTypeFixed then
      (if format.Width ≤ 0 ∨ format.Height ≤ 0 then
        some (.errorf ("formats." ++ name ++ " fixed format requires width and height"))
      else if format.FromList.length > 0 then
        some (.errorf ("formats." ++ name ++ " fixed format must not have from_list"))
      else none)
    else if t = FormatTypeAuto then
      (if format.FromList.length = 0 then
        some (.errorf ("formats." ++ name ++ " auto format requires from_list"))
      else if format.Width ≠ 0 ∨ format.Height ≠ 0 then
        some (.errorf ("formats." ++ name ++ " auto format must not have width/height"))
      else none)
    else some (.errorf ("formats." ++ name ++ " has unknown type: " ++ format.Type_))
  match kindErr with
  | some e => some e
  | none =>
    if format.PaddingPercent < 0 ∨ format.PaddingPercent > 50 then
      some (.errorf ("formats." ++ name ++ ".padding_percent must be 0..50"))
    else none

def validateBackground (S : Strings) (name : String) (bg : Background) : Option GoError :=
  let t := S.ToLower (S.TrimSpace bg.Type_)
  if ¬ (t = "solid" ∨ t = "blur" ∨ t = "stretch" ∨ t = "average") then
    some (.errorf ("backgrounds." ++ name ++ " has unknown type: " ++ bg.Type_))
  else if bg.Darken < 0 ∨ bg.Darken > 1 then
    some (.errorf ("backgrounds." ++ name ++ ".darken must be 0..1"))
  else none

def validateWatermark (S : Strings) (name : String) (wm : Watermark) : Option GoError :=
  if S.TrimSpace wm.Font = "" then
    some (.errorf ("watermarks." ++ name ++ ".font is required"))
  else if wm.Size ≤ 0 then
    some (.errorf ("watermarks." ++ name ++ ".size must be > 0"))
  else if wm.Opacity < 0 ∨ wm.Opacity > 1 then
    some (.errorf ("watermarks." ++ name ++ ".opacity must be 0..1"))
  else if wm.OutlineWidth < 0 then
    some (.errorf ("watermarks." ++ name ++ ".outline_width must be >= 0"))
  else none

def Config.validateProfile (S : Strings) (c : Config) (name : String) (profile : Profile) :
    Option GoError :=
  if S.TrimSpace profile.BackgroundRef = "" then
    some (.errorf ("profiles." ++ name ++ ".background_ref is required"))
  else if S.TrimSpace profile.FormatRef = "" then
    some (.errorf ("profiles." ++ name ++ ".format_ref is required"))
  else if (c.Backgrounds.find profile.BackgroundRef).isNone then
    some (.errorf ("profiles." ++ name ++ ".background_ref not found: " ++ profile.BackgroundRef))
  else if (c.Formats.find profile.FormatRef).isNone then
    some (.errorf ("profiles." ++ name ++ ".format_ref not found: " ++ profile.FormatRef))
  else if profile.WatermarkRef ≠ "" ∧ (c.Watermarks.find profile.WatermarkRef).isNone then
    some (.errorf ("profiles." ++ name ++ ".watermark_ref not found: " ++ profile.WatermarkRef))
  else if profile.JpegQuality ≠ 0 ∧ (profile.JpegQuality < 1 ∨ profile.JpegQuality > 100) then
    some (.errorf ("profiles." ++ name ++ ".jpeg_quality out of range: "
      ++ toString profile.JpegQuality))
  else
    match profile.PaddingPercent with
    | some p =>
      if p < 0 ∨ p > 50 then
        some (.errorf ("profiles." ++ name ++ ".padding_percent must be 0..50"))
      else none
    | none => none

/-- The inner loop of the second pass of `Validate`: the names referenced by one auto format. -/
def checkFromList (S : Strings) (formats : GoMap Format) (name : String) (ref : String) :
    Option GoError :=
  match formats.find ref with
  | none => some (.errorf ("formats." ++ name ++ " references unknown format: " ++ ref))
  | some candidate =>
    if S.ToLower (S.TrimSpace candidate.Type_) ≠ FormatTypeFixed then
      some (.errorf ("formats." ++ name ++ " references non-fixed format: " ++ ref))
    else none

/-- The first statement of `Validate`: a zero `settings.jpeg_quality` becomes 90. -/
def Config.defaultQuality (c : Config) : Config :=
  if c.Settings.JpegQuality = 0 then
    { c with Settings := { c.Settings with JpegQuality := 90 } }
  else c

/-- The third statement of `Validate`: a blank `settings.assets_path` becomes "assets". -/
def Config.defaultAssets (S : Strings) (c : Config) : Config :=
  if S.TrimSpace c.Settings.AssetsPath = "" then
    { c with Settings := { c.Settings with AssetsPath := "assets" } }
  else c

/-- The five loops of `Validate` over the maps of the configuration. -/
def Config.validateMaps (S : Strings) (c : Config) : Option GoError :=
  match firstErr (fun kv => validateFormat S kv.1 kv.2) c.Formats.range with
  | some e => some e
  | none =>
  match firstErr (fun kv =>
      if S.ToLower (S.TrimSpace kv.2.Type_) ≠ FormatTypeAuto then none
      else firstErr (checkFromList S c.Formats kv.1) kv.2.FromList) c.Formats.range with
  | some e => some e
  | none =>
  match firstErr (fun kv => validateBackground S kv.1 kv.2) c.Backgrounds.range with
  | some e => some e
  | none =>
  match firstErr (fun kv => validateWatermark S kv.1 kv.2) c.Watermarks.range with
  | some e => some e
  | none => firstErr (fun kv => c.validateProfile S kv.1 kv.2) c.Profiles.range

/-- The method `(*Config).Validate`: the configuration as the call leaves it, and the error. -/
def Config.Validate (S : Strings) (c0 : Config) : Config × Option GoError :=
  let c1 := c0.defaultQuality
  if c1.Settings.JpegQuality < 1 ∨ c1.Settings.JpegQuality > 100 then
    (c1, some (.errorf ("settings.jpeg_quality out of range: "
      ++ toString c1.Settings.JpegQuality)))
  else
    let c := c1.defaultAssets S
    (c, c.validateMaps S)

/-- The method `Config.ResolveProfile`. -/
def Config.ResolveProfile (S : Strings) (c : Config) (name : String) :
    ResolvedProfile × Option GoError :=
  match c.Profiles.find name with
  | none => (ResolvedProfile.zero, some (wrapSentinel .ErrProfileNotFound name))
  | some profile =>
  match c.Formats.find profile.FormatRef with
  | none => (ResolvedProfile.zero, some (wrapSentinel .ErrFormatNotFound profile.FormatRef))
  | some format =>
  match validateFormat S profile.FormatRef format with
  | some e => (ResolvedProfile.zero, some e)
  | none =>
  match c.Backgrounds.find profile.BackgroundRef with
  | none =>
    (ResolvedProfile.zero, some (wrapSentinel .ErrBackgroundNotFound profile.BackgroundRef))
  | some background =>
  match validateBackground S profile.BackgroundRef background with
  | some e => (ResolvedProfile.zero, some e)
  | none =>
  let wmStep : Option Watermark × Option GoError :=
    if profile.WatermarkRef ≠ "" then
      match c.Watermarks.find profile.WatermarkRef with
      | none => (none, some (wrapSentinel .ErrWatermarkNotFound profile.WatermarkRef))
      | some wm =>
        match validateWatermark S profile.WatermarkRef wm with
        | some e => (none, some e)
        | none => (some wm, none)
    else (none, none)
  match wmStep with
  | (_, some e) => (ResolvedProfile.zero, some e)
  | (watermark, none) =>
  let jpegQuality := if profile.JpegQuality ≠ 0 then profile.JpegQuality else c.Settings.JpegQuality
  let assetsPath :=
    if S.TrimSpace c.Settings.AssetsPath = "" then "assets" else S.TrimSpace c.Settings.AssetsPath
  let paddingPercent :=
    match profile.PaddingPercent with
    | some p => p
    | none => format.PaddingPercent
  ({ Name := name
     Background := background
     Watermark := watermark
     Format := format
     FormatName := profile.FormatRef
     PaddingPercent := paddingPercent
     BorderWidth := profile.BorderWidth
     BorderColor := profile.BorderColor
     NoUpscale := profile.NoUpscale
     JpegQuality := jpegQuality
     AssetsPath := assetsPath }, none)

/-! ## Package instafix: format selection

In this section the ratios are exact quotients; `IEEE.resolveFormat` computes them in
float64. -/

/-- The loop of `resolveFormat` over `from_list`, with the loop variables `best`, `bestDiff`.
An early `return` of the loop body is the `Except.error` result. -/
def autoLoop (S : Strings) (formats : GoMap Format) (srcRatio : ℚ) :
    List String → String → ℚ → Except GoError (String × ℚ)
  | [], best, bestDiff => .ok (best, bestDiff)
  | name :: rest, best, bestDiff =>
    match formats.find name with
    | none => .error (.errorf ("auto format references unknown format: " ++ name))
    | some candidate =>
      if S.ToLower candidate.Type_ ≠ FormatTypeFixed then
        .error (.errorf ("auto format references non-fixed format: " ++ name))
      else
        let ratio := F64.quot (candidate.Width : ℚ) (candidate.Height : ℚ)
        let diff := F64.absDiff srcRatio ratio
        match diff with
        | .fin d =>
          if d < bestDiff then autoLoop S formats srcRatio rest name d
          else autoLoop S formats srcRatio rest best bestDiff
        | _ => autoLoop S formats srcRatio rest best bestDiff

def resolveFormat (S : Strings) (formats : GoMap Format) (format : Format) (srcW srcH : Int) :
    Format × Option GoError :=
  if S.ToLower format.Type_ = FormatTypeFixed then (format, none)
  else if S.ToLower format.Type_ ≠ FormatTypeAuto then
    (Format.zero, some (.errorf ("unknown format type: " ++ format.Type_)))
  else if format.FromList.length = 0 then
    (Format.zero, some (.errorf "auto format requires from_list"))
  else if srcW ≤ 0 ∨ srcH ≤ 0 then
    (Format.zero, some (.errorf "invalid source size"))
  else
    let srcRatio : ℚ := (srcW : ℚ) / (srcH : ℚ)
    match autoLoop S formats srcRatio format.FromList "" MaxFloat64 with
    | .error e => (Format.zero, some e)
    | .ok (best, _) =>
      if best = "" then (Format.zero, some (.errorf "auto format has no valid candidates"))
      else ((formats.find best).getD Format.zero, none)

/-! ## Package instafix: images, fit and composition

In this section the arithmetic of `fitImage` is exact; `IEEE.fitImage` computes in float64. -/

/-- A non-premultiplied 8-bit colour, `color.NRGBA`. -/
structure NRGBA where
  R : Nat
  G : Nat
  B : Nat
  A : Nat
  deriving DecidableEq

/-- An `image.Image`: the width and height of its bounds and its pixels, addressed relative
to the top-left corner of the bounds. -/
structure Image where
  Dx : Int
  Dy : Int
  At : Int → Int → NRGBA

/-- The calls made on a `gg.Context` by package instafix. -/
inductive DrawOp where
  | SetRGBA (r g b a : ℚ)
  | SetRGB (r g b : ℚ)
  | Clear
  | DrawRectangle (x y w h : ℚ)
  | Fill
  | DrawImage (im : Image) (x y : Int)
  | LoadFontFace (path : String) (points : ℚ)
  | DrawStringAnchored (s : String) (x y ax ay : ℚ)

/-- A `gg.Context`: its fixed size and the calls made on it so far, oldest first. -/
structure Context where
  W : Int
  H : Int
  ops : List DrawOp

/-- The call `gg.NewContext(width, height)`. -/
def NewContext (width height : Int) : Context := ⟨width, height, []⟩

/-- One or more calls on the context. -/
def Context.run (dc : Context) (ops : List DrawOp) : Context := { dc with ops := dc.ops ++ ops }

/-- The primitives of the imaging and drawing libraries used by `fitImage` and `renderImage`. -/
structure Imaging where
  /-- The call `imaging.Fit(img, w, h, imaging.Lanczos)`. -/
  Fit : Image → Int → Int → Image
  /-- The pixels of a context of the given size after the given calls. -/
  pixels : Int → Int → List DrawOp → Int → Int → NRGBA

/-- The method `(*gg.Context).Image`. -/
def Context.Image (G : Imaging) (dc : Context) : Image := ⟨dc.W, dc.H, G.pixels dc.W dc.H dc.ops⟩

/-- The drawing helpers of render.go called by `renderImage`, each given by the calls it makes
on the context.  They are parameters of `renderImage` and `Process`. -/
structure Painter where
  /-- The helper `drawBackground(dc, src, bg, width, height, fitted, fitX, fitY)`. -/
  drawBackground : Image → Background → Int → Int → Image → Int → Int → List DrawOp
  /-- The helper `drawBorder(dc, x, y, w, h, borderWidth, borderColor)`. -/
  drawBorder : ℚ → ℚ → ℚ → ℚ → Int → String → List DrawOp
  /-- The helper `drawWatermark(dc, text, wm, assetsPath)` on a context of the given size. -/
  drawWatermark : Int → Int → String → Watermark → String → List DrawOp × Option GoError

def fitImage (G : Imaging) (src : Image) (targetW targetH : Int) (paddingPercent : ℚ)
    (noUpscale : Bool) : Image × ℚ × ℚ :=
  let canvasW : ℚ := (targetW : ℚ)
  let canvasH : ℚ := (targetH : ℚ)
  let padding : ℚ := max paddingPercent 0
  let availW0 : ℚ := canvasW * (1 - (padding * 2 / 100))
  let availH0 : ℚ := canvasH * (1 - (padding * 2 / 100))
  let availW : ℚ := if availW0 < 1 then 1 else availW0
  let availH : ℚ := if availH0 < 1 then 1 else availH0
  let srcW : ℚ := (src.Dx : ℚ)
  let srcH : ℚ := (src.Dy : ℚ)
  let scale : F64 := F64.min (F64.quot availW srcW) (F64.quot availH srcH)
  let fitted : Image :=
    if noUpscale = true ∧ scale.gtFin 1 = true then src
    else G.Fit src (goInt availW) (goInt availH)
  let x : ℚ := (canvasW - (fitted.Dx : ℚ)) / 2
  let y : ℚ := (canvasH - (fitted.Dy : ℚ)) / 2
  (fitted, x, y)

def renderImage (G : Imaging) (P : Painter) (src : Image) (resolved : ResolvedProfile)
    (format : Format) (watermarkText : String) : Option Image × Option GoError :=
  let targetW := format.Width
  let targetH := format.Height
  if targetW ≤ 0 ∨ targetH ≤ 0 then
    (none, some (.errorf ("invalid target size: " ++ toString targetW ++ "x" ++ toString targetH)))
  else
    let dc0 := NewContext targetW targetH
    let (img, x, y) := fitImage G src targetW targetH resolved.PaddingPercent resolved.NoUpscale
    let dc1 := dc0.run
      (P.drawBackground src resolved.Background targetW targetH img (goInt x) (goInt y))
    let imgW : ℚ := (img.Dx : ℚ)
    let imgH : ℚ := (img.Dy : ℚ)
    let dc2 :=
      if resolved.BorderWidth > 0 then
        dc1.run (P.drawBorder x y imgW imgH resolved.BorderWidth resolved.BorderColor)
      else dc1
    let dc3 := dc2.run [DrawOp.DrawImage img (goInt x) (goInt y)]
    match resolved.Watermark with
    | some wm =>
      if watermarkText ≠ "" then
        match P.drawWatermark dc3.W dc3.H watermarkText wm resolved.AssetsPath with
        | (_, some err) => (none, some err)
        | (ops, none) => (some ((dc3.run ops).Image G), none)
      else (some (dc3.Image G), none)
    | none => (some (dc3.Image G), none)

/-- The struct `Processor`. -/
structure Processor where
  cfg : Config

def NewProcessor (S : Strings) (cfg : Config) : Option Processor × Option GoError :=
  match cfg.Validate S with
  | (_, some err) => (none, some err)
  | (validated, none) => (some ⟨validated⟩, none)

/-- The method `(*Processor).Process`: the image, the JPEG quality and the error. -/
def Processor.Process (S : Strings) (G : Imaging) (P : Painter) (p : Processor) (src : Image)
    (profileName watermarkText : String) : Option Image × Int × Option GoError :=
  match p.cfg.ResolveProfile S profileName with
  | (_, some err) =>
    if errorsIs err .ErrProfileNotFound = true then (none, 0, some (.userError err))
    else (none, 0, some err)
  | (resolved, none) =>
    match resolveFormat S p.cfg.Formats resolved.Format src.Dx src.Dy with
    | (_, some err) => (none, 0, some err)
    | (format, none) =>
      if watermarkText ≠ "" ∧ resolved.Watermark = none then
        (none, 0, some (.userError
          (.errorf "watermark text provided, but profile has no watermark_ref")))
      else
        match renderImage G P src resolved format watermarkText with
        | (_, some err) => (none, 0, some err)
        | (result, none) => (result, resolved.JpegQuality, none)

/-! ## Command service -/

/-- The function `isUserError`: `errors.As` with a target of type `instafix.UserError`. -/
def isUserError : GoError → Bool
  | .userError _ => true
  | .wrapf inner _ => isUserError inner
  | .sentinel _ => false
  | .errorf _ => false
  | .external _ => false

/-! ## Specification predicates and fixtures -/

/-- The exact distance between the source ratio and the ratio of a candidate. -/
def ratioDist (srcW srcH : Int) (c : Format) : ℚ :=
  |(srcW : ℚ) / (srcH : ℚ) - (c.Width : ℚ) / (c.Height : ℚ)|

/-- The formats of `TestResolveFormatAutoChoosesClosestRatio`. -/
def testFormats : GoMap Format := ⟨[
  ("square", ⟨"fixed", 1080, 1080, [], 0⟩),
  ("portrait", ⟨"fixed", 1080, 1350, [], 0⟩),
  ("land", ⟨"fixed", 1080, 566, [], 0⟩),
  ("auto", ⟨"auto", 0, 0, ["square", "portrait", "land"], 0⟩)]⟩

/-- A background entry used by the fixtures. -/
def blackBackground : Background := ⟨"solid", "#000000", 0, 0⟩

/-- A profile without watermark that refers to the format `auto`. -/
def autoProfile : Profile := ⟨"black", "", "auto", none, 0, "", false, 0⟩

/-- A valid configuration whose profile `default` uses an auto format. -/
def autoConfig : Config where
  Settings := ⟨90, "assets"⟩
  Backgrounds := ⟨[("black", blackBackground)]⟩
  Watermarks := ⟨[]⟩
  Formats := ⟨[("square", ⟨"fixed", 100, 100, [], 0⟩), ("auto", ⟨"auto", 0, 0, ["square"], 0⟩)]⟩
  Profiles := ⟨[("default", autoProfile)]⟩

/-- The profile of `TestProcess_WatermarkRequiresStyle`. -/
def squareProfile : Profile := ⟨"black", "", "square", none, 0, "", false, 0⟩

/-- The configuration of `TestProcess_WatermarkRequiresStyle`. -/
def squareConfig : Config where
  Settings := ⟨90, "assets"⟩
  Backgrounds := ⟨[("black", blackBackground)]⟩
  Watermarks := ⟨[]⟩
  Formats := ⟨[("square", ⟨"fixed", 100, 100, [], 0⟩)]⟩
  Profiles := ⟨[("default", squareProfile)]⟩

/-- The configuration of `TestResolveProfileMissing`. -/
def emptyConfig : Config := ⟨⟨90, "assets"⟩, ⟨[]⟩, ⟨[]⟩, ⟨[]⟩, ⟨[]⟩⟩

/-- An image of the given size filled with one colour. -/
def solidImage (w h : Int) (c : NRGBA) : Image := ⟨w, h, fun _ _ => c⟩

/-- A fit primitive that never returns more than the box: each side is cut to the box. -/
def cutImaging : Imaging where
  Fit := fun img w h => ⟨min img.Dx w, min img.Dy h, img.At⟩
  pixels := fun _ _ _ _ _ => ⟨0, 0, 0, 255⟩

/-- A painter that makes no call and never fails. -/
def idlePainter : Painter where
  drawBackground := fun _ _ _ _ _ _ _ => []
  drawBorder := fun _ _ _ _ _ _ => []
  drawWatermark := fun _ _ _ _ _ => ([], none)

/-- The side of the available area as `fitImage` computes it: the padding is clamped at 0
and the result at 1. -/
def availSide (target : Int) (paddingPercent : ℚ) : ℚ :=
  if (target : ℚ) * (1 - (max paddingPercent 0 * 2 / 100)) < 1 then 1
  else (target : ℚ) * (1 - (max paddingPercent 0 * 2 / 100))

/-- The local `scale` of `fitImage`. -/
def fitScale (src : Image) (targetW targetH : Int) (paddingPercent : ℚ) : F64 :=
  F64.min (F64.quot (availSide targetW paddingPercent) (src.Dx : ℚ))
    (F64.quot (availSide targetH paddingPercent) (src.Dy : ℚ))

/-- A configuration with a watermark and a profile that overrides the padding with 0. -/
def fullConfig : Config where
  Settings := ⟨85, "assets"⟩
  Backgrounds := ⟨[("black", blackBackground)]⟩
  Watermarks := ⟨[("standard", ⟨"roboto.ttf", 12, "#ffffff", 1, "", 0, 0, false, "", 0⟩)]⟩
  Formats := ⟨[("square", ⟨"fixed", 100, 100, [], 5⟩), ("auto", ⟨"auto", 0, 0, ["square"], 10⟩)]⟩
  Profiles := ⟨[("default", ⟨"black", "standard", "square", some 0, 3, "#fff", true, 0⟩)]⟩

/-- The resolved form of the profile `default` of `fullConfig`. -/
def fullResolved : ResolvedProfile where
  Name := "default"
  Background := blackBackground
  Watermark := some ⟨"roboto.ttf", 12, "#ffffff", 1, "", 0, 0, false, "", 0⟩
  Format := ⟨"fixed", 100, 100, [], 5⟩
  FormatName := "square"
  PaddingPercent := 0
  BorderWidth := 3
  BorderColor := "#fff"
  NoUpscale := true
  JpegQuality := 85
  AssetsPath := "assets"

/-! ## Package instafix: watermark anchor -/

/-- The loop of `strings.Split(s, "-")` over the characters of `s`; `cur` holds the
characters of the current part in reverse. -/
def splitHyphenAux (cur : List Char) : List Char → List (List Char)
  | [] => [cur.reverse]
  | c :: rest =>
    if c = '-' then cur.reverse :: splitHyphenAux [] rest
    else splitHyphenAux (c :: cur) rest

/-- The call `strings.Split(s, "-")`. -/
def splitHyphen (s : String) : List String :=
  (splitHyphenAux [] s.data).map String.mk

def anchorForAlign (S : Strings) (width height : Int) (align : String) (offsetX offsetY : ℚ) :
    ℚ × ℚ × ℚ × ℚ :=
  let w : ℚ := (width : ℚ)
  let h : ℚ := (height : ℚ)
  let align1 := S.ToLower (S.TrimSpace align)
  let align2 := if align1 = "" then "bottom-center" else align1
  let parts := splitHyphen align2
  let anchors : String × String :=
    match parts with
    | [p0, p1] => (p0, p1)
    | [p0] =>
      if p0 = "top" ∨ p0 = "bottom" then (p0, "center")
      else if p0 = "left" ∨ p0 = "right" then ("center", p0)
      else if p0 = "center" ∨ p0 = "middle" then ("center", "center")
      else ("bottom", p0)
    | _ => ("bottom", "center")
  let vAnchor := anchors.1
  let hAnchor := anchors.2
  let xa : ℚ × ℚ :=
    if hAnchor = "left" then (offsetX, 0)
    else if hAnchor = "right" then (w - offsetX, 1)
    else (w / 2 + offsetX, 1 / 2)
  let ya : ℚ × ℚ :=
    if vAnchor = "top" then (offsetY, 0)
    else if vAnchor = "center" ∨ vAnchor = "middle" then (h / 2 + offsetY, 1 / 2)
    else (h - offsetY, 1)
  (xa.1, ya.1, xa.2, ya.2)

/-- The horizontal anchor `(x, ax)` of the specification for the keyword `h`. -/
def hAnchorSpec (width : Int) (h : String) (offsetX : ℚ) : ℚ × ℚ :=
  if h = "left" then (offsetX, 0)
  else if h = "right" then ((width : ℚ) - offsetX, 1)
  else ((width : ℚ) / 2 + offsetX, 1 / 2)

/-- The vertical anchor `(y, ay)` of the specification for the keyword `v`. -/
def vAnchorSpec (height : Int) (v : String) (offsetY : ℚ) : ℚ × ℚ :=
  if v = "top" then (offsetY, 0)
  else if v = "center" ∨ v = "middle" then ((height : ℚ) / 2 + offsetY, 1 / 2)
  else ((height : ℚ) - offsetY, 1)

/-- The pairs of C14: a single-word or empty normalised align string `a` and the two-part
form `b` it stands for. -/
def SingleWordForm (a b : String) : Prop :=
  (a = "top" ∧ b = "top-center") ∨ (a = "bottom" ∧ b = "bottom-center") ∨
  (a = "left" ∧ b = "center-left") ∨ (a = "right" ∧ b = "center-right") ∨
  (a = "center" ∧ b = "center-center") ∨ (a = "middle" ∧ b = "center-center") ∨
  (a = "" ∧ b = "bottom-center") ∨
  ('-' ∉ a.data ∧ a ≠ "top" ∧ a ≠ "bottom" ∧ a ≠ "left" ∧ a ≠ "right" ∧ a ≠ "center" ∧
    a ≠ "middle" ∧ b = "bottom-center")

/-- The vertical and horizontal keywords that `anchorForAlign` reads off the parts of the
align string. -/
def anchorPair : List String → String × String
  | [p0, p1] => (p0, p1)
  | [p0] =>
    if p0 = "top" ∨ p0 = "bottom" then (p0, "center")
    else if p0 = "left" ∨ p0 = "right" then ("center", p0)
    else if p0 = "center" ∨ p0 = "middle" then ("center", "center")
    else ("bottom", p0)
  | _ => ("bottom", "center")

/-! ## Package instafix: colours -/

/-- White space as the scanner of package fmt sees it (the table `space` of fmt/scan.go). -/
def fmtIsSpace (c : Char) : Bool :=
  let n := c.toNat
  (9 ≤ n && n ≤ 13) || n = 32 || n = 133 || n = 160 || n = 5760 || (8192 ≤ n && n ≤ 8202) ||
    n = 8232 || n = 8233 || n = 8239 || n = 8287 || n = 12288

/-- The method `SkipSpace` of the scanner in the mode of `Sscanf`: white space is skipped and
a newline is an error. -/
def fmtSkipSpace : List Char → Except String (List Char)
  | [] => .ok []
  | c :: rest =>
    if c.toNat = 10 then .error "unexpected newline"
    else if fmtIsSpace c then fmtSkipSpace rest
    else .ok (c :: rest)

/-- The value of a hexadecimal digit. -/
def hexDigit (c : Char) : Option Nat :=
  let n := c.toNat
  if 48 ≤ n ∧ n ≤ 57 then some (n - 48)
  else if 97 ≤ n ∧ n ≤ 102 then some (n - 87)
  else if 65 ≤ n ∧ n ≤ 70 then some (n - 55)
  else none

/-- The digits accepted by one `%x` verb: at most `width` leading hexadecimal digits of the
input, with their value so far and the input left. -/
def scanHexDigits : Nat → Nat → List Char → Nat × List Char
  | 0, acc, input => (acc, input)
  | _ + 1, acc, [] => (acc, [])
  | width + 1, acc, c :: rest =>
    match hexDigit c with
    | some d => scanHexDigits width (acc * 16 + d) rest
    | none => (acc, c :: rest)

/-- One verb `%Nx` of `fmt.Sscanf` with a `*uint8` operand: white space is skipped, then one
to `width` hexadecimal digits are read. -/
def scanHexVerb (width : Nat) (input : List Char) : Except String (Nat × List Char) :=
  match fmtSkipSpace input with
  | .error e => .error e
  | .ok [] => .error "unexpected EOF"
  | .ok (c :: rest) =>
    match hexDigit c with
    | none => .error "expected integer"
    | some _ => .ok (scanHexDigits width 0 (c :: rest))

/-- The call `fmt.Sscanf(hex, "#%Nx%Nx%Nx", &r, &g, &b)` with `uint8` operands, for the
width `N` of the three verbs: the literal `#` must match, each verb reads its digits, and
input left over after the last verb is ignored. -/
def sscanfHex (width : Nat) (hex : String) : Except String (Nat × Nat × Nat) :=
  match hex.data with
  | [] => .error "unexpected EOF"
  | c :: rest =>
    if c.toNat ≠ 35 then .error "input does not match format"
    else
      match scanHexVerb width rest with
      | .error e => .error e
      | .ok (r, rest1) =>
        match scanHexVerb width rest1 with
        | .error e => .error e
        | .ok (g, rest2) =>
          match scanHexVerb width rest2 with
          | .error e => .error e
          | .ok (b, _) => .ok (r, g, b)

/-- The zero value `color.NRGBA{}`. -/
def NRGBA.zero : NRGBA := ⟨0, 0, 0, 0⟩

def parseHexColor (S : Strings) (hex0 : String) : NRGBA × Option GoError :=
  let hex := S.TrimSpace hex0
  if hex = "" then (NRGBA.zero, some (.errorf "empty color"))
  else if hex.data.head? ≠ some (Char.ofNat 35) then
    (NRGBA.zero, some (.errorf ("invalid color: " ++ hex)))
  else if hex.utf8ByteSize = 4 then
    match sscanfHex 1 hex with
    | .error e => (NRGBA.zero, some (.external e))
    | .ok (r, g, b) => (⟨r * 17 % 256, g * 17 % 256, b * 17 % 256, 255⟩, none)
  else if hex.utf8ByteSize = 7 then
    match sscanfHex 2 hex with
    | .error e => (NRGBA.zero, some (.external e))
    | .ok (r, g, b) => (⟨r, g, b, 255⟩, none)
  else (NRGBA.zero, some (.errorf ("invalid color length: " ++ hex)))

/-- The helper `setHexColor(dc, hex, opacity)`: the calls it makes on the context. -/
def setHexColor (S : Strings) (hex : String) (opacity : ℚ) : List DrawOp :=
  match parseHexColor S hex with
  | (_, some _) => [DrawOp.SetRGBA 1 1 1 opacity]
  | (c, none) => [DrawOp.SetRGBA ((c.R : ℚ) / 255) ((c.G : ℚ) / 255) ((c.B : ℚ) / 255) opacity]

/-! ## Package instafix: decoding -/

/-- The call `bytes.Index(s, []byte{0xFF, 0xD9})`, `none` for -1. -/
def indexFFD9 : List Nat → Option Nat
  | a :: b :: rest =>
    if a = 255 ∧ b = 217 then some 0
    else (indexFFD9 (b :: rest)).map (· + 1)
  | _ => none

/-- The loop of `extractJPEGs` from index `i` on, with the slice `results`.  Every turn of
the loop takes one unit of `fuel`; the loop ends when `i < len(data)-1` fails. -/
def extractLoop (data : List Nat) : Nat → Nat → List (List Nat) → List (List Nat)
  | 0, _, results => results
  | fuel + 1, i, results =>
    if i + 1 < data.length then
      if data.getD i 0 ≠ 255 ∨ data.getD (i + 1) 0 ≠ 216 then
        extractLoop data fuel (i + 1) results
      else
        match indexFFD9 (data.drop (i + 2)) with
        | none => extractLoop data fuel (i + 1) results
        | some j =>
          if i + 2 + j + 2 > data.length then extractLoop data fuel (i + 1) results
          else
            extractLoop data fuel (i + 2 + j + 2)
              (results ++ [(data.drop i).take (i + 2 + j + 2 - i)])
    else results

/-- The function `extractJPEGs`; the index grows in every turn, so `len(data)` turns are
enough. -/
def extractJPEGs (data : List Nat) : List (List Nat) :=
  extractLoop data data.length 0 []

/-- The decoder and the path function used by `DecodeImage`. -/
structure Codec where
  /-- The call `imaging.Decode(bytes.NewReader(data), imaging.AutoOrientation(true))`. -/
  Decode : List Nat → Except GoError Image
  /-- The function `filepath.Ext`. -/
  Ext : String → String

/-- The loop of `decodeDNGPreview` over the candidates, with the variables `best` and
`bestArea`. -/
def previewLoop (D : Codec) : List (List Nat) → Option Image → Int → Option Image
  | [], best, _ => best
  | candidate :: rest, best, bestArea =>
    match D.Decode candidate with
    | .error _ => previewLoop D rest best bestArea
    | .ok img =>
      if img.Dx * img.Dy > bestArea then previewLoop D rest (some img) (img.Dx * img.Dy)
      else previewLoop D rest best bestArea

def decodeDNGPreview (D : Codec) (data : List Nat) : Option Image × Option GoError :=
  let candidates := extractJPEGs data
  if candidates.length = 0 then
    (none, some (.errorf "no embedded JPEG preview found in DNG"))
  else
    match previewLoop D candidates none 0 with
    | none => (none, some (.errorf "failed to decode embedded JPEG preview"))
    | some best => (some best, none)

/-- The function `DecodeImage`; `read` is the result of `io.ReadAll(r)`. -/
def DecodeImage (S : Strings) (D : Codec) (read : List Nat × Option GoError)
    (filename : String) : Option Image × Option GoError :=
  match read.2 with
  | some err => (none, some (.wrapf err ("read image: " ++ err.Error)))
  | none =>
    let data := read.1
    let ext := S.ToLower (D.Ext filename)
    if ext = ".dng" ∨ ext = ".raw" then decodeDNGPreview D data
    else
      match D.Decode data with
      | .ok img => (some img, none)
      | .error err =>
        match decodeDNGPreview D data with
        | (preview, none) => (preview, none)
        | (_, some _) => (none, some err)

/-- Whether the bytes `a`, `b` occur next to each other in a byte string. -/
def hasPair (a b : Nat) : List Nat → Bool
  | x :: y :: rest => (x = a && y = b) || hasPair a b (y :: rest)
  | _ => false

/-- The bytes of "DNGFAKE", the prefix of `TestDecodeImage_DNGPreview`. -/
def dngFake : List Nat := [68, 78, 71, 70, 65, 75, 69]

/-- The bytes of "TRAILER", the suffix of `TestDecodeImage_DNGPreview`. -/
def trailer : List Nat := [84, 82, 65, 73, 76, 69, 82]

/-- A byte string that stands for the JPEG of the test: it begins with FF D8, ends with
FF D9 and has no other FF D9 pair. -/
def toyJpeg : List Nat := [255, 216, 255, 219, 0, 67, 255, 217]

/-- A codec that decodes `toyJpeg` to a 32x24 image and nothing else, and takes the last four
characters of a name as its extension. -/
def toyCodec : Codec where
  Decode := fun data =>
    if data = toyJpeg then .ok (solidImage 32 24 ⟨200, 10, 20, 255⟩)
    else .error (.external "image: unknown format")
  Ext := fun name => String.mk (name.data.drop (name.data.length - 4))

/-- A second byte string that stands for a JPEG, of 64x48 pixels in `twoCodec`. -/
def bigJpeg : List Nat := [255, 216, 255, 192, 0, 17, 255, 217]

/-- A codec that decodes `toyJpeg` to a 32x24 image and `bigJpeg` to a 64x48 image. -/
def twoCodec : Codec where
  Decode := fun data =>
    if data = toyJpeg then .ok (solidImage 32 24 ⟨200, 10, 20, 255⟩)
    else if data = bigJpeg then .ok (solidImage 64 48 ⟨20, 10, 200, 255⟩)
    else .error (.external "image: unknown format")
  Ext := fun name => String.mk (name.data.drop (name.data.length - 4))

/-! ## Package image: rectangles, colours and drawing -/

/-- An `image.Rectangle` with the corners `Min` and `Max`. -/
structure Rectangle where
  MinX : Int
  MinY : Int
  MaxX : Int
  MaxY : Int
  deriving DecidableEq, Repr

/-- The function `image.Rect`: the coordinates of the two corners are put in order. -/
def Rect (x0 y0 x1 y1 : Int) : Rectangle :=
  ⟨if x0 > x1 then x1 else x0, if y0 > y1 then y1 else y0,
   if x0 > x1 then x0 else x1, if y0 > y1 then y0 else y1⟩

def Rectangle.Dx (r : Rectangle) : Int := r.MaxX - r.MinX

def Rectangle.Dy (r : Rectangle) : Int := r.MaxY - r.MinY

/-- The method `Empty`: the rectangle holds no point. -/
def Rectangle.Empty (r : Rectangle) : Bool :=
  decide (r.MinX ≥ r.MaxX) || decide (r.MinY ≥ r.MaxY)

/-- The method `Point.In` for the point `(x, y)`. -/
def Rectangle.In (r : Rectangle) (x y : Int) : Bool :=
  decide (r.MinX ≤ x) && decide (x < r.MaxX) && decide (r.MinY ≤ y) && decide (y < r.MaxY)

/-- The method `Intersect`; an empty intersection is the zero rectangle. -/
def Rectangle.Intersect (r s : Rectangle) : Rectangle :=
  let r1 : Rectangle :=
    ⟨if r.MinX < s.MinX then s.MinX else r.MinX, if r.MinY < s.MinY then s.MinY else r.MinY,
     if r.MaxX > s.MaxX then s.MaxX else r.MaxX, if r.MaxY > s.MaxY then s.MaxY else r.MaxY⟩
  if r1.Empty then ⟨0, 0, 0, 0⟩ else r1

/-- The method `Add` for the point `(px, py)`. -/
def Rectangle.Add (r : Rectangle) (px py : Int) : Rectangle :=
  ⟨r.MinX + px, r.MinY + py, r.MaxX + px, r.MaxY + py⟩

/-- The bounds of an image, whose top-left corner is taken as the origin. -/
def Image.Bounds (m : Image) : Rectangle := ⟨0, 0, m.Dx, m.Dy⟩

/-- The image `&image.NRGBA{}`. -/
def Image.empty : Image := ⟨0, 0, fun _ _ => NRGBA.zero⟩

/-- The function `image.NewNRGBA`: every pixel is `color.NRGBA{}`. -/
def NewNRGBA (r : Rectangle) : Image := ⟨r.Dx, r.Dy, fun _ _ => NRGBA.zero⟩

/-- The method `color.NRGBA.RGBA`: the alpha-premultiplied 16-bit channels
`r |= r << 8; r *= a; r /= 0xff` and `a |= a << 8`, for 8-bit fields. -/
def NRGBA.RGBA (c : NRGBA) : Nat × Nat × Nat × Nat :=
  (c.R * 257 * c.A / 255, c.G * 257 * c.A / 255, c.B * 257 * c.A / 255, c.A * 257)

/-- The function `colorToNRGBA`: `uint8(r >> 8)` of every premultiplied channel. -/
def colorToNRGBA (c : NRGBA) : NRGBA :=
  ⟨c.RGBA.1 / 256 % 256, c.RGBA.2.1 / 256 % 256, c.RGBA.2.2.1 / 256 % 256,
   c.RGBA.2.2.2 / 256 % 256⟩

/-- The pixel stored by the method `(*image.NRGBA).SetRGBA64` for the premultiplied 16-bit
colour `(r, g, b, a)`. -/
def setRGBA64 (r g b a : Nat) : NRGBA :=
  if a ≠ 0 ∧ a ≠ 65535 then
    ⟨r * 65535 / a / 256 % 256, g * 65535 / a / 256 % 256, b * 65535 / a / 256 % 256,
     a / 256 % 256⟩
  else ⟨r / 256 % 256, g / 256 % 256, b / 256 % 256, a / 256 % 256⟩

/-- The pixel stored by `draw.Draw` with `draw.Src` from `image.NewUniform(c)`: the colour
goes through `RGBA64At` and `SetRGBA64`. -/
def storeUniform (c : NRGBA) : NRGBA :=
  setRGBA64 c.RGBA.1 c.RGBA.2.1 c.RGBA.2.2.1 c.RGBA.2.2.2

/-- The pixel stored by `draw.Draw` with `draw.Over` for the source pixel `s` on the
destination pixel `d`; the sums are `uint16`. -/
def storeOver (s d : NRGBA) : NRGBA :=
  let a := 65535 - s.RGBA.2.2.2
  setRGBA64 ((d.RGBA.1 * a / 65535 % 65536 + s.RGBA.1) % 65536)
    ((d.RGBA.2.1 * a / 65535 % 65536 + s.RGBA.2.1) % 65536)
    ((d.RGBA.2.2.1 * a / 65535 % 65536 + s.RGBA.2.2.1) % 65536)
    ((d.RGBA.2.2.2 * a / 65535 % 65536 + s.RGBA.2.2.2) % 65536)

/-- The operators `draw.Src` and `draw.Over`. -/
inductive Op where
  | Src
  | Over
  deriving DecidableEq, Repr

/-- The source of a draw: an `*image.NRGBA`, or `image.NewUniform(c)`. -/
inductive Source where
  | image (m : Image)
  | uniform (c : NRGBA)

/-- The pixel a draw stores at a point of its clipped rectangle: `sx`, `sy` is the point of
the source and `d` the pixel of the destination.  A `draw.Src` from an `*image.NRGBA` copies
the pixel. -/
def drawPixel (op : Op) (src : Source) (sx sy : Int) (d : NRGBA) : NRGBA :=
  match src, op with
  | .image m, .Src => m.At sx sy
  | .image m, .Over => storeOver (m.At sx sy) d
  | .uniform c, .Src => storeUniform c
  | .uniform c, .Over => storeOver c d

/-- The rectangle that `draw.Draw(dst, r, src, image.Point{}, op)` writes: `r` clipped to the
bounds of `dst` and to the bounds of `src` moved to the corner of `r`.  The bounds of an
`image.Uniform` hold every rectangle of an image. -/
def clip (dst : Image) (r : Rectangle) (src : Source) : Rectangle :=
  match src with
  | .image m => (r.Intersect dst.Bounds).Intersect (m.Bounds.Add r.MinX r.MinY)
  | .uniform _ => r.Intersect dst.Bounds

/-- The function `draw.Draw(dst, r, src, image.Point{}, op)` on an `*image.NRGBA`. -/
def Draw (dst : Image) (r : Rectangle) (src : Source) (op : Op) : Image :=
  ⟨dst.Dx, dst.Dy, fun x y =>
    if (clip dst r src).In x y then drawPixel op src (x - r.MinX) (y - r.MinY) (dst.At x y)
    else dst.At x y⟩

/-- One call of `draw.Draw` on the background. -/
structure DrawCall where
  r : Rectangle
  src : Source
  op : Op

/-- The image after a sequence of `draw.Draw` calls. -/
def paint (bg : Image) (calls : List DrawCall) : Image :=
  calls.foldl (fun m d => Draw m d.r d.src d.op) bg

/-! ## Package imaging: crop and nearest-neighbour resize -/

/-- The function `imaging.Crop`. -/
def Crop (img : Image) (rect : Rectangle) : Image :=
  let r := rect.Intersect img.Bounds
  if r.Empty then Image.empty
  else
    ⟨r.Dx, r.Dy, fun x y =>
      if 0 ≤ x ∧ x < r.Dx ∧ 0 ≤ y ∧ y < r.Dy then img.At (r.MinX + x) (r.MinY + y)
      else NRGBA.zero⟩

/-- The function `resizeNearest` of package imaging: the pixel `(x, y)` is read at
`int((x + 0.5) * dx)`, `int((y + 0.5) * dy)`. -/
def resizeNearest (img : Image) (width height : Int) : Image :=
  let dx : ℚ := (img.Dx : ℚ) / (width : ℚ)
  let dy : ℚ := (img.Dy : ℚ) / (height : ℚ)
  ⟨width, height, fun x y =>
    if 0 ≤ x ∧ x < width ∧ 0 ≤ y ∧ y < height then
      img.At (goInt (((x : ℚ) + 1 / 2) * dx)) (goInt (((y : ℚ) + 1 / 2) * dy))
    else NRGBA.zero⟩

/-- The function `imaging.Resize(img, width, height, imaging.NearestNeighbor)`. -/
def Resize (img : Image) (width height : Int) : Image :=
  if width < 0 ∨ height < 0 then Image.empty
  else if width = 0 ∧ height = 0 then Image.empty
  else if img.Dx ≤ 0 ∨ img.Dy ≤ 0 then Image.empty
  else
    let dstW : Int :=
      if width = 0 then max 1 ⌊(height : ℚ) * (img.Dx : ℚ) / (img.Dy : ℚ) + 1 / 2⌋ else width
    let dstH : Int :=
      if height = 0 then max 1 ⌊(dstW : ℚ) * (img.Dy : ℚ) / (img.Dx : ℚ) + 1 / 2⌋ else height
    resizeNearest img dstW dstH

/-! ## Package instafix: stretched background -/

/-- The slice `topRow` of `stretchBackground`. -/
def topRow (edgeSample : Image) (fitW : Int) : List NRGBA :=
  (List.range fitW.toNat).map fun (x : Nat) => colorToNRGBA (edgeSample.At (x : Int) 0)

/-- The slice `bottomRow` of `stretchBackground`. -/
def bottomRow (edgeSample : Image) (fitW fitH : Int) : List NRGBA :=
  (List.range fitW.toNat).map fun (x : Nat) =>
    colorToNRGBA (edgeSample.At (x : Int) (fitH - 1))

/-- The function `fillRect`, as the draw it makes. -/
def fillRect (rect : Rectangle) (c : NRGBA) : List DrawCall :=
  if rect.Empty then [] else [⟨rect, .uniform c, .Src⟩]

/-- The block `if x0 > 0` of `stretchBackground`: the draw of the left strip. -/
def leftDraw (fitted : Image) (x0 y0 : Int) : List DrawCall :=
  if x0 > 0 then
    let leftStrip := Crop fitted (Rect 0 0 1 fitted.Dy)
    let leftFill := Resize leftStrip x0 fitted.Dy
    [⟨Rect 0 y0 x0 (y0 + fitted.Dy), .image leftFill, .Src⟩]
  else []

/-- The block `if rightPad > 0` of `stretchBackground`: the draw of the right strip. -/
def rightDraw (fitted : Image) (width x0 y0 : Int) : List DrawCall :=
  let rightPad := width - (x0 + fitted.Dx)
  if rightPad > 0 then
    let rightStrip := Crop fitted (Rect (fitted.Dx - 1) 0 fitted.Dx fitted.Dy)
    let rightFill := Resize rightStrip rightPad fitted.Dy
    [⟨Rect (x0 + fitted.Dx) y0 width (y0 + fitted.Dy), .image rightFill, .Src⟩]
  else []

/-- The block `if y0 > 0` of `stretchBackground`: the draw of the top strip. -/
def topDraw (fitted : Image) (x0 y0 : Int) : List DrawCall :=
  if y0 > 0 then
    let topStrip := Crop fitted (Rect 0 0 fitted.Dx 1)
    let topFill := Resize topStrip fitted.Dx y0
    [⟨Rect x0 0 (x0 + fitted.Dx) y0, .image topFill, .Src⟩]
  else []

/-- The block `if bottomPad > 0` of `stretchBackground`: the draw of the bottom strip. -/
def bottomDraw (fitted : Image) (height x0 y0 : Int) : List DrawCall :=
  let bottomPad := height - (y0 + fitted.Dy)
  if bottomPad > 0 then
    let bottomStrip := Crop fitted (Rect 0 (fitted.Dy - 1) fitted.Dx fitted.Dy)
    let bottomFill := Resize bottomStrip fitted.Dx bottomPad
    [⟨Rect x0 (y0 + fitted.Dy) (x0 + fitted.Dx) height, .image bottomFill, .Src⟩]
  else []

/-- The four `fillRect` calls of `stretchBackground`, for the rows `top` and `bottom`. -/
def cornerDraws (top bottom : List NRGBA) (fitW fitH width height x0 y0 : Int) :
    List DrawCall :=
  fillRect (Rect 0 0 x0 y0) (top.getD 0 NRGBA.zero)
    ++ fillRect (Rect (x0 + fitW) 0 width y0) (top.getD (fitW - 1).toNat NRGBA.zero)
    ++ fillRect (Rect 0 (y0 + fitH) x0 height) (bottom.getD 0 NRGBA.zero)
    ++ fillRect (Rect (x0 + fitW) (y0 + fitH) width height)
        (bottom.getD (fitW - 1).toNat NRGBA.zero)

/-- The `draw.Draw` calls of `stretchBackground` on the new image `bg`, in their order;
`fill` is `imaging.Fill(·, ·, ·, imaging.Center, imaging.NearestNeighbor)`. -/
def stretchDraws (fill : Image → Int → Int → Image) (src fitted : Image)
    (width height x0 y0 : Int) : List DrawCall :=
  let fitW := fitted.Dx
  let fitH := fitted.Dy
  let edgeSample := fill src fitW fitH
  [⟨(NewNRGBA (Rect 0 0 width height)).Bounds, .uniform ⟨0, 0, 0, 255⟩, .Src⟩,
   ⟨Rect x0 y0 (x0 + fitW) (y0 + fitH), .image fitted, .Over⟩]
    ++ leftDraw fitted x0 y0 ++ rightDraw fitted width x0 y0
    ++ topDraw fitted x0 y0 ++ bottomDraw fitted height x0 y0
    ++ cornerDraws (topRow edgeSample fitW) (bottomRow edgeSample fitW fitH)
        fitW fitH width height x0 y0

/-- The function `stretchBackground`, for a fitted image with well-formed bounds
(`Dx`, `Dy` not negative). -/
def stretchBackground (fill : Image → Int → Int → Image) (src fitted : Image)
    (width height x0 y0 : Int) : Option Image × Option GoError :=
  if width ≤ 0 ∨ height ≤ 0 then
    (none, some (.errorf ("invalid stretch size: " ++ toString width ++ "x" ++ toString height)))
  else if fitted.Dx = 0 ∨ fitted.Dy = 0 then
    (none, some (.errorf "invalid fitted size"))
  else
    (some (paint (NewNRGBA (Rect 0 0 width height))
      (stretchDraws fill src fitted width height x0 y0)), none)

/-- An image whose pixels are opaque with 8-bit channels. -/
def Image.Opaque (m : Image) : Prop :=
  ∀ x y : Int, 0 ≤ x → x < m.Dx → 0 ≤ y → y < m.Dy →
    (m.At x y).R < 256 ∧ (m.At x y).G < 256 ∧ (m.At x y).B < 256 ∧ (m.At x y).A = 255

/-- A 2x2 image with four different opaque pixels. -/
def fourPixels : Image :=
  ⟨2, 2, fun x y => ⟨(10 * x + y).toNat, 100, 200, 255⟩⟩

/-- A fill primitive that reads the source at the same point, for sources that already have
the size asked for. -/
def sameFill : Image → Int → Int → Image := fun img w h => ⟨w, h, img.At⟩

/-! ## Fixtures: format types -/

/-- A fixed format whose type is written with surrounding blanks. -/
def paddedFixed : Format := ⟨" fixed ", 1080, 1080, [], 0⟩

/-- A formats map whose only format has the empty name. -/
def unnamedFormats : GoMap Format := ⟨[("", ⟨"fixed", 1080, 1080, [], 0⟩)]⟩

/-- An auto format that lists the format of the empty name. -/
def unnamedAuto : Format := ⟨"auto", 0, 0, [""], 0⟩

/-! ## Package instafix: border -/

/-- The function `drawBorder`, as the calls it makes on the context. -/
def drawBorder (S : Strings) (x y w h : ℚ) (borderWidth : Int) (borderColor : String) :
    List DrawOp :=
  if borderWidth ≤ 0 then []
  else
    let bw : ℚ := (borderWidth : ℚ)
    setHexColor S borderColor 1
      ++ [DrawOp.DrawRectangle (x - bw) (y - bw) (w + bw * 2) (h + bw * 2), DrawOp.Fill]

/-- A painter with the `drawBorder` of render.go, a background helper given by its calls and
no watermark. -/
def borderPainter (S : Strings)
    (bg : Image → Background → Int → Int → Image → Int → Int → List DrawOp) : Painter where
  drawBackground := bg
  drawBorder := drawBorder S
  drawWatermark := fun _ _ _ _ _ => ([], none)

/-- A resolved profile with a white border of 10 pixels, no padding and `no_upscale`. -/
def framedResolved : ResolvedProfile where
  Name := "framed"
  Background := blackBackground
  Watermark := none
  Format := ⟨"fixed", 200, 200, [], 0⟩
  FormatName := "square"
  PaddingPercent := 0
  BorderWidth := 10
  BorderColor := "#ffffff"
  NoUpscale := true
  JpegQuality := 90
  AssetsPath := "assets"

/-! ## Fixtures: colour strings -/

/-- The hexadecimal digit of value `d`, written in lower or in upper case. -/
def hexChar (upper : Bool) (d : Nat) : Char :=
  if d < 10 then Char.ofNat (48 + d)
  else if upper then Char.ofNat (55 + d) else Char.ofNat (87 + d)

/-- The colour string `#rrggbb` of three bytes; `u i` is the case of the digit `i`. -/
def hexColor6 (u : Nat → Bool) (r g b : Nat) : String :=
  String.mk [Char.ofNat 35, hexChar (u 0) (r / 16), hexChar (u 1) (r % 16),
    hexChar (u 2) (g / 16), hexChar (u 3) (g % 16), hexChar (u 4) (b / 16),
    hexChar (u 5) (b % 16)]

/-- The colour string `#abc` of three digits; `u i` is the case of the digit `i`. -/
def hexColor3 (u : Nat → Bool) (a b c : Nat) : String :=
  String.mk [Char.ofNat 35, hexChar (u 0) a, hexChar (u 1) b, hexChar (u 2) c]

/-! ## Package instafix: pixels written by the stretched background -/

/-- The calls of a sequence of draws on `bg` that write the pixel `(x, y)`: those whose
clipped rectangle holds the point. -/
def writesAt (bg : Image) (x y : Int) (calls : List DrawCall) : List DrawCall :=
  calls.filter fun d => (clip bg d.r d.src).In x y

/-! ## Package instafix: decoding with run-time checks -/

/-- The loop of `extractJPEGs` with the run-time checks of Go made explicit: an index
expression or a slice expression out of range gives `none`. -/
def extractLoopChecked (data : List Nat) :
    Nat → Nat → List (List Nat) → Option (List (List Nat))
  | 0, _, results => some results
  | fuel + 1, i, results =>
    if i + 1 < data.length then
      match data[i]? with
      | none => none
      | some a =>
        if a ≠ 255 then extractLoopChecked data fuel (i + 1) results
        else
          match data[i + 1]? with
          | none => none
          | some b =>
            if b ≠ 216 then extractLoopChecked data fuel (i + 1) results
            else if data.length < i + 2 then none
            else
              match indexFFD9 (data.drop (i + 2)) with
              | none => extractLoopChecked data fuel (i + 1) results
              | some j =>
                if i + 2 + j + 2 > data.length then
                  extractLoopChecked data fuel (i + 1) results
                else if i + 2 + j + 2 < i then none
                else
                  extractLoopChecked data fuel (i + 2 + j + 2)
                    (results ++ [(data.drop i).take (i + 2 + j + 2 - i)])
    else some results

/-- The slice `data[i:e]`. -/
def byteSlice (data : List Nat) (i e : Nat) : List Nat := (data.drop i).take (e - i)

/-- The bytes FF D8 stand at index `i` of `data` and the bytes FF D9 at index `j`. -/
def markersAt (data : List Nat) (i j : Nat) : Prop :=
  data.getD i 0 = 255 ∧ data.getD (i + 1) 0 = 216 ∧
  data.getD j 0 = 255 ∧ data.getD (j + 1) 0 = 217

/-- The slice `data[i:e]` is a candidate as `extractJPEGs` cuts it: it lies inside `data`, has
at least four bytes, starts with FF D8, ends with FF D9 and no FF D9 pair at or after its
offset 2 ends before its end. -/
def IsCandidate (data : List Nat) (i e : Nat) : Prop :=
  i + 4 ≤ e ∧ e ≤ data.length ∧ markersAt data i (e - 2) ∧
  ∀ k, i + 2 ≤ k → k + 2 < e → ¬ (data.getD k 0 = 255 ∧ data.getD (k + 1) 0 = 217)

/-! ## IEEE 754 binary64 arithmetic

The definitions of the namespace `IEEE` model Go `float64` values and operations with their
rounding: a finite value is the rational it denotes, every operation returns the float64
value nearest to the exact result (ties to even), and the infinities and `NaN` follow the
IEEE 754 rules.  Operations are rounded one at a time, as on amd64; where the code adds two
products (the disc test of the watermark outline) the statements proved concern operands
for which every product and sum is exact, so that a fused multiply-add gives the same
result.  The sign of zero is not modelled: every divisor in the code modelled here is a
converted integer or a constant, whose zero is `+0`.  The functions of the packages `config`
and `instafix` whose float64 arithmetic decides a branch, a truncation or a comparison are
modelled a second time in this namespace, on top of these operations. -/

namespace IEEE

/-- The number of binary digits of `n` minus one, by repeated halving; `fuel` bounds the
number of steps. -/
def log2Fuel : Nat → Nat → Nat
  | 0, _ => 0
  | fuel + 1, n => if n < 2 then 0 else log2Fuel fuel (n / 2) + 1

/-- The integer binary logarithm of a positive natural number. -/
def ilog2 (n : Nat) : Nat := log2Fuel n n

/-- Rounding of a rational to the nearest integer, ties to the even one. -/
def roundHalfEven (x : ℚ) : Int :=
  if x - (⌊x⌋ : ℚ) < 1 / 2 then ⌊x⌋
  else if 1 / 2 < x - (⌊x⌋ : ℚ) then ⌊x⌋ + 1
  else if ⌊x⌋ % 2 = 0 then ⌊x⌋ else ⌊x⌋ + 1

/-- The binary exponent of a positive rational: the `e` with `2^e ≤ q < 2^(e+1)`. -/
def exponent (q : ℚ) : Int :=
  if (2 : ℚ) ^ ((ilog2 q.num.natAbs : Int) - (ilog2 q.den : Int)) ≤ q then
    (ilog2 q.num.natAbs : Int) - (ilog2 q.den : Int)
  else (ilog2 q.num.natAbs : Int) - (ilog2 q.den : Int) - 1

/-- The spacing of the float64 values around a non-negative rational: 53 significant binary
digits, and `2^-1074` below the smallest normal number. -/
def quantum (q : ℚ) : ℚ := (2 : ℚ) ^ (max (exponent q) (-1022) - 52)

/-- The multiple of the quantum nearest to a non-negative rational, ties to even. -/
def roundMag (q : ℚ) : ℚ := (roundHalfEven (q / quantum q) : ℚ) * quantum q

/-- The float64 value nearest to a rational (round to nearest, ties to even); a magnitude
that rounds to `2^1024` overflows to an infinity. -/
def nearest (q : ℚ) : F64 :=
  if (2 : ℚ) ^ (1024 : Nat) ≤ roundMag |q| then (if 0 ≤ q then .posInf else .negInf)
  else .fin (if 0 ≤ q then roundMag |q| else - roundMag |q|)

/-- The conversion `float64(n)` of an integer. -/
def ofInt (n : Int) : F64 := nearest (n : ℚ)

/-- The unary minus of float64. -/
def neg : F64 → F64
  | .fin q => .fin (-q)
  | .posInf => .negInf
  | .negInf => .posInf
  | .nan => .nan

/-- The float64 sum `x + y`. -/
def add : F64 → F64 → F64
  | .nan, _ => .nan
  | _, .nan => .nan
  | .posInf, .negInf => .nan
  | .negInf, .posInf => .nan
  | .posInf, _ => .posInf
  | _, .posInf => .posInf
  | .negInf, _ => .negInf
  | _, .negInf => .negInf
  | .fin a, .fin b => nearest (a + b)

/-- The float64 difference `x - y`. -/
def sub (x y : F64) : F64 := add x (neg y)

/-- The float64 product `x * y`. -/
def mul : F64 → F64 → F64
  | .nan, _ => .nan
  | _, .nan => .nan
  | .fin a, .fin b => nearest (a * b)
  | .fin a, .posInf => if a = 0 then .nan else if 0 < a then .posInf else .negInf
  | .fin a, .negInf => if a = 0 then .nan else if 0 < a then .negInf else .posInf
  | .posInf, .fin b => if b = 0 then .nan else if 0 < b then .posInf else .negInf
  | .negInf, .fin b => if b = 0 then .nan else if 0 < b then .negInf else .posInf
  | .posInf, .posInf => .posInf
  | .posInf, .negInf => .negInf
  | .negInf, .posInf => .negInf
  | .negInf, .negInf => .posInf

/-- The float64 quotient `x / y`; a zero divisor is `+0`. -/
def div : F64 → F64 → F64
  | .nan, _ => .nan
  | _, .nan => .nan
  | .fin a, .fin b =>
    if b = 0 then (if a = 0 then .nan else if 0 < a then .posInf else .negInf)
    else nearest (a / b)
  | .fin _, .posInf => .fin 0
  | .fin _, .negInf => .fin 0
  | .posInf, .fin b => if 0 ≤ b then .posInf else .negInf
  | .negInf, .fin b => if 0 ≤ b then .negInf else .posInf
  | .posInf, .posInf => .nan
  | .posInf, .negInf => .nan
  | .negInf, .posInf => .nan
  | .negInf, .negInf => .nan

/-- The float64 comparison `x < y`: false when an operand is `NaN`. -/
def lt : F64 → F64 → Bool
  | .nan, _ => false
  | _, .nan => false
  | .fin a, .fin b => decide (a < b)
  | .fin _, .posInf => true
  | .fin _, .negInf => false
  | .posInf, _ => false
  | .negInf, .negInf => false
  | .negInf, _ => true

/-- The float64 comparison `x <= y`: false when an operand is `NaN`. -/
def le : F64 → F64 → Bool
  | .nan, _ => false
  | _, .nan => false
  | .fin a, .fin b => decide (a ≤ b)
  | .fin _, .posInf => true
  | .fin _, .negInf => false
  | .posInf, .posInf => true
  | .posInf, _ => false
  | .negInf, _ => true

/-- The float64 comparison `x == y`: false when an operand is `NaN`. -/
def eq : F64 → F64 → Bool
  | .fin a, .fin b => decide (a = b)
  | .posInf, .posInf => true
  | .negInf, .negInf => true
  | _, _ => false

/-- The function `math.Abs`. -/
def Abs : F64 → F64
  | .fin q => .fin |q|
  | .posInf => .posInf
  | .negInf => .posInf
  | .nan => .nan

/-- The function `math.Max`. -/
def Max : F64 → F64 → F64
  | .posInf, _ => .posInf
  | _, .posInf => .posInf
  | .nan, _ => .nan
  | _, .nan => .nan
  | .negInf, y => y
  | x, .negInf => x
  | .fin a, .fin b => if a < b then .fin b else .fin a

/-- The function `math.Min`. -/
def Min : F64 → F64 → F64
  | .negInf, _ => .negInf
  | _, .negInf => .negInf
  | .nan, _ => .nan
  | _, .nan => .nan
  | .posInf, y => y
  | x, .posInf => x
  | .fin a, .fin b => if a < b then .fin a else .fin b

/-- The conversion `int(x)`: truncation toward zero of a finite value in the range of
`int64`.  For every other operand the Go specification leaves the result to the
implementation; the value given here is the one of amd64, the smallest `int64`. -/
def toInt : F64 → Int
  | .fin q =>
    if -(2 : Int) ^ 63 ≤ goInt q ∧ goInt q < (2 : Int) ^ 63 then goInt q else -(2 : Int) ^ 63
  | _ => -(2 : Int) ^ 63

/-! ## Package config over float64

The structures and functions of package `config` with their `float64` fields and
comparisons: a field may hold `NaN` or an infinity, and a comparison with `NaN` is false. -/

structure Profile where
  BackgroundRef : String
  WatermarkRef : String
  FormatRef : String
  PaddingPercent : Option F64
  BorderWidth : Int
  BorderColor : String
  NoUpscale : Bool
  JpegQuality : Int
  deriving DecidableEq

structure Format where
  Type_ : String
  Width : Int
  Height : Int
  FromList : List String
  PaddingPercent : F64
  deriving DecidableEq

structure Background where
  Type_ : String
  Color : String
  BlurRadius : F64
  Darken : F64
  deriving DecidableEq

structure Watermark where
  Font : String
  Size : F64
  Color : String
  Opacity : F64
  Align : String
  OffsetX : F64
  OffsetY : F64
  Outline : Bool
  OutlineColor : String
  OutlineWidth : F64
  deriving DecidableEq

structure Config where
  Settings : Settings
  Backgrounds : GoMap Background
  Watermarks : GoMap Watermark
  Formats : GoMap Format
  Profiles : GoMap Profile

structure ResolvedProfile where
  Name : String
  Background : Background
  Watermark : Option Watermark
  Format : Format
  FormatName : String
  PaddingPercent : F64
  BorderWidth : Int
  BorderColor : String
  NoUpscale : Bool
  JpegQuality : Int
  AssetsPath : String
  deriving DecidableEq

/-- The zero value `Format{}`. -/
def Format.zero : Format := ⟨"", 0, 0, [], .fin 0⟩

/-- The zero value `Background{}`. -/
def Background.zero : Background := ⟨"", "", .fin 0, .fin 0⟩

/-- The zero value `ResolvedProfile{}`. -/
def ResolvedProfile.zero : ResolvedProfile :=
  ⟨"", Background.zero, none, Format.zero, "", .fin 0, 0, "", false, 0, ""⟩

def validateFormat (S : Strings) (name : String) (format : Format) : Option GoError :=
  let t := S.ToLower (S.TrimSpace format.Type_)
  let kindErr : Option GoError :=
    if t = FormatTypeFixed then
      (if format.Width ≤ 0 ∨ format.Height ≤ 0 then
        some (.errorf ("formats." ++ name ++ " fixed format requires width and height"))
      else if format.FromList.length > 0 then
        some (.errorf ("formats." ++ name ++ " fixed format must not have from_list"))
      else none)
    else if t = FormatTypeAuto then
      (if format.FromList.length = 0 then
        some (.errorf ("formats." ++ name ++ " auto format requires from_list"))
      else if format.Width ≠ 0 ∨ format.Height ≠ 0 then
        some (.errorf ("formats." ++ name ++ " auto format must not have width/height"))
      else none)
    else some (.errorf ("formats." ++ name ++ " has unknown type: " ++ format.Type_))
  match kindErr with
  | some e => some e
  | none =>
    if lt format.PaddingPercent (.fin 0) = true ∨ lt (.fin 50) format.PaddingPercent = true then
      some (.errorf ("formats." ++ name ++ ".padding_percent must be 0..50"))
    else none

def validateBackground (S : Strings) (name : String) (bg : Background) : Option GoError :=
  let t := S.ToLower (S.TrimSpace bg.Type_)
  if ¬ (t = "solid" ∨ t = "blur" ∨ t = "stretch" ∨ t = "average") then
    some (.errorf ("backgrounds." ++ name ++ " has unknown type: " ++ bg.Type_))
  else if lt bg.Darken (.fin 0) = true ∨ lt (.fin 1) bg.Darken = true then
    some (.errorf ("backgrounds." ++ name ++ ".darken must be 0..1"))
  else none

def validateWatermark (S : Strings) (name : String) (wm : Watermark) : Option GoError :=
  if S.TrimSpace wm.Font = "" then
    some (.errorf ("watermarks." ++ name ++ ".font is required"))
  else if le wm.Size (.fin 0) = true then
    some (.errorf ("watermarks." ++ name ++ ".size must be > 0"))
  else if lt wm.Opacity (.fin 0) = true ∨ lt (.fin 1) wm.Opacity = true then
    some (.errorf ("watermarks." ++ name ++ ".opacity must be 0..1"))
  else if lt wm.OutlineWidth (.fin 0) = true then
    some (.errorf ("watermarks." ++ name ++ ".outline_width must be >= 0"))
  else none

def Config.validateProfile (S : Strings) (c : Config) (name : String) (profile : Profile) :
    Option GoError :=
  if S.TrimSpace profile.BackgroundRef = "" then
    some (.errorf ("profiles." ++ name ++ ".background_ref is required"))
  else if S.TrimSpace profile.FormatRef = "" then
    some (.errorf ("profiles." ++ name ++ ".format_ref is required"))
  else if (c.Backgrounds.find profile.BackgroundRef).isNone then
    some (.errorf ("profiles." ++ name ++ ".background_ref not found: " ++ profile.BackgroundRef))
  else if (c.Formats.find profile.FormatRef).isNone then
    some (.errorf ("profiles." ++ name ++ ".format_ref not found: " ++ profile.FormatRef))
  else if profile.WatermarkRef ≠ "" ∧ (c.Watermarks.find profile.WatermarkRef).isNone then
    some (.errorf ("profiles." ++ name ++ ".watermark_ref not found: " ++ profile.WatermarkRef))
  else if profile.JpegQuality ≠ 0 ∧ (profile.JpegQuality < 1 ∨ profile.JpegQuality > 100) then
    some (.errorf ("profiles." ++ name ++ ".jpeg_quality out of range: "
      ++ toString profile.JpegQuality))
  else
    match profile.PaddingPercent with
    | some p =>
      if lt p (.fin 0) = true ∨ lt (.fin 50) p = true then
        some (.errorf ("profiles." ++ name ++ ".padding_percent must be 0..50"))
      else none
    | none => none

/-- The inner loop of the second pass of `Validate`: the names referenced by one auto format. -/
def checkFromList (S : Strings) (formats : GoMap Format) (name : String) (ref : String) :
    Option GoError :=
  match formats.find ref with
  | none => some (.errorf ("formats." ++ name ++ " references unknown format: " ++ ref))
  | some candidate =>
    if S.ToLower (S.TrimSpace candidate.Type_) ≠ FormatTypeFixed then
      some (.errorf ("formats." ++ name ++ " references non-fixed format: " ++ ref))
    else none

/-- The first statement of `Validate`: a zero `settings.jpeg_quality` becomes 90. -/
def Config.defaultQuality (c : Config) : Config :=
  if c.Settings.JpegQuality = 0 then
    { c with Settings := { c.Settings with JpegQuality := 90 } }
  else c

/-- The third statement of `Validate`: a blank `settings.assets_path` becomes "assets". -/
def Config.defaultAssets (S : Strings) (c : Config) : Config :=
  if S.TrimSpace c.Settings.AssetsPath = "" then
    { c with Settings := { c.Settings with AssetsPath := "assets" } }
  else c

/-- The five loops of `Validate` over the maps of the configuration. -/
def Config.validateMaps (S : Strings) (c : Config) : Option GoError :=
  match firstErr (fun kv => validateFormat S kv.1 kv.2) c.Formats.range with
  | some e => some e
  | none =>
  match firstErr (fun kv =>
      if S.ToLower (S.TrimSpace kv.2.Type_) ≠ FormatTypeAuto then none
      else firstErr (checkFromList S c.Formats kv.1) kv.2.FromList) c.Formats.range with
  | some e => some e
  | none =>
  match firstErr (fun kv => validateBackground S kv.1 kv.2) c.Backgrounds.range with
  | some e => some e
  | none =>
  match firstErr (fun kv => validateWatermark S kv.1 kv.2) c.Watermarks.range with
  | some e => some e
  | none => firstErr (fun kv => c.validateProfile S kv.1 kv.2) c.Profiles.range

/-- The method `(*Config).Validate`: the configuration as the call leaves it, and the error. -/
def Config.Validate (S : Strings) (c0 : Config) : Config × Option GoError :=
  let c1 := c0.defaultQuality
  if c1.Settings.JpegQuality < 1 ∨ c1.Settings.JpegQuality > 100 then
    (c1, some (.errorf ("settings.jpeg_quality out of range: "
      ++ toString c1.Settings.JpegQuality)))
  else
    let c := c1.defaultAssets S
    (c, c.validateMaps S)

/-- The method `Config.ResolveProfile`. -/
def Config.ResolveProfile (S : Strings) (c : Config) (name : String) :
    ResolvedProfile × Option GoError :=
  match c.Profiles.find name with
  | none => (ResolvedProfile.zero, some (wrapSentinel .ErrProfileNotFound name))
  | some profile =>
  match c.Formats.find profile.FormatRef with
  | none => (ResolvedProfile.zero, some (wrapSentinel .ErrFormatNotFound profile.FormatRef))
  | some format =>
  match validateFormat S profile.FormatRef format with
  | some e => (ResolvedProfile.zero, some e)
  | none =>
  match c.Backgrounds.find profile.BackgroundRef with
  | none =>
    (ResolvedProfile.zero, some (wrapSentinel .ErrBackgroundNotFound profile.BackgroundRef))
  | some background =>
  match validateBackground S profile.BackgroundRef background with
  | some e => (ResolvedProfile.zero, some e)
  | none =>
  let wmStep : Option Watermark × Option GoError :=
    if profile.WatermarkRef ≠ "" then
      match c.Watermarks.find profile.WatermarkRef with
      | none => (none, some (wrapSentinel .ErrWatermarkNotFound profile.WatermarkRef))
      | some wm =>
        match validateWatermark S profile.WatermarkRef wm with
        | some e => (none, some e)
        | none => (some wm, none)
    else (none, none)
  match wmStep with
  | (_, some e) => (ResolvedProfile.zero, some e)
  | (watermark, none) =>
  let jpegQuality := if profile.JpegQuality ≠ 0 then profile.JpegQuality else c.Settings.JpegQuality
  let assetsPath :=
    if S.TrimSpace c.Settings.AssetsPath = "" then "assets" else S.TrimSpace c.Settings.AssetsPath
  let paddingPercent :=
    match profile.PaddingPercent with
    | some p => p
    | none => format.PaddingPercent
  ({ Name := name
     Background := background
     Watermark := watermark
     Format := format
     FormatName := profile.FormatRef
     PaddingPercent := paddingPercent
     BorderWidth := profile.BorderWidth
     BorderColor := profile.BorderColor
     NoUpscale := profile.NoUpscale
     JpegQuality := jpegQuality
     AssetsPath := assetsPath }, none)

/-! ## Package instafix over float64: format selection -/

/-- The loop of `resolveFormat` over `from_list`, with the loop variables `best`, `bestDiff`.
An early `return` of the loop body is the `Except.error` result. -/
def autoLoop (S : Strings) (formats : GoMap Format) (srcRatio : F64) :
    List String → String → F64 → Except GoError (String × F64)
  | [], best, bestDiff => .ok (best, bestDiff)
  | name :: rest, best, bestDiff =>
    match formats.find name with
    | none => .error (.errorf ("auto format references unknown format: " ++ name))
    | some candidate =>
      if S.ToLower candidate.Type_ ≠ FormatTypeFixed then
        .error (.errorf ("auto format references non-fixed format: " ++ name))
      else
        let ratio := div (ofInt candidate.Width) (ofInt candidate.Height)
        let diff := Abs (sub srcRatio ratio)
        if lt diff bestDiff = true then autoLoop S formats srcRatio rest name diff
        else autoLoop S formats srcRatio rest best bestDiff

def resolveFormat (S : Strings) (formats : GoMap Format) (format : Format) (srcW srcH : Int) :
    Format × Option GoError :=
  if S.ToLower format.Type_ = FormatTypeFixed then (format, none)
  else if S.ToLower format.Type_ ≠ FormatTypeAuto then
    (Format.zero, some (.errorf ("unknown format type: " ++ format.Type_)))
  else if format.FromList.length = 0 then
    (Format.zero, some (.errorf "auto format requires from_list"))
  else if srcW ≤ 0 ∨ srcH ≤ 0 then
    (Format.zero, some (.errorf "invalid source size"))
  else
    let srcRatio := div (ofInt srcW) (ofInt srcH)
    match autoLoop S formats srcRatio format.FromList "" (.fin MaxFloat64) with
    | .error e => (Format.zero, some e)
    | .ok (best, _) =>
      if best = "" then (Format.zero, some (.errorf "auto format has no valid candidates"))
      else ((formats.find best).getD Format.zero, none)

/-- The local `diff` of `resolveFormat` for one candidate: the float64 distance between the
source ratio and the ratio of the candidate. -/
def ratioDist (srcW srcH : Int) (c : Format) : F64 :=
  Abs (sub (div (ofInt srcW) (ofInt srcH)) (div (ofInt c.Width) (ofInt c.Height)))

/-- The formats of `TestResolveFormatAutoChoosesClosestRatio`. -/
def testFormats : GoMap Format := ⟨[
  ("square", ⟨"fixed", 1080, 1080, [], .fin 0⟩),
  ("portrait", ⟨"fixed", 1080, 1350, [], .fin 0⟩),
  ("land", ⟨"fixed", 1080, 566, [], .fin 0⟩),
  ("auto", ⟨"auto", 0, 0, ["square", "portrait", "land"], .fin 0⟩)]⟩

/-- The calls made on a `gg.Context` by package instafix, with their float64 arguments. -/
inductive DrawOp where
  | SetRGBA (r g b a : F64)
  | SetRGB (r g b : F64)
  | Clear
  | DrawRectangle (x y w h : F64)
  | Fill
  | DrawImage (im : Image) (x y : Int)
  | LoadFontFace (path : String) (points : F64)
  | DrawStringAnchored (s : String) (x y ax ay : F64)

/-- A `gg.Context`: its fixed size and the calls made on it so far, oldest first. -/
structure Context where
  W : Int
  H : Int
  ops : List DrawOp

/-- The call `gg.NewContext(width, height)`. -/
def NewContext (width height : Int) : Context := ⟨width, height, []⟩

/-- One or more calls on the context. -/
def Context.run (dc : Context) (ops : List DrawOp) : Context := { dc with ops := dc.ops ++ ops }

/-- The primitives of the imaging and drawing libraries used by `fitImage` and `renderImage`. -/
structure Imaging where
  /-- The call `imaging.Fit(img, w, h, imaging.Lanczos)`. -/
  Fit : Image → Int → Int → Image
  /-- The pixels of a context of the given size after the given calls. -/
  pixels : Int → Int → List DrawOp → Int → Int → NRGBA

/-- The method `(*gg.Context).Image`. -/
def Context.Image (G : Imaging) (dc : Context) : Image := ⟨dc.W, dc.H, G.pixels dc.W dc.H dc.ops⟩

/-- The drawing helpers of render.go called by `renderImage`, each given by the calls it makes
on the context.  They are parameters of `renderImage`. -/
structure Painter where
  /-- The helper `drawBackground(dc, src, bg, width, height, fitted, fitX, fitY)`. -/
  drawBackground : Image → Background → Int → Int → Image → Int → Int → List DrawOp
  /-- The helper `drawBorder(dc, x, y, w, h, borderWidth, borderColor)`. -/
  drawBorder : F64 → F64 → F64 → F64 → Int → String → List DrawOp
  /-- The helper `drawWatermark(dc, text, wm, assetsPath)` on a context of the given size. -/
  drawWatermark : Int → Int → String → Watermark → String → List DrawOp × Option GoError

def fitImage (G : Imaging) (src : Image) (targetW targetH : Int) (paddingPercent : F64)
    (noUpscale : Bool) : Image × F64 × F64 :=
  let canvasW := ofInt targetW
  let canvasH := ofInt targetH
  let padding := Max paddingPercent (.fin 0)
  let availW0 := mul canvasW (sub (.fin 1) (div (mul padding (.fin 2)) (.fin 100)))
  let availH0 := mul canvasH (sub (.fin 1) (div (mul padding (.fin 2)) (.fin 100)))
  let availW := if lt availW0 (.fin 1) = true then .fin 1 else availW0
  let availH := if lt availH0 (.fin 1) = true then .fin 1 else availH0
  let srcW := ofInt src.Dx
  let srcH := ofInt src.Dy
  let scale := Min (div availW srcW) (div availH srcH)
  let fitted : Image :=
    if noUpscale = true ∧ lt (.fin 1) scale = true then src
    else G.Fit src (toInt availW) (toInt availH)
  let x := div (sub canvasW (ofInt fitted.Dx)) (.fin 2)
  let y := div (sub canvasH (ofInt fitted.Dy)) (.fin 2)
  (fitted, x, y)

def renderImage (G : Imaging) (P : Painter) (src : Image) (resolved : ResolvedProfile)
    (format : Format) (watermarkText : String) : Option Image × Option GoError :=
  let targetW := format.Width
  let targetH := format.Height
  if targetW ≤ 0 ∨ targetH ≤ 0 then
    (none, some (.errorf ("invalid target size: " ++ toString targetW ++ "x" ++ toString targetH)))
  else
    let dc0 := NewContext targetW targetH
    let (img, x, y) := fitImage G src targetW targetH resolved.PaddingPercent resolved.NoUpscale
    let dc1 := dc0.run
      (P.drawBackground src resolved.Background targetW targetH img (toInt x) (toInt y))
    let imgW := ofInt img.Dx
    let imgH := ofInt img.Dy
    let dc2 :=
      if resolved.BorderWidth > 0 then
        dc1.run (P.drawBorder x y imgW imgH resolved.BorderWidth resolved.BorderColor)
      else dc1
    let dc3 := dc2.run [DrawOp.DrawImage img (toInt x) (toInt y)]
    match resolved.Watermark with
    | some wm =>
      if watermarkText ≠ "" then
        match P.drawWatermark dc3.W dc3.H watermarkText wm resolved.AssetsPath with
        | (_, some err) => (none, some err)
        | (ops, none) => (some ((dc3.run ops).Image G), none)
      else (some (dc3.Image G), none)
    | none => (some (dc3.Image G), none)

/-- The side of the available area as `fitImage` computes it: the padding is clamped at 0
and the result at 1, every operation rounded to float64. -/
def availSide (target : Int) (paddingPercent : F64) : F64 :=
  if lt (mul (ofInt target)
      (sub (.fin 1) (div (mul (Max paddingPercent (.fin 0)) (.fin 2)) (.fin 100)))) (.fin 1) = true
  then .fin 1
  else mul (ofInt target)
      (sub (.fin 1) (div (mul (Max paddingPercent (.fin 0)) (.fin 2)) (.fin 100)))

/-- The local `scale` of `fitImage`. -/
def fitScale (src : Image) (targetW targetH : Int) (paddingPercent : F64) : F64 :=
  Min (div (availSide targetW paddingPercent) (ofInt src.Dx))
    (div (availSide targetH paddingPercent) (ofInt src.Dy))

/-- The side of the available box in the words of the specification, in exact arithmetic:
`max(1, target * (1 - 2p/100))`. -/
def availSpec (target : Int) (p : ℚ) : ℚ := max 1 ((target : ℚ) * (1 - 2 * p / 100))

/-- A fit primitive that never returns more than the box: each side is cut to the box. -/
def cutImaging : Imaging where
  Fit := fun img w h => ⟨min img.Dx w, min img.Dy h, img.At⟩
  pixels := fun _ _ _ _ _ => ⟨0, 0, 0, 255⟩

/-- The float64 value written `8.571428571428571`. -/
def pad8571 : F64 := .fin ((4825285315039817 : ℚ) / 562949953421312)

/-- The float64 value written `3.3333333333333335`. -/
def pad3333 : F64 := .fin ((7505999378950827 : ℚ) / 2251799813685248)

/-- The float64 value written `27.272727272727273`. -/
def pad2727 : F64 := .fin ((3838295136963491 : ℚ) / 140737488355328)

/-! ## Package instafix over float64: watermark -/

def anchorForAlign (S : Strings) (width height : Int) (align : String) (offsetX offsetY : F64) :
    F64 × F64 × F64 × F64 :=
  let w := ofInt width
  let h := ofInt height
  let align1 := S.ToLower (S.TrimSpace align)
  let align2 := if align1 = "" then "bottom-center" else align1
  let parts := splitHyphen align2
  let anchors : String × String :=
    match parts with
    | [p0, p1] => (p0, p1)
    | [p0] =>
      if p0 = "top" ∨ p0 = "bottom" then (p0, "center")
      else if p0 = "left" ∨ p0 = "right" then ("center", p0)
      else if p0 = "center" ∨ p0 = "middle" then ("center", "center")
      else ("bottom", p0)
    | _ => ("bottom", "center")
  let vAnchor := anchors.1
  let hAnchor := anchors.2
  let xa : F64 × F64 :=
    if hAnchor = "left" then (offsetX, .fin 0)
    else if hAnchor = "right" then (sub w offsetX, .fin 1)
    else (add (div w (.fin 2)) offsetX, .fin (1 / 2))
  let ya : F64 × F64 :=
    if vAnchor = "top" then (offsetY, .fin 0)
    else if vAnchor = "center" ∨ vAnchor = "middle" then (add (div h (.fin 2)) offsetY, .fin (1 / 2))
    else (sub h offsetY, .fin 1)
  (xa.1, ya.1, xa.2, ya.2)

/-- The helper `setHexColor(dc, hex, opacity)`: the calls it makes on the context. -/
def setHexColor (S : Strings) (hex : String) (opacity : F64) : List DrawOp :=
  match parseHexColor S hex with
  | (_, some _) => [DrawOp.SetRGBA (.fin 1) (.fin 1) (.fin 1) opacity]
  | (c, none) =>
    [DrawOp.SetRGBA (div (ofInt c.R) (.fin 255)) (div (ofInt c.G) (.fin 255))
      (div (ofInt c.B) (.fin 255)) opacity]

/-- The values of the loop variable of `for d := lo; d <= hi; d++` over float64.  The
increment is rounded, so the variable need not advance; the result is `none` when the loop
is still running after `fuel` iterations. -/
def floatRange : Nat → F64 → F64 → Option (List F64)
  | 0, _, _ => none
  | fuel + 1, lo, hi =>
    if le lo hi = true then (floatRange fuel (add lo (.fin 1)) hi).map (fun r => lo :: r)
    else some []

/-- The offsets `(dx, dy)` at which the two nested loops of `drawWatermark` reach the call
of `DrawStringAnchored`, in the order of the calls; `none` when a loop is still running
after `fuel` iterations. -/
def outlineOffsets (fuel : Nat) (outlineWidth : F64) : Option (List (F64 × F64)) :=
  (floatRange fuel (neg outlineWidth) outlineWidth).map fun r =>
    r.flatMap fun dy =>
      r.flatMap fun dx =>
        if le (mul outlineWidth outlineWidth) (add (mul dx dx) (mul dy dy)) = true then []
        else [(dx, dy)]

/-- The functions of path/filepath and the font loading of gg used by `drawWatermark`. -/
structure Fonts where
  /-- The function `filepath.IsAbs`. -/
  IsAbs : String → Bool
  /-- The function `filepath.Join` of two elements. -/
  Join : String → String → String
  /-- The error of `dc.LoadFontFace(path, points)`. -/
  LoadFontFace : String → F64 → Option GoError

/-- The helper `drawWatermark(dc, text, wm, assetsPath)` on a context of the given size: the
calls it makes on the context and its error; `none` when a loop of the outline is still
running after `fuel` iterations. -/
def drawWatermark (S : Strings) (F : Fonts) (fuel : Nat) (width height : Int) (text : String)
    (wm : Watermark) (assetsPath : String) : Option (List DrawOp × Option GoError) :=
  let fontPath := if F.IsAbs wm.Font = true then wm.Font else F.Join assetsPath wm.Font
  match F.LoadFontFace fontPath wm.Size with
  | some err =>
    some ([DrawOp.LoadFontFace fontPath wm.Size],
      some (.wrapf err ("load watermark font: " ++ err.Error)))
  | none =>
    let a := anchorForAlign S width height wm.Align wm.OffsetX wm.OffsetY
    let x := a.1
    let y := a.2.1
    let ax := a.2.2.1
    let ay := a.2.2.2
    let outline : Option (List DrawOp) :=
      if wm.Outline = true then
        let outlineWidth := if eq wm.OutlineWidth (.fin 0) = true then .fin 2 else wm.OutlineWidth
        (outlineOffsets fuel outlineWidth).map fun offsets =>
          setHexColor S wm.OutlineColor wm.Opacity ++
            offsets.map fun d => DrawOp.DrawStringAnchored text (add x d.1) (add y d.2) ax ay
      else some []
    outline.map fun ops =>
      ([DrawOp.LoadFontFace fontPath wm.Size] ++ ops ++ setHexColor S wm.Color wm.Opacity
        ++ [DrawOp.DrawStringAnchored text x y ax ay], none)

/-- A font library in which every path is relative and every font loads. -/
def plainFonts : Fonts where
  IsAbs := fun _ => false
  Join := fun dir name => dir ++ "/" ++ name
  LoadFontFace := fun _ _ => none

/-- A watermark with an outline of the given width, anchored at the top left corner. -/
def outlinedWatermark (outlineWidth : F64) : Watermark :=
  ⟨"roboto.ttf", .fin 12, "#ffffff", .fin 1, "top-left", .fin 0, .fin 0, true, "#000000",
    outlineWidth⟩

/-- A float64 value that is `NaN` or a finite value between `lo` and `hi`: what the range
checks of `Validate` let through. -/
def WithinOrNaN (lo hi : ℚ) (x : F64) : Prop :=
  x = .nan ∨ ∃ q, x = .fin q ∧ lo ≤ q ∧ q ≤ hi

/-- The format invariant of C8, with the type read as `Validate` reads it and the padding as
its range check leaves it. -/
def FormatWellFormed (S : Strings) (formats : GoMap Format) (f : Format) : Prop :=
  ((S.ToLower (S.TrimSpace f.Type_) = FormatTypeFixed ∧ 0 < f.Width ∧ 0 < f.Height ∧
      f.FromList = []) ∨
   (S.ToLower (S.TrimSpace f.Type_) = FormatTypeAuto ∧ f.FromList ≠ [] ∧ f.Width = 0 ∧
      f.Height = 0 ∧
      ∀ n ∈ f.FromList, ∃ c, formats.find n = some c ∧
        S.ToLower (S.TrimSpace c.Type_) = FormatTypeFixed)) ∧
  WithinOrNaN 0 50 f.PaddingPercent

/-! ## Fixtures: float64 configurations -/

/-- A background entry used by the fixtures. -/
def blackBackground : Background := ⟨"solid", "#000000", .fin 0, .fin 0⟩

/-- A configuration whose only format has the padding `NaN`. -/
def nanFormatConfig : Config where
  Settings := ⟨90, "assets"⟩
  Backgrounds := ⟨[("black", blackBackground)]⟩
  Watermarks := ⟨[]⟩
  Formats := ⟨[("square", ⟨"fixed", 100, 100, [], .nan⟩)]⟩
  Profiles := ⟨[("default", ⟨"black", "", "square", none, 0, "", false, 0⟩)]⟩

/-- A configuration whose profile overrides the padding with `NaN` and whose watermark has
the size and the opacity `NaN`. -/
def nanProfileConfig : Config where
  Settings := ⟨90, "assets"⟩
  Backgrounds := ⟨[("black", blackBackground)]⟩
  Watermarks := ⟨[("standard",
    ⟨"roboto.ttf", .nan, "#ffffff", .nan, "", .fin 0, .fin 0, false, "", .fin 0⟩)]⟩
  Formats := ⟨[("square", ⟨"fixed", 100, 100, [], .fin 0⟩)]⟩
  Profiles := ⟨[("default", ⟨"black", "standard", "square", some .nan, 0, "", false, 0⟩)]⟩

end IEEE

/-! ## Theorems: format selection -/

theorem absDiff_quot_zero (s a : ℚ) : ∀ d, F64.absDiff s (F64.quot a 0) ≠ F64.fin d := by
  intro d
  unfold F64.quot
  simp only [if_true]
  split_ifs <;> simp [F64.absDiff]

theorem absDiff_quot_ne (s a b : ℚ) (hb : b ≠ 0) :
    F64.absDiff s (F64.quot a b) = F64.fin |s - a / b| := by
  simp [F64.quot, hb, F64.absDiff]

theorem autoLoop_step (S : Strings) (formats : GoMap Format) (srcW srcH : Int)
    (names : List String) :
    ∀ (best : String) (bd : ℚ) (best' : String) (bd' : ℚ),
      autoLoop S formats ((srcW : ℚ) / (srcH : ℚ)) names best bd = .ok (best', bd') →
      ((best' = best ∧ bd' = bd ∧
          ∀ m ∈ names, ∀ c, formats.find m = some c → c.Height ≠ 0 → bd ≤ ratioDist srcW srcH c) ∨
       (∃ pre n post f, names = pre ++ n :: post ∧ best' = n ∧ formats.find n = some f ∧
          f.Height ≠ 0 ∧ ratioDist srcW srcH f < bd ∧
          (∀ m ∈ pre, ∀ c, formats.find m = some c → c.Height ≠ 0 →
            ratioDist srcW srcH f < ratioDist srcW srcH c) ∧
          (∀ m ∈ post, ∀ c, formats.find m = some c → c.Height ≠ 0 →
            ratioDist srcW srcH f ≤ ratioDist srcW srcH c))) := by
  induction names with
  | nil =>
    intro best bd best' bd' h
    simp only [autoLoop, Except.ok.injEq, Prod.mk.injEq] at h
    exact Or.inl ⟨h.1.symm, h.2.symm, by simp⟩
  | cons name rest ih =>
    intro best bd best' bd' h
    unfold autoLoop at h
    cases hfind : formats.find name with
    | none => simp [hfind] at h
    | some cand =>
      simp only [hfind] at h
      by_cases hty : S.ToLower cand.Type_ ≠ FormatTypeFixed
      · simp [hty] at h
      · simp only [hty, if_false] at h
        by_cases hz : cand.Height = 0
        · -- the ratio is not finite: the candidate is skipped
          have hnf := absDiff_quot_zero ((srcW : ℚ) / (srcH : ℚ)) (cand.Width : ℚ)
          have hstep : autoLoop S formats ((srcW : ℚ) / (srcH : ℚ)) rest best bd
              = .ok (best', bd') := by
            rw [hz] at h
            simp only [Int.cast_zero] at h
            cases hd : F64.absDiff ((srcW : ℚ) / (srcH : ℚ)) (F64.quot (cand.Width : ℚ) 0) with
            | fin d => exact absurd hd (hnf d)
            | posInf => simpa [hd] using h
            | negInf => simpa [hd] using h
            | nan => simpa [hd] using h
          rcases ih best bd best' bd' hstep with ⟨h1, h2, h3⟩ | ⟨pre, n, post, f, h1, h2, h3, h4, h5, h6, h7⟩
          · refine Or.inl ⟨h1, h2, ?_⟩
            intro m hm c hc hcz
            rcases List.mem_cons.mp hm with rfl | hm
            · rw [hfind] at hc
              cases hc
              exact absurd hz hcz
            · exact h3 m hm c hc hcz
          · refine Or.inr ⟨name :: pre, n, post, f, by simp [h1], h2, h3, h4, h5, ?_, h7⟩
            intro m hm c hc hcz
            rcases List.mem_cons.mp hm with rfl | hm
            · rw [hfind] at hc
              cases hc
              exact absurd hz hcz
            · exact h6 m hm c hc hcz
        · have hq : ((cand.Height : Int) : ℚ) ≠ 0 := by exact_mod_cast hz
          rw [absDiff_quot_ne _ _ _ hq] at h
          simp only at h
          have hdist : |(srcW : ℚ) / (srcH : ℚ) - (cand.Width : ℚ) / (cand.Height : ℚ)|
              = ratioDist srcW srcH cand := rfl
          rw [hdist] at h
          by_cases hlt : ratioDist srcW srcH cand < bd
          · simp only [hlt, if_true] at h
            rcases ih name (ratioDist srcW srcH cand) best' bd' h with
              ⟨h1, h2, h3⟩ | ⟨pre, n, post, f, h1, h2, h3, h4, h5, h6, h7⟩
            · refine Or.inr ⟨[], name, rest, cand, by simp, h1, hfind, hz, hlt, by simp, ?_⟩
              intro m hm c hc hcz
              exact h3 m hm c hc hcz
            · refine Or.inr ⟨name :: pre, n, post, f, by simp [h1], h2, h3, h4,
                lt_trans h5 hlt, ?_, h7⟩
              intro m hm c hc hcz
              rcases List.mem_cons.mp hm with rfl | hm
              · rw [hfind] at hc
                cases hc
                exact h5
              · exact h6 m hm c hc hcz
          · simp only [hlt, if_false] at h
            have hge : bd ≤ ratioDist srcW srcH cand := not_lt.mp hlt
            rcases ih best bd best' bd' h with
              ⟨h1, h2, h3⟩ | ⟨pre, n, post, f, h1, h2, h3, h4, h5, h6, h7⟩
            · refine Or.inl ⟨h1, h2, ?_⟩
              intro m hm c hc hcz
              rcases List.mem_cons.mp hm with rfl | hm
              · rw [hfind] at hc
                cases hc
                exact hge
              · exact h3 m hm c hc hcz
            · refine Or.inr ⟨name :: pre, n, post, f, by simp [h1], h2, h3, h4, h5, ?_, h7⟩
              intro m hm c hc hcz
              rcases List.mem_cons.mp hm with rfl | hm
              · rw [hfind] at hc
                cases hc
                exact lt_of_lt_of_le h5 hge
              · exact h6 m hm c hc hcz

theorem asciiLower_fixed : asciiStrings.ToLower "fixed" = "fixed" := by decide

theorem asciiLower_auto : asciiStrings.ToLower "auto" = "auto" := by decide

theorem auto_ne_fixed : (FormatTypeAuto = FormatTypeFixed) = False := by
  simp [FormatTypeAuto, FormatTypeFixed]

theorem autoLoop_error_of_bad (S : Strings) (formats : GoMap Format) (s : ℚ) (names : List String)
    (hbad : ∃ n ∈ names, formats.find n = none ∨
      ∃ c, formats.find n = some c ∧ S.ToLower c.Type_ ≠ FormatTypeFixed) :
    ∀ (best : String) (bd : ℚ), ∃ e, autoLoop S formats s names best bd = .error e := by
  induction names with
  | nil => simp at hbad
  | cons name rest ih =>
    intro best bd
    unfold autoLoop
    cases hfind : formats.find name with
    | none => exact ⟨_, rfl⟩
    | some cand =>
      by_cases hty : S.ToLower cand.Type_ ≠ FormatTypeFixed
      · exact ⟨_, if_pos hty⟩
      · have hrest : ∃ n ∈ rest, formats.find n = none ∨
            ∃ c, formats.find n = some c ∧ S.ToLower c.Type_ ≠ FormatTypeFixed := by
          obtain ⟨n, hn, hb⟩ := hbad
          rcases List.mem_cons.mp hn with rfl | hn
          · rcases hb with hb | ⟨c, hc, hct⟩
            · rw [hfind] at hb
              cases hb
            · rw [hfind] at hc
              cases hc
              exact absurd hct hty
          · exact ⟨n, hn, hb⟩
        simp only [hty, if_false]
        cases hd : F64.absDiff s (F64.quot (cand.Width : ℚ) (cand.Height : ℚ)) with
        | fin d =>
          by_cases hlt : d < bd
          · simpa [hlt] using ih hrest name d
          · simpa [hlt] using ih hrest best bd
        | posInf => simpa using ih hrest best bd
        | negInf => simpa using ih hrest best bd
        | nan => simpa using ih hrest best bd

/-- C2: for an auto format, `resolveFormat` returns the zero format and an error when
`from_list` is empty, when a source dimension is not positive, when a listed name is not a key
of the formats map, or when a listed name maps to a format whose type is not fixed. -/
theorem resolveFormat_auto_error (S : Strings) (formats : GoMap Format) (format : Format)
    (srcW srcH : Int) (hauto : S.ToLower format.Type_ = FormatTypeAuto)
    (hbad : format.FromList = [] ∨ srcW ≤ 0 ∨ srcH ≤ 0 ∨
      (∃ n ∈ format.FromList, formats.find n = none) ∨
      (∃ n ∈ format.FromList, ∃ c, formats.find n = some c ∧
        S.ToLower c.Type_ ≠ FormatTypeFixed)) :
    ∃ e, resolveFormat S formats format srcW srcH = (Format.zero, some e) := by
  unfold resolveFormat
  simp only [hauto, auto_ne_fixed, if_false, ne_eq, not_true_eq_false]
  by_cases hlen : format.FromList.length = 0
  · exact ⟨_, if_pos hlen⟩
  · simp only [hlen, if_false]
    by_cases hsz : srcW ≤ 0 ∨ srcH ≤ 0
    · exact ⟨_, if_pos hsz⟩
    · simp only [hsz, if_false]
      have hnames : ∃ n ∈ format.FromList, formats.find n = none ∨
          ∃ c, formats.find n = some c ∧ S.ToLower c.Type_ ≠ FormatTypeFixed := by
        rcases hbad with h | h | h | ⟨n, hn, h⟩ | ⟨n, hn, h⟩
        · exact absurd (by simp [h]) hlen
        · exact absurd (Or.inl h) hsz
        · exact absurd (Or.inr h) hsz
        · exact ⟨n, hn, Or.inl h⟩
        · exact ⟨n, hn, Or.inr h⟩
      obtain ⟨e, he⟩ := autoLoop_error_of_bad S formats ((srcW : ℚ) / (srcH : ℚ))
        format.FromList hnames "" MaxFloat64
      exact ⟨e, by simp [he]⟩

/-- C3: a format whose lower-cased type is "fixed" is returned unchanged and without error,
whatever the formats map and the source dimensions. -/
theorem resolveFormat_fixed (S : Strings) (formats : GoMap Format) (format : Format)
    (srcW srcH : Int) (hfixed : S.ToLower format.Type_ = FormatTypeFixed) :
    resolveFormat S formats format srcW srcH = (format, none) := by
  simp [resolveFormat, hfixed]

theorem MaxFloat64_large : (2 : ℚ) ^ 64 ≤ MaxFloat64 := by
  have h : (2 : Int) ^ 64 ≤ 2 ^ 1024 - 2 ^ 971 := by
    have e : (2 : Int) ^ 1024 = 2 ^ 971 * 2 ^ 53 := by rw [← pow_add]
    have p : (2 : Int) ^ 64 ≤ 2 ^ 971 := pow_le_pow_right₀ (by norm_num) (by norm_num)
    have q : (0 : Int) < 2 ^ 971 := by positivity
    rw [e]
    nlinarith
  unfold MaxFloat64
  exact_mod_cast h

theorem lt_MaxFloat64 (d : ℚ) (h : d < 2 ^ 64) : (d < MaxFloat64) = True :=
  eq_true (lt_of_lt_of_le h MaxFloat64_large)

/-- Witness of C2: an auto format that lists a name missing from the formats map. -/
theorem resolveFormat_auto_error_witness :
    ∃ e, resolveFormat asciiStrings testFormats ⟨"auto", 0, 0, ["square", "missing"], 0⟩
      1000 1250 = (Format.zero, some e) :=
  resolveFormat_auto_error asciiStrings testFormats ⟨"auto", 0, 0, ["square", "missing"], 0⟩
    1000 1250 (by decide)
    (Or.inr (Or.inr (Or.inr (Or.inl ⟨"missing", by simp, by decide⟩))))

/-- Witness of C3: a format of type "FIXED" with a from_list, resolved for a source of size
0 x -1 against an empty formats map. -/
theorem resolveFormat_fixed_witness :
    resolveFormat asciiStrings ⟨[]⟩ ⟨"FIXED", 1080, 1350, ["x"], 7⟩ 0 (-1)
      = (⟨"FIXED", 1080, 1350, ["x"], 7⟩, none) :=
  resolveFormat_fixed asciiStrings ⟨[]⟩ ⟨"FIXED", 1080, 1350, ["x"], 7⟩ 0 (-1) (by decide)

/-! ## Theorems: configuration -/

theorem firstErr_none_iff {α : Type} (f : α → Option GoError) (l : List α) :
    firstErr f l = none ↔ ∀ a ∈ l, f a = none := by
  induction l with
  | nil => simp [firstErr]
  | cons a rest ih =>
    unfold firstErr
    cases hfa : f a with
    | some e => simp [hfa]
    | none => simp [hfa, ih]

theorem liveEntries_mem {α : Type} (k : String) (v : α) (l : List (String × α)) :
    ∀ seen : List String, k ∉ seen → lookupEntry k l = some v → (k, v) ∈ liveEntries seen l := by
  induction l with
  | nil => intro seen _ h; simp [lookupEntry] at h
  | cons kv rest ih =>
    obtain ⟨k', v'⟩ := kv
    intro seen hseen h
    unfold lookupEntry at h
    unfold liveEntries
    by_cases hk : k' = k
    · subst hk
      simp only [if_true, Option.some.injEq] at h
      subst h
      simp [hseen]
    · simp only [hk, if_false] at h
      by_cases hs : k' ∈ seen
      · simp only [hs, if_true]
        exact ih seen hseen h
      · simp only [hs, if_false]
        refine List.mem_cons_of_mem _ (ih (k' :: seen) ?_ h)
        simp only [List.mem_cons, not_or]
        exact ⟨fun e => hk e.symm, hseen⟩

theorem GoMap.range_mem {α : Type} (m : GoMap α) (k : String) (v : α)
    (h : m.find k = some v) : (k, v) ∈ m.range :=
  liveEntries_mem k v m.entries [] (by simp) h

theorem defaultQuality_maps (c : Config) :
    c.defaultQuality.Formats = c.Formats ∧ c.defaultQuality.Backgrounds = c.Backgrounds ∧
    c.defaultQuality.Watermarks = c.Watermarks ∧ c.defaultQuality.Profiles = c.Profiles ∧
    c.defaultQuality.Settings.AssetsPath = c.Settings.AssetsPath := by
  unfold Config.defaultQuality
  split_ifs <;> exact ⟨rfl, rfl, rfl, rfl, rfl⟩

theorem defaultAssets_maps (S : Strings) (c : Config) :
    (c.defaultAssets S).Formats = c.Formats ∧ (c.defaultAssets S).Backgrounds = c.Backgrounds ∧
    (c.defaultAssets S).Watermarks = c.Watermarks ∧ (c.defaultAssets S).Profiles = c.Profiles ∧
    (c.defaultAssets S).Settings.JpegQuality = c.Settings.JpegQuality := by
  unfold Config.defaultAssets
  split_ifs <;> exact ⟨rfl, rfl, rfl, rfl, rfl⟩

theorem validateMaps_none (S : Strings) (c : Config) (h : c.validateMaps S = none) :
    (∀ k v, c.Formats.find k = some v → validateFormat S k v = none) ∧
    (∀ k v, c.Formats.find k = some v → S.ToLower (S.TrimSpace v.Type_) = FormatTypeAuto →
      ∀ ref ∈ v.FromList, checkFromList S c.Formats k ref = none) ∧
    (∀ k v, c.Backgrounds.find k = some v → validateBackground S k v = none) ∧
    (∀ k v, c.Watermarks.find k = some v → validateWatermark S k v = none) ∧
    (∀ k v, c.Profiles.find k = some v → c.validateProfile S k v = none) := by
  unfold Config.validateMaps at h
  split at h
  · simp at h
  · rename_i hf
    split at h
    · simp at h
    · rename_i hr
      split at h
      · simp at h
      · rename_i hb
        split at h
        · simp at h
        · rename_i hw
          rw [firstErr_none_iff] at hf hr hb hw h
          refine ⟨?_, ?_, ?_, ?_, ?_⟩
          · intro k v hk
            exact hf (k, v) (GoMap.range_mem _ k v hk)
          · intro k v hk hauto ref href
            have := hr (k, v) (GoMap.range_mem _ k v hk)
            simp only [hauto, ne_eq, not_true_eq_false, if_false] at this
            exact (firstErr_none_iff _ _).mp this ref href
          · intro k v hk
            exact hb (k, v) (GoMap.range_mem _ k v hk)
          · intro k v hk
            exact hw (k, v) (GoMap.range_mem _ k v hk)
          · intro k v hk
            exact h (k, v) (GoMap.range_mem _ k v hk)

/-- What a successful `Validate` establishes. -/
theorem Validate_ok (S : Strings) (c c' : Config) (h : c.Validate S = (c', none)) :
    c'.Formats = c.Formats ∧ c'.Backgrounds = c.Backgrounds ∧ c'.Watermarks = c.Watermarks ∧
    c'.Profiles = c.Profiles ∧
    (1 ≤ c'.Settings.JpegQuality ∧ c'.Settings.JpegQuality ≤ 100) ∧
    c'.validateMaps S = none := by
  unfold Config.Validate at h
  simp only at h
  split_ifs at h with hq
  · simp at h
  · simp only [Prod.mk.injEq] at h
    obtain ⟨h1, h2⟩ := h
    have dq := defaultQuality_maps c
    have da := defaultAssets_maps S c.defaultQuality
    subst h1
    refine ⟨da.1.trans dq.1, da.2.1.trans dq.2.1, da.2.2.1.trans dq.2.2.1,
      da.2.2.2.1.trans dq.2.2.2.1, ?_, h2⟩
    rw [da.2.2.2.2]
    constructor
    · exact not_lt.mp (fun hlt => hq (Or.inl hlt))
    · exact not_lt.mp (fun hlt => hq (Or.inr hlt))

/-- C7: a successful `ResolveProfile` dereferences the profile: padding is the override of the
profile when it sets one (an explicit 0 included) and the padding of the format otherwise, the
JPEG quality is the non-zero quality of the profile and the global setting otherwise, the
background, format and watermark are the referenced entries (no watermark exactly when
`watermark_ref` is empty), and border width, border colour and no-upscale are copied. -/
theorem ResolveProfile_fields (S : Strings) (c : Config) (name : String) (r : ResolvedProfile)
    (h : c.ResolveProfile S name = (r, none)) :
    ∃ prof f bg, c.Profiles.find name = some prof ∧
      c.Formats.find prof.FormatRef = some f ∧
      c.Backgrounds.find prof.BackgroundRef = some bg ∧
      r.PaddingPercent = prof.PaddingPercent.getD f.PaddingPercent ∧
      r.JpegQuality = (if prof.JpegQuality ≠ 0 then prof.JpegQuality else c.Settings.JpegQuality) ∧
      r.Background = bg ∧ r.Format = f ∧
      r.Watermark = (if prof.WatermarkRef = "" then none
        else c.Watermarks.find prof.WatermarkRef) ∧
      (r.Watermark = none ↔ prof.WatermarkRef = "") ∧
      r.BorderWidth = prof.BorderWidth ∧ r.BorderColor = prof.BorderColor ∧
      r.NoUpscale = prof.NoUpscale := by
  unfold Config.ResolveProfile at h
  cases hp : c.Profiles.find name with
  | none => simp [hp] at h
  | some prof =>
    simp only [hp] at h
    cases hf : c.Formats.find prof.FormatRef with
    | none => simp [hf] at h
    | some f =>
      simp only [hf] at h
      cases hvf : validateFormat S prof.FormatRef f with
      | some e => simp [hvf] at h
      | none =>
        simp only [hvf] at h
        cases hb : c.Backgrounds.find prof.BackgroundRef with
        | none => simp [hb] at h
        | some bg =>
          simp only [hb] at h
          cases hvb : validateBackground S prof.BackgroundRef bg with
          | some e => simp [hvb] at h
          | none =>
            simp only [hvb] at h
            refine ⟨prof, f, bg, rfl, hf, hb, ?_⟩
            by_cases hw : prof.WatermarkRef = ""
            · simp only [hw, ne_eq, not_true_eq_false, if_false, Prod.mk.injEq, and_true] at h
              subst h
              cases hpp : prof.PaddingPercent <;> simp [hw]
            · simp only [hw, ne_eq, not_false_eq_true, if_true] at h
              cases hwf : c.Watermarks.find prof.WatermarkRef with
              | none => simp [hwf] at h
              | some wm =>
                simp only [hwf] at h
                cases hvw : validateWatermark S prof.WatermarkRef wm with
                | some e => simp [hvw] at h
                | none =>
                  simp only [hvw, Prod.mk.injEq, and_true] at h
                  subst h
                  cases hpp : prof.PaddingPercent <;> simp [hw]

/-- The result of `ResolveProfile` on a profile whose references all validate. -/
theorem ResolveProfile_succeeds (S : Strings) (c : Config) (name : String) (prof : Profile)
    (hv : c.validateMaps S = none) (hp : c.Profiles.find name = some prof) :
    ∃ f, c.Formats.find prof.FormatRef = some f ∧
      (c.ResolveProfile S name).2 = none ∧ (c.ResolveProfile S name).1.Format = f ∧
      (prof.WatermarkRef = "" → (c.ResolveProfile S name).1.Watermark = none) := by
  obtain ⟨vf, _, vb, vw, vp⟩ := validateMaps_none S c hv
  have hprof := vp name prof hp
  unfold Config.validateProfile at hprof
  split_ifs at hprof with h1 h2 h3 h4 h5 h6
  cases hf : c.Formats.find prof.FormatRef with
  | none => simp [hf] at h4
  | some f =>
    cases hb : c.Backgrounds.find prof.BackgroundRef with
    | none => simp [hb] at h3
    | some bg =>
      have hvf := vf prof.FormatRef f hf
      have hvb := vb prof.BackgroundRef bg hb
      refine ⟨f, rfl, ?_⟩
      unfold Config.ResolveProfile
      simp only [hp, hf, hvf, hb, hvb]
      by_cases hw : prof.WatermarkRef = ""
      · simp [hw]
      · cases hwf : c.Watermarks.find prof.WatermarkRef with
        | none => simp [hw, hwf] at h5
        | some wm =>
          have hvw := vw prof.WatermarkRef wm hwf
          simp [hw, hwf, hvw]

/-- Witness of C7: the profile `default` of `fullConfig`, which overrides the padding of its
format with an explicit 0 and leaves the JPEG quality to the settings. -/
theorem ResolveProfile_fields_witness :
    fullConfig.ResolveProfile asciiStrings "default" = (fullResolved, none) ∧
    ∃ prof f bg, fullConfig.Profiles.find "default" = some prof ∧
      fullConfig.Formats.find prof.FormatRef = some f ∧
      fullConfig.Backgrounds.find prof.BackgroundRef = some bg ∧
      fullResolved.PaddingPercent = prof.PaddingPercent.getD f.PaddingPercent ∧
      fullResolved.JpegQuality
        = (if prof.JpegQuality ≠ 0 then prof.JpegQuality else fullConfig.Settings.JpegQuality) ∧
      fullResolved.Background = bg ∧ fullResolved.Format = f ∧
      fullResolved.Watermark = (if prof.WatermarkRef = "" then none
        else fullConfig.Watermarks.find prof.WatermarkRef) ∧
      (fullResolved.Watermark = none ↔ prof.WatermarkRef = "") ∧
      fullResolved.BorderWidth = prof.BorderWidth ∧ fullResolved.BorderColor = prof.BorderColor ∧
      fullResolved.NoUpscale = prof.NoUpscale :=
  ⟨rfl, ResolveProfile_fields asciiStrings fullConfig "default" fullResolved rfl⟩

theorem validateFormat_none (S : Strings) (name : String) (f : Format)
    (h : validateFormat S name f = none) :
    ((S.ToLower (S.TrimSpace f.Type_) = FormatTypeFixed ∧ 0 < f.Width ∧ 0 < f.Height ∧
        f.FromList = []) ∨
     (S.ToLower (S.TrimSpace f.Type_) = FormatTypeAuto ∧ f.FromList ≠ [] ∧ f.Width = 0 ∧
        f.Height = 0)) ∧
    0 ≤ f.PaddingPercent ∧ f.PaddingPercent ≤ 50 := by
  unfold validateFormat at h
  simp only at h
  split at h
  · simp at h
  · rename_i hk
    split_ifs at h with hpad
    refine ⟨?_, not_lt.mp (fun hlt => hpad (Or.inl hlt)), not_lt.mp (fun hlt => hpad (Or.inr hlt))⟩
    split_ifs at hk with h1 h2 h3 h4 h5 h6
    · refine Or.inl ⟨h1, ?_, ?_, ?_⟩
      · exact not_le.mp (fun hle => h2 (Or.inl hle))
      · exact not_le.mp (fun hle => h2 (Or.inr hle))
      · exact List.length_eq_zero.mp (Nat.le_zero.mp (not_lt.mp h3))
    · refine Or.inr ⟨h4, ?_, ?_, ?_⟩
      · exact fun hnil => h5 (by simp [hnil])
      · exact not_not.mp (fun hne => h6 (Or.inl hne))
      · exact not_not.mp (fun hne => h6 (Or.inr hne))

/-! ## Theorems: Process -/

theorem NewProcessor_ok (S : Strings) (cfg : Config) (p : Processor)
    (h : NewProcessor S cfg = (some p, none)) :
    cfg.Validate S = (p.cfg, none) := by
  unfold NewProcessor at h
  split at h
  · simp at h
  · rename_i validated hv
    simp only [Prod.mk.injEq, Option.some.injEq, and_true] at h
    subst h
    exact hv

/-- The part of C4 that holds: with no `watermark_ref` and a non-empty text, `Process` returns
no image, quality 0 and an error; when `resolveFormat` succeeds for the format of the profile
and the source, as it does for every format whose lower-cased type is "fixed", the error is
the `UserError` about the missing watermark style. -/
theorem Process_text_user_error_of_resolved (S : Strings) (G : Imaging) (P : Painter)
    (cfg : Config) (p : Processor) (name : String) (prof : Profile) (src : Image) (text : String)
    (hnew : NewProcessor S cfg = (some p, none))
    (hp : p.cfg.Profiles.find name = some prof)
    (hw : prof.WatermarkRef = "") (ht : text ≠ "") :
    ∃ f, p.cfg.Formats.find prof.FormatRef = some f ∧
      ((∃ err, (resolveFormat S p.cfg.Formats f src.Dx src.Dy).2 = some err ∧
          p.Process S G P src name text = (none, 0, some err)) ∨
       ((resolveFormat S p.cfg.Formats f src.Dx src.Dy).2 = none ∧
          p.Process S G P src name text = (none, 0, some (.userError
            (.errorf "watermark text provided, but profile has no watermark_ref"))))) ∧
      (S.ToLower f.Type_ = FormatTypeFixed →
        p.Process S G P src name text = (none, 0, some (.userError
          (.errorf "watermark text provided, but profile has no watermark_ref")))) := by
  have hval := NewProcessor_ok S cfg p hnew
  obtain ⟨_, _, _, _, _, hmaps⟩ := Validate_ok S cfg p.cfg hval
  obtain ⟨f, hf, hnone, hfmt, hwm⟩ := ResolveProfile_succeeds S p.cfg name prof hmaps hp
  have hwm' := hwm hw
  have key : ∀ fmt', (resolveFormat S p.cfg.Formats f src.Dx src.Dy) = (fmt', none) →
      p.Process S G P src name text = (none, 0, some (.userError
        (.errorf "watermark text provided, but profile has no watermark_ref"))) := by
    intro fmt' hres
    unfold Processor.Process
    rcases hrp : p.cfg.ResolveProfile S name with ⟨r, e⟩
    rw [hrp] at hnone hfmt hwm'
    simp only at hnone hfmt hwm'
    subst hnone
    simp only [hfmt, hres, hwm', ht, ne_eq, not_false_eq_true, and_self, if_true]
  refine ⟨f, hf, ?_, ?_⟩
  · rcases hres : resolveFormat S p.cfg.Formats f src.Dx src.Dy with ⟨fmt', e⟩
    cases e with
    | none => exact Or.inr ⟨rfl, key fmt' hres⟩
    | some err =>
      refine Or.inl ⟨err, rfl, ?_⟩
      unfold Processor.Process
      rcases hrp : p.cfg.ResolveProfile S name with ⟨r, e⟩
      rw [hrp] at hnone hfmt
      simp only at hnone hfmt
      subst hnone
      simp only [hfmt, hres]
  · intro hfix
    exact key f (by simp [resolveFormat, hfix])

/-- C4, evaluated: a valid configuration whose profile `default` has no `watermark_ref` and
uses an auto format; for a 0x0 source and the text "text", `Process` returns the error
"invalid source size" of `resolveFormat` as it is, and `isUserError` is false for it. -/
theorem Process_text_invalid_source_plain_error :
    NewProcessor asciiStrings autoConfig = (some ⟨autoConfig⟩, none) ∧
    autoConfig.Profiles.find "default" = some autoProfile ∧
    autoProfile.WatermarkRef = "" ∧
    Processor.Process asciiStrings cutImaging idlePainter ⟨autoConfig⟩
        (solidImage 0 0 ⟨255, 0, 0, 255⟩) "default" "text"
      = (none, 0, some (.errorf "invalid source size")) ∧
    isUserError (.errorf "invalid source size") = false :=
  ⟨rfl, rfl, rfl, rfl, rfl⟩

/-- C5: for a name that is not a key of `Profiles`, `ResolveProfile` returns the zero
`ResolvedProfile` and an error that wraps `ErrProfileNotFound`, and `Process` returns no image,
quality 0 and a `UserError` that wraps that same error. -/
theorem missing_profile_is_user_error (S : Strings) (c : Config) (name : String)
    (h : c.Profiles.find name = none) :
    ∃ e, c.ResolveProfile S name = (ResolvedProfile.zero, some e) ∧
      errorsIs e .ErrProfileNotFound = true ∧
      ∀ (G : Imaging) (P : Painter) (src : Image) (text : String),
        Processor.Process S G P ⟨c⟩ src name text = (none, 0, some (.userError e)) ∧
        isUserError (.userError e) = true ∧
        errorsIs (.userError e) .ErrProfileNotFound = true := by
  have hr : c.ResolveProfile S name
      = (ResolvedProfile.zero, some (wrapSentinel .ErrProfileNotFound name)) := by
    unfold Config.ResolveProfile
    simp only [h]
  have hi : errorsIs (wrapSentinel .ErrProfileNotFound name) .ErrProfileNotFound = true := by
    simp [wrapSentinel, errorsIs]
  refine ⟨wrapSentinel .ErrProfileNotFound name, hr, hi, ?_⟩
  intro G P src text
  refine ⟨?_, rfl, ?_⟩
  · unfold Processor.Process
    simp only [hr, hi, if_true]
  · simp [errorsIs, hi]

/-- Witness of C5: the empty configuration of `TestResolveProfileMissing` and the name
"missing". -/
theorem missing_profile_is_user_error_witness :
    ∃ e, emptyConfig.ResolveProfile asciiStrings "missing" = (ResolvedProfile.zero, some e) ∧
      errorsIs e .ErrProfileNotFound = true ∧
      ∀ (G : Imaging) (P : Painter) (src : Image) (text : String),
        Processor.Process asciiStrings G P ⟨emptyConfig⟩ src "missing" text
          = (none, 0, some (.userError e)) ∧
        isUserError (.userError e) = true ∧
        errorsIs (.userError e) .ErrProfileNotFound = true :=
  missing_profile_is_user_error asciiStrings emptyConfig "missing" rfl

theorem validateFormat_not_user (S : Strings) (name : String) (f : Format) (e : GoError)
    (h : validateFormat S name f = some e) :
    isUserError e = false ∧ errorsIs e .ErrProfileNotFound = false := by
  unfold validateFormat at h
  simp only at h
  split at h
  · rename_i e' he'
    simp only [Option.some.injEq] at h
    subst h
    split_ifs at he' <;> simp only [Option.some.injEq] at he' <;> subst he' <;> exact ⟨rfl, rfl⟩
  · split_ifs at h
    simp only [Option.some.injEq] at h
    subst h
    exact ⟨rfl, rfl⟩

theorem validateBackground_not_user (S : Strings) (name : String) (bg : Background) (e : GoError)
    (h : validateBackground S name bg = some e) :
    isUserError e = false ∧ errorsIs e .ErrProfileNotFound = false := by
  unfold validateBackground at h
  simp only at h
  split_ifs at h <;> simp only [Option.some.injEq] at h <;> subst h <;> exact ⟨rfl, rfl⟩

theorem validateWatermark_not_user (S : Strings) (name : String) (wm : Watermark) (e : GoError)
    (h : validateWatermark S name wm = some e) :
    isUserError e = false ∧ errorsIs e .ErrProfileNotFound = false := by
  unfold validateWatermark at h
  split_ifs at h <;> simp only [Option.some.injEq] at h <;> subst h <;> exact ⟨rfl, rfl⟩

/-- An error of `ResolveProfile` for a name that is a key of `Profiles` is neither a
`UserError` nor `ErrProfileNotFound`; a success returns the referenced format. -/
theorem ResolveProfile_of_known (S : Strings) (c : Config) (name : String) (prof : Profile)
    (f : Format) (hp : c.Profiles.find name = some prof)
    (hf : c.Formats.find prof.FormatRef = some f) :
    (∃ e, (c.ResolveProfile S name).2 = some e ∧ isUserError e = false ∧
        errorsIs e .ErrProfileNotFound = false) ∨
    ((c.ResolveProfile S name).2 = none ∧ (c.ResolveProfile S name).1.Format = f) := by
  unfold Config.ResolveProfile
  simp only [hp, hf]
  cases hvf : validateFormat S prof.FormatRef f with
  | some e' =>
    obtain ⟨h1, h2⟩ := validateFormat_not_user S _ f e' hvf
    exact Or.inl ⟨e', rfl, h1, h2⟩
  | none =>
    dsimp only
    cases hb : c.Backgrounds.find prof.BackgroundRef with
    | none => exact Or.inl ⟨wrapSentinel .ErrBackgroundNotFound prof.BackgroundRef, rfl, rfl, rfl⟩
    | some bg =>
      dsimp only
      cases hvb : validateBackground S prof.BackgroundRef bg with
      | some e' =>
        obtain ⟨h1, h2⟩ := validateBackground_not_user S _ bg e' hvb
        exact Or.inl ⟨e', rfl, h1, h2⟩
      | none =>
        dsimp only
        by_cases hw : prof.WatermarkRef = ""
        · refine Or.inr ?_
          simp [hw]
        · cases hwf : c.Watermarks.find prof.WatermarkRef with
          | none =>
            refine Or.inl ⟨wrapSentinel .ErrWatermarkNotFound prof.WatermarkRef, ?_, rfl, rfl⟩
            simp [hw]
          | some wm =>
            cases hvw : validateWatermark S prof.WatermarkRef wm with
            | some e' =>
              obtain ⟨h1, h2⟩ := validateWatermark_not_user S _ wm e' hvw
              refine Or.inl ⟨e', ?_, h1, h2⟩
              simp [hw, hvw]
            | none =>
              refine Or.inr ?_
              simp [hw, hvw]

/-- C6, evaluated: a processor built by `NewProcessor`, a profile whose format is auto and a
source of size 0x5: `Process` returns the error "invalid source size" of `resolveFormat` as
it is, and `isUserError` is false for it. -/
theorem Process_invalid_source_plain_error :
    NewProcessor asciiStrings autoConfig = (some ⟨autoConfig⟩, none) ∧
    (solidImage 0 5 ⟨255, 0, 0, 255⟩).Dx ≤ 0 ∧
    Processor.Process asciiStrings cutImaging idlePainter ⟨autoConfig⟩
        (solidImage 0 5 ⟨255, 0, 0, 255⟩) "default" ""
      = (none, 0, some (.errorf "invalid source size")) ∧
    isUserError (.errorf "invalid source size") = false :=
  ⟨rfl, by decide, rfl, rfl⟩

/-! ## Theorems: fit geometry -/

theorem fitImage_eq (G : Imaging) (src : Image) (targetW targetH : Int) (p : ℚ)
    (noUpscale : Bool) :
    fitImage G src targetW targetH p noUpscale =
      (if noUpscale = true ∧ (fitScale src targetW targetH p).gtFin 1 = true then
        (src, ((targetW : ℚ) - (src.Dx : ℚ)) / 2, ((targetH : ℚ) - (src.Dy : ℚ)) / 2)
      else
        (G.Fit src (goInt (availSide targetW p)) (goInt (availSide targetH p)),
          ((targetW : ℚ) - ((G.Fit src (goInt (availSide targetW p))
            (goInt (availSide targetH p))).Dx : ℚ)) / 2,
          ((targetH : ℚ) - ((G.Fit src (goInt (availSide targetW p))
            (goInt (availSide targetH p))).Dy : ℚ)) / 2)) := by
  unfold fitImage fitScale availSide
  simp only
  split_ifs <;> rfl

theorem goInt_of_one_le (q : ℚ) (hq : 1 ≤ q) : 1 ≤ goInt q ∧ ((goInt q : Int) : ℚ) ≤ q := by
  have hq0 : (0 : ℚ) ≤ q := le_trans zero_le_one hq
  have hnum : 0 ≤ q.num := Rat.num_nonneg.mpr hq0
  have hden : (0 : Int) ≤ (q.den : Int) := Int.natCast_nonneg _
  have hfl : goInt q = ⌊q⌋ := by
    unfold goInt
    rw [Int.tdiv_eq_ediv hnum hden, Rat.floor_def]
  rw [hfl]
  exact ⟨Int.le_floor.mpr (by exact_mod_cast hq), Int.floor_le q⟩

/-! ## Theorems: offsets of the fit -/

theorem anchorForAlign_eq (S : Strings) (width height : Int) (align : String) (ox oy : ℚ) :
    anchorForAlign S width height align ox oy =
      ((hAnchorSpec width (anchorPair (splitHyphen
          (if S.ToLower (S.TrimSpace align) = "" then "bottom-center"
           else S.ToLower (S.TrimSpace align)))).2 ox).1,
       (vAnchorSpec height (anchorPair (splitHyphen
          (if S.ToLower (S.TrimSpace align) = "" then "bottom-center"
           else S.ToLower (S.TrimSpace align)))).1 oy).1,
       (hAnchorSpec width (anchorPair (splitHyphen
          (if S.ToLower (S.TrimSpace align) = "" then "bottom-center"
           else S.ToLower (S.TrimSpace align)))).2 ox).2,
       (vAnchorSpec height (anchorPair (splitHyphen
          (if S.ToLower (S.TrimSpace align) = "" then "bottom-center"
           else S.ToLower (S.TrimSpace align)))).1 oy).2) := by
  unfold anchorForAlign
  simp only
  generalize splitHyphen (if S.ToLower (S.TrimSpace align) = "" then "bottom-center"
    else S.ToLower (S.TrimSpace align)) = parts
  rcases parts with _ | ⟨p0, _ | ⟨p1, _ | ⟨p2, rest⟩⟩⟩ <;> rfl

theorem splitHyphenAux_no_hyphen (l : List Char) (hl : '-' ∉ l) :
    ∀ cur : List Char, splitHyphenAux cur l = [cur.reverse ++ l] := by
  induction l with
  | nil => intro cur; simp [splitHyphenAux]
  | cons c rest ih =>
    intro cur
    have hc : c ≠ '-' := fun e => hl (by simp [e])
    have hrest : '-' ∉ rest := fun e => hl (List.mem_cons_of_mem _ e)
    unfold splitHyphenAux
    simp only [hc, if_false]
    rw [ih hrest]
    simp

theorem splitHyphen_single (a : String) (ha : '-' ∉ a.data) : splitHyphen a = [a] := by
  unfold splitHyphen
  rw [splitHyphenAux_no_hyphen a.data ha]
  simp

theorem splitHyphen_bottom_center : splitHyphen "bottom-center" = ["bottom", "center"] := by
  decide

/-- C14: the single-word and empty forms of the align string give the result of the two-part
form they stand for: "top" as "top-center", "bottom" as "bottom-center", "left" as
"center-left", "right" as "center-right", "center" and "middle" as "center-center", the empty
string and every other hyphen-free token as "bottom-center".  Both strings are compared after
lower-casing and trimming, as `anchorForAlign` does. -/
theorem anchorForAlign_single_word (S : Strings) (width height : Int) (ox oy : ℚ)
    (s t : String)
    (hform : SingleWordForm (S.ToLower (S.TrimSpace s)) (S.ToLower (S.TrimSpace t))) :
    anchorForAlign S width height s ox oy = anchorForAlign S width height t ox oy := by
  rw [anchorForAlign_eq, anchorForAlign_eq]
  rcases hform with ⟨ha, hb⟩ | ⟨ha, hb⟩ | ⟨ha, hb⟩ | ⟨ha, hb⟩ | ⟨ha, hb⟩ | ⟨ha, hb⟩ | ⟨ha, hb⟩ |
    ⟨hy, h1, h2, h3, h4, h5, h6, hb⟩
  · rw [ha, hb]
    have e1 : splitHyphen "top" = ["top"] := by decide
    have e2 : splitHyphen "top-center" = ["top", "center"] := by decide
    simp [e1, e2, anchorPair]
  · rw [ha, hb]
    have e1 : splitHyphen "bottom" = ["bottom"] := by decide
    simp [e1, splitHyphen_bottom_center, anchorPair]
  · rw [ha, hb]
    have e1 : splitHyphen "left" = ["left"] := by decide
    have e2 : splitHyphen "center-left" = ["center", "left"] := by decide
    simp [e1, e2, anchorPair]
  · rw [ha, hb]
    have e1 : splitHyphen "right" = ["right"] := by decide
    have e2 : splitHyphen "center-right" = ["center", "right"] := by decide
    simp [e1, e2, anchorPair]
  · rw [ha, hb]
    have e1 : splitHyphen "center" = ["center"] := by decide
    have e2 : splitHyphen "center-center" = ["center", "center"] := by decide
    simp [e1, e2, anchorPair]
  · rw [ha, hb]
    have e1 : splitHyphen "middle" = ["middle"] := by decide
    have e2 : splitHyphen "center-center" = ["center", "center"] := by decide
    simp [e1, e2, anchorPair]
  · rw [ha, hb]
    simp
  · rw [hb]
    by_cases h0 : S.ToLower (S.TrimSpace s) = ""
    · simp [h0]
    · rw [if_neg h0, splitHyphen_single _ hy]
      simp [splitHyphen_bottom_center, anchorPair, h1, h2, h3, h4, h5, h6, hAnchorSpec]

/-- Witness of C14: the eight forms on an 800x600 canvas with offsets (10, 20); "watermark"
is a hyphen-free token that is not a keyword. -/
theorem anchorForAlign_single_word_witness :
    anchorForAlign asciiStrings 800 600 "top" 10 20
      = anchorForAlign asciiStrings 800 600 "top-center" 10 20 ∧
    anchorForAlign asciiStrings 800 600 "bottom" 10 20
      = anchorForAlign asciiStrings 800 600 "bottom-center" 10 20 ∧
    anchorForAlign asciiStrings 800 600 "left" 10 20
      = anchorForAlign asciiStrings 800 600 "center-left" 10 20 ∧
    anchorForAlign asciiStrings 800 600 "right" 10 20
      = anchorForAlign asciiStrings 800 600 "center-right" 10 20 ∧
    anchorForAlign asciiStrings 800 600 "center" 10 20
      = anchorForAlign asciiStrings 800 600 "center-center" 10 20 ∧
    anchorForAlign asciiStrings 800 600 "middle" 10 20
      = anchorForAlign asciiStrings 800 600 "center-center" 10 20 ∧
    anchorForAlign asciiStrings 800 600 "" 10 20
      = anchorForAlign asciiStrings 800 600 "bottom-center" 10 20 ∧
    anchorForAlign asciiStrings 800 600 "watermark" 10 20
      = anchorForAlign asciiStrings 800 600 "bottom-center" 10 20 :=
  ⟨anchorForAlign_single_word asciiStrings 800 600 10 20 "top" "top-center"
      (Or.inl (by decide)),
    anchorForAlign_single_word asciiStrings 800 600 10 20 "bottom" "bottom-center"
      (Or.inr (Or.inl (by decide))),
    anchorForAlign_single_word asciiStrings 800 600 10 20 "left" "center-left"
      (Or.inr (Or.inr (Or.inl (by decide)))),
    anchorForAlign_single_word asciiStrings 800 600 10 20 "right" "center-right"
      (Or.inr (Or.inr (Or.inr (Or.inl (by decide))))),
    anchorForAlign_single_word asciiStrings 800 600 10 20 "center" "center-center"
      (Or.inr (Or.inr (Or.inr (Or.inr (Or.inl (by decide)))))),
    anchorForAlign_single_word asciiStrings 800 600 10 20 "middle" "center-center"
      (Or.inr (Or.inr (Or.inr (Or.inr (Or.inr (Or.inl (by decide))))))),
    anchorForAlign_single_word asciiStrings 800 600 10 20 "" "bottom-center"
      (Or.inr (Or.inr (Or.inr (Or.inr (Or.inr (Or.inr (Or.inl (by decide)))))))),
    anchorForAlign_single_word asciiStrings 800 600 10 20 "watermark" "bottom-center"
      (Or.inr (Or.inr (Or.inr (Or.inr (Or.inr (Or.inr (Or.inr (by decide))))))))⟩

theorem hAnchorSpec_fraction (width : Int) (h : String) (ox : ℚ) :
    (hAnchorSpec width h ox).2 = 0 ∨ (hAnchorSpec width h ox).2 = 1 / 2 ∨
      (hAnchorSpec width h ox).2 = 1 := by
  unfold hAnchorSpec
  split_ifs <;> simp

theorem vAnchorSpec_fraction (height : Int) (v : String) (oy : ℚ) :
    (vAnchorSpec height v oy).2 = 0 ∨ (vAnchorSpec height v oy).2 = 1 / 2 ∨
      (vAnchorSpec height v oy).2 = 1 := by
  unfold vAnchorSpec
  split_ifs <;> simp

/-- C15: `anchorForAlign` returns a result for every align string; the result is the one of
the lower-cased, trimmed string (lower-casing and trimming a string a second time changes
nothing), and `ax` and `ay` are each 0, 0.5 or 1. -/
theorem anchorForAlign_total_normalised (S : Strings) (width height : Int) (ox oy : ℚ)
    (s : String)
    (hidem : S.ToLower (S.TrimSpace (S.ToLower (S.TrimSpace s))) = S.ToLower (S.TrimSpace s)) :
    ∃ x y ax ay, anchorForAlign S width height s ox oy = (x, y, ax, ay) ∧
      anchorForAlign S width height (S.ToLower (S.TrimSpace s)) ox oy = (x, y, ax, ay) ∧
      (ax = 0 ∨ ax = 1 / 2 ∨ ax = 1) ∧ (ay = 0 ∨ ay = 1 / 2 ∨ ay = 1) := by
  refine ⟨_, _, _, _, anchorForAlign_eq S width height s ox oy, ?_,
    hAnchorSpec_fraction _ _ _, vAnchorSpec_fraction _ _ _⟩
  rw [anchorForAlign_eq, hidem]

/-- Witness of C15: " Top-LEFT " behaves as "top-left". -/
theorem anchorForAlign_total_normalised_witness :
    asciiStrings.ToLower (asciiStrings.TrimSpace " Top-LEFT ") = "top-left" ∧
    ∃ x y ax ay, anchorForAlign asciiStrings 800 600 " Top-LEFT " 10 20 = (x, y, ax, ay) ∧
      anchorForAlign asciiStrings 800 600
        (asciiStrings.ToLower (asciiStrings.TrimSpace " Top-LEFT ")) 10 20 = (x, y, ax, ay) ∧
      (ax = 0 ∨ ax = 1 / 2 ∨ ax = 1) ∧ (ay = 0 ∨ ay = 1 / 2 ∨ ay = 1) :=
  ⟨by decide,
    anchorForAlign_total_normalised asciiStrings 800 600 10 20 " Top-LEFT " (by decide)⟩

/-! ## Theorems: colours -/

/-- The error cases of `parseHexColor` that do not depend on the scanner, and the fall-back
of `setHexColor`: an empty trimmed string, a missing `#` prefix and a byte length other than
4 or 7 give an error, and on every error white is set at the requested opacity. -/
theorem parseHexColor_rejects (S : Strings) (hex : String) (opacity : ℚ) :
    (S.TrimSpace hex = "" → ∃ e, parseHexColor S hex = (NRGBA.zero, some e)) ∧
    ((S.TrimSpace hex).data.head? ≠ some (Char.ofNat 35) →
      ∃ e, parseHexColor S hex = (NRGBA.zero, some e)) ∧
    ((S.TrimSpace hex).utf8ByteSize ≠ 4 → (S.TrimSpace hex).utf8ByteSize ≠ 7 →
      ∃ e, parseHexColor S hex = (NRGBA.zero, some e)) ∧
    ((parseHexColor S hex).2 ≠ none →
      setHexColor S hex opacity = [DrawOp.SetRGBA 1 1 1 opacity]) := by
  refine ⟨?_, ?_, ?_, ?_⟩
  · intro h
    exact ⟨.errorf "empty color", by simp [parseHexColor, h]⟩
  · intro h
    unfold parseHexColor
    simp only
    split_ifs with h0
    · exact ⟨_, rfl⟩
    · exact ⟨_, rfl⟩
  · intro h4 h7
    unfold parseHexColor
    simp only
    split_ifs with h0 h1
    · exact ⟨_, rfl⟩
    · exact ⟨_, rfl⟩
    · exact ⟨_, rfl⟩
  · intro h
    unfold setHexColor
    rcases hp : parseHexColor S hex with ⟨c, e⟩
    cases e with
    | none => rw [hp] at h; exact absurd rfl h
    | some err => rfl

/-- C12: evaluation at the failing input.  The string "#12345z" has the `#` prefix and length
7 but is not six hexadecimal digits; the scanner reads 12, 34 and then the single digit 5 and
stops at `z`, so `parseHexColor` returns the colour (18, 52, 5, 255) and no error, and
`setHexColor` sets that colour instead of white.  The string "# 1 2 3" is accepted in the same
way as (1, 2, 3, 255). -/
theorem parseHexColor_accepts_malformed :
    parseHexColor asciiStrings "#12345z" = (⟨18, 52, 5, 255⟩, none) ∧
    parseHexColor asciiStrings "# 1 2 3" = (⟨1, 2, 3, 255⟩, none) ∧
    setHexColor asciiStrings "#12345z" 1
      = [DrawOp.SetRGBA ((18 : ℚ) / 255) ((52 : ℚ) / 255) ((5 : ℚ) / 255) 1] := by
  have h1 : parseHexColor asciiStrings "#12345z" = (⟨18, 52, 5, 255⟩, none) := by decide
  refine ⟨h1, by decide, ?_⟩
  simp [setHexColor, h1]

/-! ## Theorems: embedded JPEG previews -/

theorem extractLoop_append (data : List Nat) :
    ∀ (fuel i : Nat) (rs : List (List Nat)),
      extractLoop data fuel i rs = rs ++ extractLoop data fuel i [] := by
  intro fuel
  induction fuel with
  | zero => intro i rs; simp [extractLoop]
  | succ fuel ih =>
    intro i rs
    unfold extractLoop
    split_ifs with h1 h2
    · exact ih (i + 1) rs
    · cases hidx : indexFFD9 (List.drop (i + 2) data) with
      | none => exact ih (i + 1) rs
      | some j =>
        simp only
        split_ifs with h3
        · exact ih (i + 1) rs
        · rw [ih _ (rs ++ _), ih _ ([] ++ _)]
          simp
    · simp

/-- The fuel of `extractJPEGs` is enough: once `len(data) <= i + fuel`, more fuel does not
change the result of the loop, which ends by its own test. -/
theorem extractLoop_fuel (data : List Nat) :
    ∀ (fuel i : Nat) (rs : List (List Nat)), data.length ≤ i + fuel →
      ∀ k : Nat, extractLoop data (fuel + k) i rs = extractLoop data fuel i rs := by
  intro fuel
  induction fuel with
  | zero =>
    intro i rs h k
    cases k with
    | zero => rfl
    | succ k =>
      have hnot : ¬ i + 1 < data.length := by omega
      simp [extractLoop, hnot]
  | succ fuel ih =>
    intro i rs h k
    have hk : fuel + 1 + k = (fuel + k) + 1 := by omega
    rw [hk]
    unfold extractLoop
    split_ifs with h1 h2
    · exact ih (i + 1) rs (by omega) k
    · cases hj : indexFFD9 (data.drop (i + 2)) with
      | none => exact ih (i + 1) rs (by omega) k
      | some j =>
        dsimp only
        split_ifs with h3
        · exact ih (i + 1) rs (by omega) k
        · exact ih (i + 2 + j + 2) _ (by omega) k
    · rfl

theorem indexFFD9_core (S : List Nat) :
    ∀ core : List Nat, hasPair 255 217 (core ++ [255]) = false →
      indexFFD9 (core ++ 255 :: 217 :: S) = some core.length := by
  intro core
  induction core with
  | nil => intro _; simp [indexFFD9]
  | cons a rest ih =>
    intro h
    cases rest with
    | nil =>
      simp only [List.cons_append, List.nil_append, hasPair, Bool.or_false, Bool.and_eq_false_imp,
        decide_eq_true_eq, decide_eq_false_iff_not] at h
      have ha : ¬ (a = 255 ∧ (255 : Nat) = 217) := by
        rintro ⟨_, h2⟩
        exact absurd h2 (by decide)
      simp [indexFFD9, ha]
    | cons b rest' =>
      have hsplit : hasPair 255 217 (a :: b :: (rest' ++ [255]))
          = ((decide (a = 255) && decide (b = 217)) || hasPair 255 217 (b :: (rest' ++ [255]))) :=
        rfl
      simp only [List.cons_append] at h ih ⊢
      rw [hsplit, Bool.or_eq_false_iff] at h
      have hab : ¬ (a = 255 ∧ b = 217) := by
        rintro ⟨h1, h2⟩
        simp [h1, h2] at h
      have step : indexFFD9 (a :: b :: (rest' ++ 255 :: 217 :: S))
          = (indexFFD9 (b :: (rest' ++ 255 :: 217 :: S))).map (· + 1) := by
        simp [indexFFD9, hab]
      rw [step, ih h.2]
      simp

theorem getD_append_left (l r : List Nat) (i : Nat) (h : i < l.length) :
    (l ++ r).getD i 0 = l.getD i 0 := by
  simp [List.getD, List.getElem?_append_left h]

theorem getD_append_right (l r : List Nat) (k : Nat) :
    (l ++ r).getD (l.length + k) 0 = r.getD k 0 := by
  induction l with
  | nil => simp
  | cons x xs ih =>
    have e : (x :: xs).length + k = (xs.length + k) + 1 := by
      simp only [List.length_cons]
      omega
    rw [e, List.cons_append, List.getD_cons_succ]
    exact ih

theorem hasPair_false_getD (a b : Nat) :
    ∀ (l : List Nat) (i : Nat), hasPair a b l = false → i + 1 < l.length →
      ¬ (l.getD i 0 = a ∧ l.getD (i + 1) 0 = b) := by
  intro l
  induction l with
  | nil => intro i _ hi; simp at hi
  | cons x rest ih =>
    intro i h hi
    cases rest with
    | nil => simp at hi
    | cons y rest' =>
      have hsplit : hasPair a b (x :: y :: rest')
          = ((decide (x = a) && decide (y = b)) || hasPair a b (y :: rest')) := rfl
      rw [hsplit, Bool.or_eq_false_iff] at h
      cases i with
      | zero =>
        rintro ⟨h1, h2⟩
        simp only [List.getD_cons_zero, List.getD_cons_succ] at h1 h2
        simp [h1, h2] at h
      | succ i =>
        have := ih i h.2 (by simpa using hi)
        simpa [List.getD_cons_succ] using this

/-- While the index is inside a prefix without an FF D8 pair, the loop only steps on. -/
theorem extractLoop_skip_prefix (P core S : List Nat) (hP : hasPair 255 216 P = false) :
    ∀ (d i fuel : Nat) (rs : List (List Nat)), i + d = P.length →
      extractLoop (P ++ (255 :: 216 :: (core ++ [255, 217]) ++ S)) (fuel + d) i rs
        = extractLoop (P ++ (255 :: 216 :: (core ++ [255, 217]) ++ S)) fuel P.length rs := by
  intro d
  induction d with
  | zero =>
    intro i fuel rs hi
    simp only [Nat.add_zero] at hi ⊢
    rw [hi]
  | succ d ih =>
    intro i fuel rs hi
    have hlt : i < P.length := by omega
    have hlen : i + 1 < (P ++ (255 :: 216 :: (core ++ [255, 217]) ++ S)).length := by
      simp only [List.length_append, List.length_cons]
      omega
    have htest : (P ++ (255 :: 216 :: (core ++ [255, 217]) ++ S)).getD i 0 ≠ 255 ∨
        (P ++ (255 :: 216 :: (core ++ [255, 217]) ++ S)).getD (i + 1) 0 ≠ 216 := by
      by_cases hin : i + 1 < P.length
      · have := hasPair_false_getD 255 216 P i hP hin
        rw [getD_append_left P _ i hlt, getD_append_left P _ (i + 1) hin]
        by_contra hcon
        rw [not_or, not_not, not_not] at hcon
        exact this hcon
      · right
        have e : i + 1 = P.length + 0 := by omega
        rw [e, getD_append_right]
        simp
    have hstep : extractLoop (P ++ (255 :: 216 :: (core ++ [255, 217]) ++ S)) (fuel + (d + 1)) i rs
        = extractLoop (P ++ (255 :: 216 :: (core ++ [255, 217]) ++ S)) (fuel + d) (i + 1) rs := by
      rw [show fuel + (d + 1) = (fuel + d) + 1 from rfl]
      conv_lhs => unfold extractLoop
      rw [if_pos hlen, if_pos htest]
    rw [hstep]
    exact ih (i + 1) fuel rs (by omega)

/-- At the start of the embedded JPEG the loop appends it and goes on behind it. -/
theorem extractLoop_take (P core S : List Nat) (fuel : Nat) (rs : List (List Nat))
    (hcore : hasPair 255 217 (core ++ [255]) = false) :
    extractLoop (P ++ (255 :: 216 :: (core ++ [255, 217]) ++ S)) (fuel + 1) P.length rs
      = extractLoop (P ++ (255 :: 216 :: (core ++ [255, 217]) ++ S)) fuel
          (P.length + 2 + core.length + 2) (rs ++ [255 :: 216 :: (core ++ [255, 217])]) := by
  have hlen : P.length + 1 < (P ++ (255 :: 216 :: (core ++ [255, 217]) ++ S)).length := by
    simp only [List.length_append, List.length_cons]
    omega
  have h0 : (P ++ (255 :: 216 :: (core ++ [255, 217]) ++ S)).getD P.length 0 = 255 := by
    have := getD_append_right P (255 :: 216 :: (core ++ [255, 217]) ++ S) 0
    rw [Nat.add_zero] at this
    rw [this]
    rfl
  have h1 : (P ++ (255 :: 216 :: (core ++ [255, 217]) ++ S)).getD (P.length + 1) 0 = 216 := by
    rw [getD_append_right]
    rfl
  have htest : ¬ ((P ++ (255 :: 216 :: (core ++ [255, 217]) ++ S)).getD P.length 0 ≠ 255 ∨
      (P ++ (255 :: 216 :: (core ++ [255, 217]) ++ S)).getD (P.length + 1) 0 ≠ 216) := by
    rw [h0, h1]
    simp
  have hdrop : List.drop (P.length + 2) (P ++ (255 :: 216 :: (core ++ [255, 217]) ++ S))
      = core ++ 255 :: 217 :: S := by
    rw [List.drop_append]
    simp
  have hidx := indexFFD9_core S core hcore
  have hend : ¬ (P.length + 2 + core.length + 2
      > (P ++ (255 :: 216 :: (core ++ [255, 217]) ++ S)).length) := by
    simp only [List.length_append, List.length_cons, List.length_nil]
    omega
  have hcand : List.take (P.length + 2 + core.length + 2 - P.length)
      (List.drop P.length (P ++ (255 :: 216 :: (core ++ [255, 217]) ++ S)))
      = 255 :: 216 :: (core ++ [255, 217]) := by
    rw [List.drop_left]
    have e : P.length + 2 + core.length + 2 - P.length
        = (255 :: 216 :: (core ++ [255, 217])).length := by
      simp only [List.length_append, List.length_cons, List.length_nil]
      omega
    rw [e, List.take_left]
  conv_lhs => unfold extractLoop
  rw [if_pos hlen, if_neg htest, hdrop, hidx]
  simp only
  rw [if_neg hend, hcand]

theorem extractJPEGs_core (P core S : List Nat) (hP : hasPair 255 216 P = false)
    (hcore : hasPair 255 217 (core ++ [255]) = false) :
    ∃ rest, extractJPEGs (P ++ (255 :: 216 :: (core ++ [255, 217]) ++ S))
      = (255 :: 216 :: (core ++ [255, 217])) :: rest := by
  unfold extractJPEGs
  have hlen : (P ++ (255 :: 216 :: (core ++ [255, 217]) ++ S)).length
      = (core.length + 3 + S.length + 1) + P.length := by
    simp only [List.length_append, List.length_cons, List.length_nil]
    omega
  rw [hlen, extractLoop_skip_prefix P core S hP P.length 0 _ [] (by simp),
    extractLoop_take P core S _ [] hcore, extractLoop_append]
  exact ⟨_, rfl⟩

theorem previewLoop_keeps (D : Codec) (img : Image) :
    ∀ rest : List (List Nat),
      (∀ c ∈ rest, ∀ im, D.Decode c = .ok im → im.Dx * im.Dy ≤ img.Dx * img.Dy) →
      previewLoop D rest (some img) (img.Dx * img.Dy) = some img := by
  intro rest
  induction rest with
  | nil => intro _; rfl
  | cons c rest ih =>
    intro h
    have hrest : ∀ c' ∈ rest, ∀ im, D.Decode c' = .ok im → im.Dx * im.Dy ≤ img.Dx * img.Dy :=
      fun c' hc' => h c' (List.mem_cons_of_mem _ hc')
    unfold previewLoop
    cases hd : D.Decode c with
    | error e => exact ih hrest
    | ok im =>
      have hle := h c (List.mem_cons_self _ _) im hd
      simp only
      rw [if_neg (not_lt.mpr hle)]
      exact ih hrest

theorem embedded_core (J : List Nat) (hstart : [255, 216] <+: J) (hend : [255, 217] <:+ J)
    (hno : hasPair 255 217 J.dropLast = false) :
    ∃ core, J = 255 :: 216 :: (core ++ [255, 217]) ∧ hasPair 255 217 (core ++ [255]) = false := by
  obtain ⟨u, hu⟩ := hstart
  obtain ⟨t, ht⟩ := hend
  rcases t with _ | ⟨a, _ | ⟨b, core⟩⟩
  · rw [← hu] at ht
    simp at ht
  · rw [← hu] at ht
    simp at ht
  · have hab : a = 255 ∧ b = 216 := by
      rw [← hu] at ht
      simp only [List.cons_append, List.cons.injEq] at ht
      exact ⟨ht.1, ht.2.1⟩
    obtain ⟨rfl, rfl⟩ := hab
    refine ⟨core, by rw [← ht]; simp, ?_⟩
    have hdl : J.dropLast = 255 :: 216 :: (core ++ [255]) := by
      rw [← ht]
      have : (255 :: 216 :: core ++ [255, 217] : List Nat)
          = (255 :: 216 :: (core ++ [255])) ++ [217] := by simp
      rw [this, List.dropLast_concat]
    rw [hdl] at hno
    cases core with
    | nil => rfl
    | cons c core' =>
      have h1 : hasPair 255 217 (255 :: 216 :: ((c :: core') ++ [255]))
          = ((decide ((255 : Nat) = 255) && decide ((216 : Nat) = 217))
              || hasPair 255 217 (216 :: ((c :: core') ++ [255]))) := rfl
      have h2 : hasPair 255 217 (216 :: ((c :: core') ++ [255]))
          = ((decide ((216 : Nat) = 255) && decide (c = 217))
              || hasPair 255 217 ((c :: core') ++ [255])) := rfl
      rw [h1, h2] at hno
      simpa using hno

/-- C19 (amended): for a byte string `J` that begins with FF D8, ends with FF D9 and contains
no other FF D9 pair, a prefix `P` without an FF D8 pair and any suffix `S`, `J` is the first
candidate of `extractJPEGs(P ++ J ++ S)`; and when `J` decodes to an image of positive area
and no later candidate decodes to a larger one, `DecodeImage` on a name with the extension
".dng" returns the image decoded from `J`. -/
theorem extractJPEGs_finds_embedded (P J S : List Nat) (hstart : [255, 216] <+: J)
    (hend : [255, 217] <:+ J) (hno : hasPair 255 217 J.dropLast = false)
    (hP : hasPair 255 216 P = false) :
    ∃ rest, extractJPEGs (P ++ (J ++ S)) = J :: rest ∧
      ∀ (Sx : Strings) (D : Codec) (filename : String) (img : Image),
        Sx.ToLower (D.Ext filename) = ".dng" → D.Decode J = .ok img → 0 < img.Dx * img.Dy →
        (∀ c ∈ rest, ∀ im, D.Decode c = .ok im → im.Dx * im.Dy ≤ img.Dx * img.Dy) →
        DecodeImage Sx D (P ++ (J ++ S), none) filename = (some img, none) := by
  obtain ⟨core, hJ, hcore⟩ := embedded_core J hstart hend hno
  obtain ⟨rest, hrest⟩ := extractJPEGs_core P core S hP hcore
  rw [← hJ] at hrest
  refine ⟨rest, hrest, ?_⟩
  intro Sx D filename img hext hdec harea hmax
  unfold DecodeImage
  simp only [hext, true_or, if_true]
  unfold decodeDNGPreview
  simp only [hrest, List.length_cons, Nat.succ_ne_zero, if_false]
  have hloop : previewLoop D (J :: rest) none 0 = some img := by
    unfold previewLoop
    simp only [hdec]
    rw [if_pos harea]
    exact previewLoop_keeps D img rest hmax
  rw [hloop]

/-- Witness of C19 (amended): the prefix "DNGFAKE", the suffix "TRAILER" and a byte string
that stands for a 32x24 JPEG; `DecodeImage` on "test.dng" returns the 32x24 image. -/
theorem extractJPEGs_finds_embedded_witness :
    extractJPEGs (dngFake ++ (toyJpeg ++ trailer)) = [toyJpeg] ∧
    DecodeImage asciiStrings toyCodec (dngFake ++ (toyJpeg ++ trailer), none) "test.dng"
      = (some (solidImage 32 24 ⟨200, 10, 20, 255⟩), none) := by
  have hex : extractJPEGs (dngFake ++ (toyJpeg ++ trailer)) = [toyJpeg] := by decide
  obtain ⟨rest, hrest, hdec⟩ := extractJPEGs_finds_embedded dngFake toyJpeg trailer
    ⟨[255, 219, 0, 67, 255, 217], rfl⟩ ⟨[255, 216, 255, 219, 0, 67], rfl⟩ (by decide) (by decide)
  have hnil : rest = [] := by
    rw [hex] at hrest
    exact ((List.cons.inj hrest).2).symm
  subst hnil
  refine ⟨hex, hdec asciiStrings toyCodec "test.dng" (solidImage 32 24 ⟨200, 10, 20, 255⟩)
    (by decide) (by simp [toyCodec]) (by decide) (by simp)⟩

/-- Counterexample to C19: with the prefix FF D8, the byte string FF D8 FF D9 and an empty
suffix, the only candidate of `extractJPEGs` starts at the FF D8 of the prefix and swallows the
byte string, which is not a candidate itself.  And with the prefix "DNGFAKE", the 32x24 byte
string and a suffix that is a 64x48 byte string of the same form, both are candidates and
`DecodeImage` on "test.dng" returns the 64x48 image of the suffix. -/
theorem extractJPEGs_embedded_counterexample :
    [255, 216] <+: [255, 216, 255, 217] ∧ [255, 217] <:+ [255, 216, 255, 217] ∧
    hasPair 255 217 ([255, 216, 255, 217] : List Nat).dropLast = false ∧
    extractJPEGs ([255, 216] ++ ([255, 216, 255, 217] ++ []))
      = [[255, 216, 255, 216, 255, 217]] ∧
    [255, 216, 255, 217] ∉ extractJPEGs ([255, 216] ++ ([255, 216, 255, 217] ++ [])) ∧
    extractJPEGs (dngFake ++ (toyJpeg ++ bigJpeg)) = [toyJpeg, bigJpeg] ∧
    (DecodeImage asciiStrings twoCodec (dngFake ++ (toyJpeg ++ bigJpeg), none) "test.dng").1.map
      (fun m => (m.Dx, m.Dy)) = some (64, 48) :=
  ⟨⟨[255, 217], rfl⟩, ⟨[255, 216], rfl⟩, by decide, by decide, by decide, by decide,
    by decide⟩

/-! ## Theorems: stretched background -/

theorem Rectangle.In_iff (r : Rectangle) (x y : Int) :
    r.In x y = true ↔ r.MinX ≤ x ∧ x < r.MaxX ∧ r.MinY ≤ y ∧ y < r.MaxY := by
  simp [Rectangle.In, and_assoc]

theorem Rectangle.Empty_iff (r : Rectangle) :
    r.Empty = true ↔ r.MaxX ≤ r.MinX ∨ r.MaxY ≤ r.MinY := by
  simp [Rectangle.Empty]

theorem Rectangle.In_mk (a b c d x y : Int) :
    Rectangle.In ⟨a, b, c, d⟩ x y = true ↔ a ≤ x ∧ x < c ∧ b ≤ y ∧ y < d := by
  simp [Rectangle.In, and_assoc]

theorem Rectangle.Empty_mk (a b c d : Int) :
    Rectangle.Empty ⟨a, b, c, d⟩ = true ↔ c ≤ a ∨ d ≤ b := by
  simp [Rectangle.Empty]

theorem Rectangle.In_Intersect (r s : Rectangle) (x y : Int) :
    (r.Intersect s).In x y = true ↔ r.In x y = true ∧ s.In x y = true := by
  obtain ⟨a, b, c, d⟩ := r
  obtain ⟨a1, b1, c1, d1⟩ := s
  unfold Rectangle.Intersect
  dsimp only
  by_cases hE : (Rectangle.Empty
      ⟨if a < a1 then a1 else a, if b < b1 then b1 else b,
       if c > c1 then c1 else c, if d > d1 then d1 else d⟩) = true
  · rw [if_pos hE]
    rw [Rectangle.Empty_mk] at hE
    simp only [Rectangle.In_mk]
    split_ifs at hE <;> omega
  · rw [if_neg hE]
    rw [Rectangle.Empty_mk] at hE
    simp only [Rectangle.In_mk]
    split_ifs at hE ⊢ <;> omega

theorem Rect_In (x0 y0 x1 y1 x y : Int) (hx : x0 ≤ x1) (hy : y0 ≤ y1) :
    (Rect x0 y0 x1 y1).In x y = true ↔ x0 ≤ x ∧ x < x1 ∧ y0 ≤ y ∧ y < y1 := by
  rw [Rectangle.In_iff]
  unfold Rect
  dsimp only
  rw [if_neg (by omega), if_neg (by omega), if_neg (by omega), if_neg (by omega)]

theorem Draw_Dx (dst : Image) (r : Rectangle) (src : Source) (op : Op) :
    (Draw dst r src op).Dx = dst.Dx := rfl

theorem Draw_Dy (dst : Image) (r : Rectangle) (src : Source) (op : Op) :
    (Draw dst r src op).Dy = dst.Dy := rfl

theorem paint_append (bg : Image) (a b : List DrawCall) :
    paint bg (a ++ b) = paint (paint bg a) b := by
  simp [paint, List.foldl_append]

theorem paint_Dx (calls : List DrawCall) : ∀ bg : Image, (paint bg calls).Dx = bg.Dx := by
  induction calls with
  | nil => intro bg; rfl
  | cons d rest ih => intro bg; simp only [paint, List.foldl_cons] at ih ⊢; rw [ih]; rfl

theorem paint_Dy (calls : List DrawCall) : ∀ bg : Image, (paint bg calls).Dy = bg.Dy := by
  induction calls with
  | nil => intro bg; rfl
  | cons d rest ih => intro bg; simp only [paint, List.foldl_cons] at ih ⊢; rw [ih]; rfl

theorem NewNRGBA_Dx (width height : Int) (hw : 0 < width) :
    (NewNRGBA (Rect 0 0 width height)).Dx = width := by
  simp [NewNRGBA, Rect, Rectangle.Dx]
  omega

theorem NewNRGBA_Dy (width height : Int) (hh : 0 < height) :
    (NewNRGBA (Rect 0 0 width height)).Dy = height := by
  simp [NewNRGBA, Rect, Rectangle.Dy]
  omega

theorem stretchBackground_ok (fill : Image → Int → Int → Image) (src fitted : Image)
    (width height x0 y0 : Int) (hw : 0 < width) (hh : 0 < height)
    (hfw : fitted.Dx ≠ 0) (hfh : fitted.Dy ≠ 0) :
    stretchBackground fill src fitted width height x0 y0
      = (some (paint (NewNRGBA (Rect 0 0 width height))
          (stretchDraws fill src fitted width height x0 y0)), none) := by
  unfold stretchBackground
  rw [if_neg (by omega), if_neg (by simp [hfw, hfh])]

/-- C17: `stretchBackground` returns no image and an error exactly when `width <= 0`,
`height <= 0` or the fitted image has width 0 or height 0; in every other case it returns an
image of exactly `width` x `height` and no error.  The bounds of the fitted image are
well-formed. -/
theorem stretchBackground_error_iff (fill : Image → Int → Int → Image) (src fitted : Image)
    (width height x0 y0 : Int) (_hfit : 0 ≤ fitted.Dx ∧ 0 ≤ fitted.Dy) :
    ((stretchBackground fill src fitted width height x0 y0).2 ≠ none ↔
      (width ≤ 0 ∨ height ≤ 0 ∨ fitted.Dx = 0 ∨ fitted.Dy = 0)) ∧
    ((width ≤ 0 ∨ height ≤ 0 ∨ fitted.Dx = 0 ∨ fitted.Dy = 0) →
      (stretchBackground fill src fitted width height x0 y0).1 = none) ∧
    (¬ (width ≤ 0 ∨ height ≤ 0 ∨ fitted.Dx = 0 ∨ fitted.Dy = 0) →
      ∃ bg, stretchBackground fill src fitted width height x0 y0 = (some bg, none) ∧
        bg.Dx = width ∧ bg.Dy = height) := by
  by_cases hsize : width ≤ 0 ∨ height ≤ 0
  · have hcond : width ≤ 0 ∨ height ≤ 0 ∨ fitted.Dx = 0 ∨ fitted.Dy = 0 := by tauto
    have h : stretchBackground fill src fitted width height x0 y0
        = (none, some (.errorf
            ("invalid stretch size: " ++ toString width ++ "x" ++ toString height))) := by
      unfold stretchBackground
      rw [if_pos hsize]
    rw [h]
    exact ⟨⟨fun _ => hcond, fun _ => by simp⟩, fun _ => rfl, fun hn => absurd hcond hn⟩
  · by_cases hzero : fitted.Dx = 0 ∨ fitted.Dy = 0
    · have hcond : width ≤ 0 ∨ height ≤ 0 ∨ fitted.Dx = 0 ∨ fitted.Dy = 0 := by tauto
      have h : stretchBackground fill src fitted width height x0 y0
          = (none, some (.errorf "invalid fitted size")) := by
        unfold stretchBackground
        rw [if_neg hsize, if_pos hzero]
      rw [h]
      exact ⟨⟨fun _ => hcond, fun _ => by simp⟩, fun _ => rfl, fun hn => absurd hcond hn⟩
    · have hw : 0 < width := by omega
      have hh : 0 < height := by omega
      have hfw : fitted.Dx ≠ 0 := fun h => hzero (Or.inl h)
      have hfh : fitted.Dy ≠ 0 := fun h => hzero (Or.inr h)
      have hcond : ¬ (width ≤ 0 ∨ height ≤ 0 ∨ fitted.Dx = 0 ∨ fitted.Dy = 0) := by tauto
      rw [stretchBackground_ok fill src fitted width height x0 y0 hw hh hfw hfh]
      refine ⟨⟨fun h => absurd rfl h, fun h => absurd h hcond⟩, fun h => absurd h hcond,
        fun _ => ⟨_, rfl, ?_, ?_⟩⟩
      · rw [paint_Dx, NewNRGBA_Dx width height hw]
      · rw [paint_Dy, NewNRGBA_Dy width height hh]

/-- Witness of C17: a 2x2 photo at (1, 2) of a 5x6 canvas gives a 5x6 image, and a canvas of
width 0 gives an error. -/
theorem stretchBackground_error_iff_witness :
    (∃ bg, stretchBackground sameFill fourPixels fourPixels 5 6 1 2 = (some bg, none) ∧
      bg.Dx = 5 ∧ bg.Dy = 6) ∧
    (stretchBackground sameFill fourPixels fourPixels 0 6 1 2).2 ≠ none :=
  ⟨(stretchBackground_error_iff sameFill fourPixels fourPixels 5 6 1 2
      ⟨by decide, by decide⟩).2.2 (by decide),
   (stretchBackground_error_iff sameFill fourPixels fourPixels 0 6 1 2
      ⟨by decide, by decide⟩).1.mpr (Or.inl (by decide))⟩

theorem fillRect_empty (rect : Rectangle) (c : NRGBA) (h : rect.Empty = true) :
    fillRect rect c = [] := by
  simp [fillRect, h]

theorem Rect_empty_of_x (x y0 y1 : Int) : (Rect x y0 x y1).Empty = true := by
  simp [Rect, Rectangle.Empty]

theorem Rect_empty_of_y (x0 x1 y : Int) : (Rect x0 y x1 y).Empty = true := by
  simp [Rect, Rectangle.Empty]

/-- C18: in a call of `stretchBackground` as `renderImage` makes it, for a canvas of positive
size and a fitted image of non-zero size, when
the fitted photo matches the canvas in one dimension (`fitW = width` with `x0 = 0`, or
`fitH = height` with `y0 = 0`) the call succeeds, makes no strip draw on the two sides of
that dimension, and the four corner rectangles are empty, so that no corner is filled: the
draws are the clear, the photo and the strips of the other dimension. -/
theorem stretchBackground_matching_dimension (fill : Image → Int → Int → Image)
    (src fitted : Image) (width height x0 y0 : Int) (hw : 0 < width) (hh : 0 < height)
    (hfw : fitted.Dx ≠ 0) (hfh : fitted.Dy ≠ 0)
    (hmatch : (fitted.Dx = width ∧ x0 = 0) ∨ (fitted.Dy = height ∧ y0 = 0)) :
    (∃ bg, stretchBackground fill src fitted width height x0 y0 = (some bg, none)) ∧
    ((fitted.Dx = width ∧ x0 = 0) →
      leftDraw fitted x0 y0 = [] ∧ rightDraw fitted width x0 y0 = [] ∧
      stretchDraws fill src fitted width height x0 y0
        = [⟨(NewNRGBA (Rect 0 0 width height)).Bounds, .uniform ⟨0, 0, 0, 255⟩, .Src⟩,
           ⟨Rect x0 y0 (x0 + fitted.Dx) (y0 + fitted.Dy), .image fitted, .Over⟩]
          ++ topDraw fitted x0 y0 ++ bottomDraw fitted height x0 y0) ∧
    ((fitted.Dy = height ∧ y0 = 0) →
      topDraw fitted x0 y0 = [] ∧ bottomDraw fitted height x0 y0 = [] ∧
      stretchDraws fill src fitted width height x0 y0
        = [⟨(NewNRGBA (Rect 0 0 width height)).Bounds, .uniform ⟨0, 0, 0, 255⟩, .Src⟩,
           ⟨Rect x0 y0 (x0 + fitted.Dx) (y0 + fitted.Dy), .image fitted, .Over⟩]
          ++ leftDraw fitted x0 y0 ++ rightDraw fitted width x0 y0) ∧
    ((Rect 0 0 x0 y0).Empty = true ∧ (Rect (x0 + fitted.Dx) 0 width y0).Empty = true ∧
      (Rect 0 (y0 + fitted.Dy) x0 height).Empty = true ∧
      (Rect (x0 + fitted.Dx) (y0 + fitted.Dy) width height).Empty = true) ∧
    cornerDraws (topRow (fill src fitted.Dx fitted.Dy) fitted.Dx)
      (bottomRow (fill src fitted.Dx fitted.Dy) fitted.Dx fitted.Dy)
      fitted.Dx fitted.Dy width height x0 y0 = [] := by
  have hempty : (Rect 0 0 x0 y0).Empty = true ∧ (Rect (x0 + fitted.Dx) 0 width y0).Empty = true ∧
      (Rect 0 (y0 + fitted.Dy) x0 height).Empty = true ∧
      (Rect (x0 + fitted.Dx) (y0 + fitted.Dy) width height).Empty = true := by
    rcases hmatch with ⟨h1, h2⟩ | ⟨h1, h2⟩
    · subst h2
      rw [zero_add, h1]
      exact ⟨Rect_empty_of_x _ _ _, Rect_empty_of_x _ _ _, Rect_empty_of_x _ _ _,
        Rect_empty_of_x _ _ _⟩
    · subst h2
      rw [zero_add, h1]
      exact ⟨Rect_empty_of_y _ _ _, Rect_empty_of_y _ _ _, Rect_empty_of_y _ _ _,
        Rect_empty_of_y _ _ _⟩
  have hcorner : cornerDraws (topRow (fill src fitted.Dx fitted.Dy) fitted.Dx)
      (bottomRow (fill src fitted.Dx fitted.Dy) fitted.Dx fitted.Dy)
      fitted.Dx fitted.Dy width height x0 y0 = [] := by
    unfold cornerDraws
    rw [fillRect_empty _ _ hempty.1, fillRect_empty _ _ hempty.2.1,
      fillRect_empty _ _ hempty.2.2.1, fillRect_empty _ _ hempty.2.2.2]
    rfl
  refine ⟨⟨_, stretchBackground_ok fill src fitted width height x0 y0 hw hh hfw hfh⟩,
    ?_, ?_, hempty, hcorner⟩
  · rintro ⟨h1, h2⟩
    have hl : leftDraw fitted x0 y0 = [] := by simp [leftDraw, h2]
    have hr : rightDraw fitted width x0 y0 = [] := by simp [rightDraw, h1, h2]
    refine ⟨hl, hr, ?_⟩
    unfold stretchDraws
    dsimp only
    rw [hcorner, hl, hr]
    simp
  · rintro ⟨h1, h2⟩
    have ht : topDraw fitted x0 y0 = [] := by simp [topDraw, h2]
    have hb : bottomDraw fitted height x0 y0 = [] := by simp [bottomDraw, h1, h2]
    refine ⟨ht, hb, ?_⟩
    unfold stretchDraws
    dsimp only
    rw [hcorner, ht, hb]
    simp

/-- Witness of C18: a 2x2 photo at (0, 2) of a 2x6 canvas; only the clear, the
photo, the top strip and the bottom strip are drawn. -/
theorem stretchBackground_matching_dimension_witness :
    (∃ bg, stretchBackground sameFill fourPixels fourPixels 2 6 0 2 = (some bg, none)) ∧
    leftDraw fourPixels 0 2 = [] ∧ rightDraw fourPixels 2 0 2 = [] ∧
    (stretchDraws sameFill fourPixels fourPixels 2 6 0 2).length = 4 := by
  have h := stretchBackground_matching_dimension sameFill fourPixels fourPixels 2 6 0 2
    (by decide) (by decide) (by decide) (by decide) (Or.inl ⟨rfl, rfl⟩)
  obtain ⟨hl, hr, hd⟩ := h.2.1 ⟨rfl, rfl⟩
  refine ⟨h.1, hl, hr, ?_⟩
  rw [hd]
  simp [topDraw, bottomDraw, fourPixels]

theorem Rect_of_le (x0 y0 x1 y1 : Int) (hx : x0 ≤ x1) (hy : y0 ≤ y1) :
    Rect x0 y0 x1 y1 = ⟨x0, y0, x1, y1⟩ := by
  unfold Rect
  rw [if_neg (by omega), if_neg (by omega), if_neg (by omega), if_neg (by omega)]

theorem Intersect_of_inside (a b c d w h : Int) (ha : 0 ≤ a) (hac : a < c) (hc : c ≤ w)
    (hb : 0 ≤ b) (hbd : b < d) (hd : d ≤ h) :
    Rectangle.Intersect ⟨a, b, c, d⟩ ⟨0, 0, w, h⟩ = ⟨a, b, c, d⟩ := by
  unfold Rectangle.Intersect
  dsimp only
  rw [if_neg (show ¬ a < 0 by omega), if_neg (show ¬ b < 0 by omega),
    if_neg (show ¬ c > w by omega), if_neg (show ¬ d > h by omega)]
  have hne : Rectangle.Empty ⟨a, b, c, d⟩ ≠ true := by
    rw [Ne, Rectangle.Empty_mk]
    omega
  rw [if_neg hne]

theorem goInt_eq_floor (q : ℚ) (hq : 0 ≤ q) : goInt q = ⌊q⌋ := by
  have hnum : 0 ≤ q.num := Rat.num_nonneg.mpr hq
  have hden : (0 : Int) ≤ (q.den : Int) := Int.natCast_nonneg _
  unfold goInt
  rw [Int.tdiv_eq_ediv hnum hden, Rat.floor_def]

theorem goInt_unit (x w : Int) (h0 : 0 ≤ x) (hx : x < w) :
    goInt (((x : ℚ) + 1 / 2) * ((1 : ℚ) / (w : ℚ))) = 0 := by
  have hw : (0 : ℚ) < (w : ℚ) := by exact_mod_cast (lt_of_le_of_lt h0 hx)
  have hx0 : (0 : ℚ) ≤ (x : ℚ) := by exact_mod_cast h0
  have hxw : (x : ℚ) + 1 ≤ (w : ℚ) := by exact_mod_cast hx
  have hq0 : (0 : ℚ) ≤ ((x : ℚ) + 1 / 2) * ((1 : ℚ) / (w : ℚ)) := by positivity
  rw [goInt_eq_floor _ hq0, Int.floor_eq_iff]
  refine ⟨by simpa using hq0, ?_⟩
  rw [mul_one_div, div_lt_iff₀ hw]
  push_cast
  linarith

theorem goInt_same (y h : Int) (h0 : 0 ≤ y) (hh : 0 < h) :
    goInt (((y : ℚ) + 1 / 2) * ((h : ℚ) / (h : ℚ))) = y := by
  have hq : (h : ℚ) ≠ 0 := by exact_mod_cast (ne_of_gt hh)
  have hy0 : (0 : ℚ) ≤ (y : ℚ) := by exact_mod_cast h0
  rw [div_self hq, mul_one, goInt_eq_floor _ (by positivity), Int.floor_eq_iff]
  constructor <;> linarith

/-- The fill of a side strip: the column `a` of the fitted image, resized to `w` columns. -/
theorem Resize_Crop_column (fitted : Image) (a b w : Int) (hb : b = a + 1) (ha : 0 ≤ a)
    (hbw : b ≤ fitted.Dx) (hH : 0 < fitted.Dy) (hw : 0 < w) :
    (Resize (Crop fitted (Rect a 0 b fitted.Dy)) w fitted.Dy).Dx = w ∧
    (Resize (Crop fitted (Rect a 0 b fitted.Dy)) w fitted.Dy).Dy = fitted.Dy ∧
    ∀ x y : Int, 0 ≤ x → x < w → 0 ≤ y → y < fitted.Dy →
      (Resize (Crop fitted (Rect a 0 b fitted.Dy)) w fitted.Dy).At x y = fitted.At a y := by
  subst hb
  have hcrop : Crop fitted (Rect a 0 (a + 1) fitted.Dy)
      = ⟨1, fitted.Dy, fun x y =>
          if 0 ≤ x ∧ x < 1 ∧ 0 ≤ y ∧ y < fitted.Dy then fitted.At (a + x) (0 + y)
          else NRGBA.zero⟩ := by
    unfold Crop
    rw [Rect_of_le a 0 (a + 1) fitted.Dy (by omega) (by omega)]
    unfold Image.Bounds
    rw [Intersect_of_inside a 0 (a + 1) fitted.Dy fitted.Dx fitted.Dy ha (by omega) hbw
      (le_refl 0) hH (le_refl _)]
    have hne : Rectangle.Empty ⟨a, 0, a + 1, fitted.Dy⟩ ≠ true := by
      rw [Ne, Rectangle.Empty_mk]
      omega
    dsimp only
    rw [if_neg hne]
    simp [Rectangle.Dx, Rectangle.Dy]
  rw [hcrop]
  unfold Resize
  dsimp only
  rw [if_neg (by omega), if_neg (by omega), if_neg (by omega), if_neg (by omega),
    if_neg (by omega)]
  refine ⟨rfl, rfl, ?_⟩
  intro x y hx0 hxw hy0 hyH
  unfold resizeNearest
  dsimp only
  rw [if_pos ⟨hx0, hxw, hy0, hyH⟩]
  have h1 : goInt (((x : ℚ) + 1 / 2) * (((1 : Int) : ℚ) / (w : ℚ))) = 0 := by
    rw [Int.cast_one]
    exact goInt_unit x w hx0 hxw
  rw [h1, goInt_same y fitted.Dy hy0 hH, if_pos ⟨le_refl 0, by omega, hy0, hyH⟩]
  simp

/-- The fill of a top or bottom strip: the row `a` of the fitted image, resized to `h`
rows. -/
theorem Resize_Crop_row (fitted : Image) (a b h : Int) (hb : b = a + 1) (ha : 0 ≤ a)
    (hbh : b ≤ fitted.Dy) (hW : 0 < fitted.Dx) (hh : 0 < h) :
    (Resize (Crop fitted (Rect 0 a fitted.Dx b)) fitted.Dx h).Dx = fitted.Dx ∧
    (Resize (Crop fitted (Rect 0 a fitted.Dx b)) fitted.Dx h).Dy = h ∧
    ∀ x y : Int, 0 ≤ x → x < fitted.Dx → 0 ≤ y → y < h →
      (Resize (Crop fitted (Rect 0 a fitted.Dx b)) fitted.Dx h).At x y = fitted.At x a := by
  subst hb
  have hcrop : Crop fitted (Rect 0 a fitted.Dx (a + 1))
      = ⟨fitted.Dx, 1, fun x y =>
          if 0 ≤ x ∧ x < fitted.Dx ∧ 0 ≤ y ∧ y < 1 then fitted.At (0 + x) (a + y)
          else NRGBA.zero⟩ := by
    unfold Crop
    rw [Rect_of_le 0 a fitted.Dx (a + 1) (by omega) (by omega)]
    unfold Image.Bounds
    rw [Intersect_of_inside 0 a fitted.Dx (a + 1) fitted.Dx fitted.Dy (le_refl 0) hW
      (le_refl _) ha (by omega) hbh]
    have hne : Rectangle.Empty ⟨0, a, fitted.Dx, a + 1⟩ ≠ true := by
      rw [Ne, Rectangle.Empty_mk]
      omega
    dsimp only
    rw [if_neg hne]
    simp [Rectangle.Dx, Rectangle.Dy]
  rw [hcrop]
  unfold Resize
  dsimp only
  rw [if_neg (by omega), if_neg (by omega), if_neg (by omega), if_neg (by omega),
    if_neg (by omega)]
  refine ⟨rfl, rfl, ?_⟩
  intro x y hx0 hxw hy0 hyH
  unfold resizeNearest
  dsimp only
  rw [if_pos ⟨hx0, hxw, hy0, hyH⟩]
  have h1 : goInt (((y : ℚ) + 1 / 2) * (((1 : Int) : ℚ) / (h : ℚ))) = 0 := by
    rw [Int.cast_one]
    exact goInt_unit y h hy0 hyH
  rw [h1, goInt_same x fitted.Dx hx0 hW, if_pos ⟨hx0, hxw, le_refl 0, by omega⟩]
  simp

theorem Draw_image_At (dst m : Image) (a b c d : Int) (op : Op) (ha : 0 ≤ a)
    (hc : c ≤ dst.Dx) (hb : 0 ≤ b) (hd : d ≤ dst.Dy) (hmx : m.Dx = c - a)
    (hmy : m.Dy = d - b) (x y : Int) :
    (Draw dst ⟨a, b, c, d⟩ (.image m) op).At x y
      = if a ≤ x ∧ x < c ∧ b ≤ y ∧ y < d then
          drawPixel op (.image m) (x - a) (y - b) (dst.At x y)
        else dst.At x y := by
  unfold Draw
  dsimp only
  apply if_congr _ rfl rfl
  unfold clip
  dsimp only
  rw [Rectangle.In_Intersect, Rectangle.In_Intersect]
  unfold Image.Bounds Rectangle.Add
  simp only [Rectangle.In_mk, hmx, hmy]
  omega

theorem Draw_uniform_At (dst : Image) (col : NRGBA) (a b c d : Int) (ha : 0 ≤ a)
    (hc : c ≤ dst.Dx) (hb : 0 ≤ b) (hd : d ≤ dst.Dy) (x y : Int) :
    (Draw dst ⟨a, b, c, d⟩ (.uniform col) .Src).At x y
      = if a ≤ x ∧ x < c ∧ b ≤ y ∧ y < d then storeUniform col else dst.At x y := by
  unfold Draw
  dsimp only
  apply if_congr _ rfl rfl
  unfold clip
  dsimp only
  rw [Rectangle.In_Intersect]
  unfold Image.Bounds
  simp only [Rectangle.In_mk]
  omega

theorem paint_single (bg : Image) (d : DrawCall) :
    paint bg [d] = Draw bg d.r d.src d.op := rfl

theorem paint_nil (bg : Image) : paint bg [] = bg := rfl

theorem storeOver_opaque (s d : NRGBA)
    (hs : s.R < 256 ∧ s.G < 256 ∧ s.B < 256 ∧ s.A = 255) : storeOver s d = s := by
  obtain ⟨R, G, B, A⟩ := s
  obtain ⟨hR, hG, hB, hA⟩ := hs
  dsimp only at hR hG hB hA
  subst hA
  unfold storeOver NRGBA.RGBA setRGBA64
  simp only [Nat.mul_div_cancel _ (show 0 < 255 by decide)]
  simp only [show 65535 - 255 * 257 = 0 by decide, Nat.mul_zero, Nat.zero_div,
    Nat.zero_mod, Nat.zero_add]
  have e : ∀ n : Nat, n < 256 → n * 257 % 65536 / 256 % 256 = n := by
    intro n hn
    have h1 : n * 257 % 65536 = n * 257 := Nat.mod_eq_of_lt (by omega)
    have h2 : n * 257 / 256 = n := by omega
    rw [h1, h2]
    exact Nat.mod_eq_of_lt hn
  have hA : (255 * 257 % 65536 ≠ 0 ∧ 255 * 257 % 65536 ≠ 65535) = False := by decide
  simp only [hA, if_false, e R hR, e G hG, e B hB]

theorem storeUniform_opaque (c : NRGBA)
    (hc : c.R < 256 ∧ c.G < 256 ∧ c.B < 256 ∧ c.A = 255) : storeUniform c = c := by
  obtain ⟨R, G, B, A⟩ := c
  obtain ⟨hR, hG, hB, hA⟩ := hc
  dsimp only at hR hG hB hA
  subst hA
  unfold storeUniform NRGBA.RGBA setRGBA64
  simp only [Nat.mul_div_cancel _ (show 0 < 255 by decide)]
  have e : ∀ n : Nat, n < 256 → n * 257 / 256 % 256 = n := by
    intro n hn
    have h2 : n * 257 / 256 = n := by omega
    rw [h2]
    exact Nat.mod_eq_of_lt hn
  have hA : (255 * 257 ≠ 0 ∧ 255 * 257 ≠ 65535) = False := by decide
  simp only [hA, if_false, e R hR, e G hG, e B hB]

theorem leftDraw_At (bg fitted : Image) (width height x0 y0 : Int)
    (hW : bg.Dx = width) (hH : bg.Dy = height) (hfw : 0 < fitted.Dx)
    (hfh : 0 < fitted.Dy) (hx0 : 0 ≤ x0) (hx1 : x0 + fitted.Dx ≤ width) (hy0 : 0 ≤ y0)
    (hy1 : y0 + fitted.Dy ≤ height) (x y : Int) :
    (paint bg (leftDraw fitted x0 y0)).At x y
      = if 0 ≤ x ∧ x < x0 ∧ y0 ≤ y ∧ y < y0 + fitted.Dy then fitted.At 0 (y - y0)
        else bg.At x y := by
  subst hW hH
  unfold leftDraw
  by_cases hpos : x0 > 0
  · rw [if_pos hpos]
    dsimp only
    obtain ⟨hdx, hdy, hat⟩ := Resize_Crop_column fitted 0 1 x0 rfl (le_refl 0) (by omega)
      hfh hpos
    rw [paint_single]
    dsimp only
    rw [Rect_of_le 0 y0 x0 (y0 + fitted.Dy) hx0 (by omega),
      Draw_image_At bg _ 0 y0 x0 (y0 + fitted.Dy) .Src (le_refl 0) (by omega) hy0 hy1
        (by rw [hdx]; ring) (by rw [hdy]; ring)]
    by_cases hin : 0 ≤ x ∧ x < x0 ∧ y0 ≤ y ∧ y < y0 + fitted.Dy
    · rw [if_pos hin, if_pos hin]
      unfold drawPixel
      dsimp only
      rw [sub_zero]
      exact hat x (y - y0) hin.1 hin.2.1 (by omega) (by omega)
    · rw [if_neg hin, if_neg hin]
  · rw [if_neg hpos, paint_nil, if_neg (by omega)]

theorem rightDraw_At (bg fitted : Image) (width height x0 y0 : Int)
    (hW : bg.Dx = width) (hH : bg.Dy = height) (hfw : 0 < fitted.Dx)
    (hfh : 0 < fitted.Dy) (hx0 : 0 ≤ x0) (hx1 : x0 + fitted.Dx ≤ width) (hy0 : 0 ≤ y0)
    (hy1 : y0 + fitted.Dy ≤ height) (x y : Int) :
    (paint bg (rightDraw fitted width x0 y0)).At x y
      = if x0 + fitted.Dx ≤ x ∧ x < width ∧ y0 ≤ y ∧ y < y0 + fitted.Dy then
          fitted.At (fitted.Dx - 1) (y - y0)
        else bg.At x y := by
  subst hW hH
  unfold rightDraw
  dsimp only
  by_cases hpos : bg.Dx - (x0 + fitted.Dx) > 0
  · rw [if_pos hpos]
    obtain ⟨hdx, hdy, hat⟩ := Resize_Crop_column fitted (fitted.Dx - 1) fitted.Dx
      (bg.Dx - (x0 + fitted.Dx)) (by ring) (by omega) (le_refl _) hfh hpos
    rw [paint_single]
    dsimp only
    rw [Rect_of_le (x0 + fitted.Dx) y0 bg.Dx (y0 + fitted.Dy) hx1 (by omega),
      Draw_image_At bg _ (x0 + fitted.Dx) y0 bg.Dx (y0 + fitted.Dy) .Src (by omega)
        (le_refl _) hy0 hy1 (by rw [hdx]) (by rw [hdy]; ring)]
    by_cases hin : x0 + fitted.Dx ≤ x ∧ x < bg.Dx ∧ y0 ≤ y ∧ y < y0 + fitted.Dy
    · rw [if_pos hin, if_pos hin]
      unfold drawPixel
      dsimp only
      exact hat (x - (x0 + fitted.Dx)) (y - y0) (by omega) (by omega) (by omega) (by omega)
    · rw [if_neg hin, if_neg hin]
  · rw [if_neg hpos, paint_nil, if_neg (by omega)]

theorem topDraw_At (bg fitted : Image) (width height x0 y0 : Int)
    (hW : bg.Dx = width) (hH : bg.Dy = height) (hfw : 0 < fitted.Dx)
    (hfh : 0 < fitted.Dy) (hx0 : 0 ≤ x0) (hx1 : x0 + fitted.Dx ≤ width) (hy0 : 0 ≤ y0)
    (hy1 : y0 + fitted.Dy ≤ height) (x y : Int) :
    (paint bg (topDraw fitted x0 y0)).At x y
      = if x0 ≤ x ∧ x < x0 + fitted.Dx ∧ 0 ≤ y ∧ y < y0 then fitted.At (x - x0) 0
        else bg.At x y := by
  subst hW hH
  unfold topDraw
  by_cases hpos : y0 > 0
  · rw [if_pos hpos]
    dsimp only
    obtain ⟨hdx, hdy, hat⟩ := Resize_Crop_row fitted 0 1 y0 rfl (le_refl 0) (by omega)
      hfw hpos
    rw [paint_single]
    dsimp only
    rw [Rect_of_le x0 0 (x0 + fitted.Dx) y0 (by omega) hy0,
      Draw_image_At bg _ x0 0 (x0 + fitted.Dx) y0 .Src hx0 hx1 (le_refl 0) (by omega)
        (by rw [hdx]; ring) (by rw [hdy]; ring)]
    by_cases hin : x0 ≤ x ∧ x < x0 + fitted.Dx ∧ 0 ≤ y ∧ y < y0
    · rw [if_pos hin, if_pos hin]
      unfold drawPixel
      dsimp only
      rw [sub_zero]
      exact hat (x - x0) y (by omega) (by omega) hin.2.2.1 hin.2.2.2
    · rw [if_neg hin, if_neg hin]
  · rw [if_neg hpos, paint_nil, if_neg (by omega)]

theorem bottomDraw_At (bg fitted : Image) (width height x0 y0 : Int)
    (hW : bg.Dx = width) (hH : bg.Dy = height) (hfw : 0 < fitted.Dx)
    (hfh : 0 < fitted.Dy) (hx0 : 0 ≤ x0) (hx1 : x0 + fitted.Dx ≤ width) (hy0 : 0 ≤ y0)
    (hy1 : y0 + fitted.Dy ≤ height) (x y : Int) :
    (paint bg (bottomDraw fitted height x0 y0)).At x y
      = if x0 ≤ x ∧ x < x0 + fitted.Dx ∧ y0 + fitted.Dy ≤ y ∧ y < height then
          fitted.At (x - x0) (fitted.Dy - 1)
        else bg.At x y := by
  subst hW hH
  unfold bottomDraw
  dsimp only
  by_cases hpos : bg.Dy - (y0 + fitted.Dy) > 0
  · rw [if_pos hpos]
    obtain ⟨hdx, hdy, hat⟩ := Resize_Crop_row fitted (fitted.Dy - 1) fitted.Dy
      (bg.Dy - (y0 + fitted.Dy)) (by ring) (by omega) (le_refl _) hfw hpos
    rw [paint_single]
    dsimp only
    rw [Rect_of_le x0 (y0 + fitted.Dy) (x0 + fitted.Dx) bg.Dy (by omega) hy1,
      Draw_image_At bg _ x0 (y0 + fitted.Dy) (x0 + fitted.Dx) bg.Dy .Src hx0 hx1 (by omega)
        (le_refl _) (by rw [hdx]; ring) (by rw [hdy])]
    by_cases hin : x0 ≤ x ∧ x < x0 + fitted.Dx ∧ y0 + fitted.Dy ≤ y ∧ y < bg.Dy
    · rw [if_pos hin, if_pos hin]
      unfold drawPixel
      dsimp only
      exact hat (x - x0) (y - (y0 + fitted.Dy)) (by omega) (by omega) (by omega) (by omega)
    · rw [if_neg hin, if_neg hin]
  · rw [if_neg hpos, paint_nil, if_neg (by omega)]

theorem fillRect_At (bg : Image) (col : NRGBA) (width height a b c d : Int)
    (hW : bg.Dx = width) (hH : bg.Dy = height) (hac : a ≤ c) (hbd : b ≤ d)
    (ha : 0 ≤ a) (hc : c ≤ width) (hb : 0 ≤ b) (hd : d ≤ height) (x y : Int) :
    (paint bg (fillRect (Rect a b c d) col)).At x y
      = if a ≤ x ∧ x < c ∧ b ≤ y ∧ y < d then storeUniform col else bg.At x y := by
  subst hW hH
  rw [Rect_of_le a b c d hac hbd]
  unfold fillRect
  by_cases hE : Rectangle.Empty ⟨a, b, c, d⟩ = true
  · rw [if_pos hE, paint_nil]
    rw [Rectangle.Empty_mk] at hE
    rw [if_neg (by omega)]
  · rw [if_neg hE, paint_single]
    exact Draw_uniform_At bg col a b c d ha hc hb hd x y

theorem cornerDraws_At (bg : Image) (top bottom : List NRGBA)
    (fitW fitH width height x0 y0 : Int) (hW : bg.Dx = width) (hH : bg.Dy = height)
    (hfw : 0 < fitW) (hfh : 0 < fitH) (hx0 : 0 ≤ x0) (hx1 : x0 + fitW ≤ width)
    (hy0 : 0 ≤ y0) (hy1 : y0 + fitH ≤ height) (x y : Int) :
    (paint bg (cornerDraws top bottom fitW fitH width height x0 y0)).At x y
      = if x0 + fitW ≤ x ∧ x < width ∧ y0 + fitH ≤ y ∧ y < height then
          storeUniform (bottom.getD (fitW - 1).toNat NRGBA.zero)
        else if 0 ≤ x ∧ x < x0 ∧ y0 + fitH ≤ y ∧ y < height then
          storeUniform (bottom.getD 0 NRGBA.zero)
        else if x0 + fitW ≤ x ∧ x < width ∧ 0 ≤ y ∧ y < y0 then
          storeUniform (top.getD (fitW - 1).toNat NRGBA.zero)
        else if 0 ≤ x ∧ x < x0 ∧ 0 ≤ y ∧ y < y0 then storeUniform (top.getD 0 NRGBA.zero)
        else bg.At x y := by
  unfold cornerDraws
  rw [paint_append, paint_append, paint_append]
  rw [fillRect_At _ _ width height (x0 + fitW) (y0 + fitH) width height
      (by simp only [paint_Dx]; exact hW) (by simp only [paint_Dy]; exact hH)
      hx1 hy1 (by omega) (le_refl _) (by omega) (le_refl _),
    fillRect_At _ _ width height 0 (y0 + fitH) x0 height
      (by simp only [paint_Dx]; exact hW) (by simp only [paint_Dy]; exact hH)
      hx0 hy1 (le_refl 0) (by omega) (by omega) (le_refl _),
    fillRect_At _ _ width height (x0 + fitW) 0 width y0
      (by simp only [paint_Dx]; exact hW) (by simp only [paint_Dy]; exact hH)
      hx1 hy0 (by omega) (le_refl _) (le_refl 0) (by omega),
    fillRect_At _ _ width height 0 0 x0 y0 hW hH hx0 hy0 (le_refl 0) (by omega) (le_refl 0)
      (by omega)]

/-- The pixels after the strips and the corners have been drawn on an image `bg`: the eight
regions around the photo are written, the photo rectangle keeps the pixels of `bg`. -/
theorem strips_At (bg fitted : Image) (top bottom : List NRGBA) (width height x0 y0 : Int)
    (hW : bg.Dx = width) (hH : bg.Dy = height) (hfw : 0 < fitted.Dx) (hfh : 0 < fitted.Dy)
    (hx0 : 0 ≤ x0) (hx1 : x0 + fitted.Dx ≤ width) (hy0 : 0 ≤ y0)
    (hy1 : y0 + fitted.Dy ≤ height) (x y : Int) (hx : 0 ≤ x) (hxw : x < width)
    (hy : 0 ≤ y) (hyh : y < height) :
    (paint (paint (paint (paint (paint bg (leftDraw fitted x0 y0))
        (rightDraw fitted width x0 y0)) (topDraw fitted x0 y0))
        (bottomDraw fitted height x0 y0))
        (cornerDraws top bottom fitted.Dx fitted.Dy width height x0 y0)).At x y
      = if x < x0 then
          (if y < y0 then storeUniform (top.getD 0 NRGBA.zero)
           else if y < y0 + fitted.Dy then fitted.At 0 (y - y0)
           else storeUniform (bottom.getD 0 NRGBA.zero))
        else if x < x0 + fitted.Dx then
          (if y < y0 then fitted.At (x - x0) 0
           else if y < y0 + fitted.Dy then bg.At x y
           else fitted.At (x - x0) (fitted.Dy - 1))
        else
          (if y < y0 then storeUniform (top.getD (fitted.Dx - 1).toNat NRGBA.zero)
           else if y < y0 + fitted.Dy then fitted.At (fitted.Dx - 1) (y - y0)
           else storeUniform (bottom.getD (fitted.Dx - 1).toNat NRGBA.zero)) := by
  rw [cornerDraws_At _ top bottom fitted.Dx fitted.Dy width height x0 y0
      (by simp only [paint_Dx]; exact hW) (by simp only [paint_Dy]; exact hH)
      hfw hfh hx0 hx1 hy0 hy1,
    bottomDraw_At _ fitted width height x0 y0
      (by simp only [paint_Dx]; exact hW) (by simp only [paint_Dy]; exact hH)
      hfw hfh hx0 hx1 hy0 hy1,
    topDraw_At _ fitted width height x0 y0
      (by simp only [paint_Dx]; exact hW) (by simp only [paint_Dy]; exact hH)
      hfw hfh hx0 hx1 hy0 hy1,
    rightDraw_At _ fitted width height x0 y0
      (by simp only [paint_Dx]; exact hW) (by simp only [paint_Dy]; exact hH)
      hfw hfh hx0 hx1 hy0 hy1,
    leftDraw_At bg fitted width height x0 y0 hW hH hfw hfh hx0 hx1 hy0 hy1]
  have c1 : (x0 + fitted.Dx ≤ x ∧ x < width ∧ y0 + fitted.Dy ≤ y ∧ y < height)
      = (¬ x < x0 + fitted.Dx ∧ ¬ y < y0 + fitted.Dy) := propext (by omega)
  have c2 : (0 ≤ x ∧ x < x0 ∧ y0 + fitted.Dy ≤ y ∧ y < height)
      = (x < x0 ∧ ¬ y < y0 + fitted.Dy) := propext (by omega)
  have c3 : (x0 + fitted.Dx ≤ x ∧ x < width ∧ 0 ≤ y ∧ y < y0)
      = (¬ x < x0 + fitted.Dx ∧ y < y0) := propext (by omega)
  have c4 : (0 ≤ x ∧ x < x0 ∧ 0 ≤ y ∧ y < y0) = (x < x0 ∧ y < y0) := propext (by omega)
  have c5 : (x0 ≤ x ∧ x < x0 + fitted.Dx ∧ y0 + fitted.Dy ≤ y ∧ y < height)
      = (¬ x < x0 ∧ x < x0 + fitted.Dx ∧ ¬ y < y0 + fitted.Dy) := propext (by omega)
  have c6 : (x0 ≤ x ∧ x < x0 + fitted.Dx ∧ 0 ≤ y ∧ y < y0)
      = (¬ x < x0 ∧ x < x0 + fitted.Dx ∧ y < y0) := propext (by omega)
  have c7 : (x0 + fitted.Dx ≤ x ∧ x < width ∧ y0 ≤ y ∧ y < y0 + fitted.Dy)
      = (¬ x < x0 + fitted.Dx ∧ ¬ y < y0 ∧ y < y0 + fitted.Dy) := propext (by omega)
  have c8 : (0 ≤ x ∧ x < x0 ∧ y0 ≤ y ∧ y < y0 + fitted.Dy)
      = (x < x0 ∧ ¬ y < y0 ∧ y < y0 + fitted.Dy) := propext (by omega)
  simp only [c1, c2, c3, c4, c5, c6, c7, c8]
  clear c1 c2 c3 c4 c5 c6 c7 c8
  by_cases h1 : x < x0 <;> by_cases h2 : x < x0 + fitted.Dx <;> by_cases h3 : y < y0 <;>
    by_cases h4 : y < y0 + fitted.Dy <;>
    first
    | (exfalso; omega)
    | simp only [h1, h2, h3, h4, not_true_eq_false, not_false_eq_true, and_true, and_false,
        true_and, false_and, and_self, if_true, if_false]

theorem topRow_getD (e : Image) (fitW : Int) (k : Nat) (hk : (k : Int) < fitW) :
    (topRow e fitW).getD k NRGBA.zero = colorToNRGBA (e.At (k : Int) 0) := by
  have hlt : k < fitW.toNat := by omega
  unfold topRow
  rw [List.getD_eq_getElem?_getD, List.getElem?_map, List.getElem?_range hlt]
  rfl

theorem bottomRow_getD (e : Image) (fitW fitH : Int) (k : Nat) (hk : (k : Int) < fitW) :
    (bottomRow e fitW fitH).getD k NRGBA.zero = colorToNRGBA (e.At (k : Int) (fitH - 1)) := by
  have hlt : k < fitW.toNat := by omega
  unfold bottomRow
  rw [List.getD_eq_getElem?_getD, List.getElem?_map, List.getElem?_range hlt]
  rfl

theorem photo_At (bg fitted : Image) (width height x0 y0 : Int) (hW : bg.Dx = width)
    (hH : bg.Dy = height) (hx0 : 0 ≤ x0)
    (hx1 : x0 + fitted.Dx ≤ width) (hy0 : 0 ≤ y0) (hy1 : y0 + fitted.Dy ≤ height)
    (hop : fitted.Opaque) (x y : Int) (hxa : x0 ≤ x) (hxb : x < x0 + fitted.Dx)
    (hya : y0 ≤ y) (hyb : y < y0 + fitted.Dy) :
    (Draw bg (Rect x0 y0 (x0 + fitted.Dx) (y0 + fitted.Dy)) (.image fitted) .Over).At x y
      = fitted.At (x - x0) (y - y0) := by
  subst hW hH
  rw [Rect_of_le x0 y0 (x0 + fitted.Dx) (y0 + fitted.Dy) (by omega) (by omega),
    Draw_image_At bg fitted x0 y0 (x0 + fitted.Dx) (y0 + fitted.Dy) .Over hx0 hx1 hy0 hy1
      (by ring) (by ring), if_pos ⟨hxa, hxb, hya, hyb⟩]
  unfold drawPixel
  dsimp only
  exact storeOver_opaque _ _ (hop (x - x0) (y - y0) (by omega) (by omega) (by omega) (by omega))

/-- C20: for an opaque fitted photo of positive size lying inside the canvas,
`stretchBackground` returns an image whose pixel `(x, y)` is `fitted(x-x0, y-y0)` inside the
photo rectangle, `fitted(0, y-y0)` in the left gap, `fitted(fitW-1, y-y0)` in the right gap,
`fitted(x-x0, 0)` in the top gap and `fitted(x-x0, fitH-1)` in the bottom gap; the four
corner rectangles hold the pixel that a fill with `topRow[0]`, `topRow[fitW-1]`,
`bottomRow[0]` and `bottomRow[fitW-1]` stores. -/
theorem stretchBackground_pixels (fill : Image → Int → Int → Image) (src fitted : Image)
    (width height x0 y0 : Int) (hfw : 0 < fitted.Dx) (hfh : 0 < fitted.Dy) (hx0 : 0 ≤ x0)
    (hx1 : x0 + fitted.Dx ≤ width) (hy0 : 0 ≤ y0) (hy1 : y0 + fitted.Dy ≤ height)
    (hop : fitted.Opaque) :
    ∃ bg, stretchBackground fill src fitted width height x0 y0 = (some bg, none) ∧
      ∀ x y : Int, 0 ≤ x → x < width → 0 ≤ y → y < height →
        (x0 ≤ x → x < x0 + fitted.Dx → y0 ≤ y → y < y0 + fitted.Dy →
          bg.At x y = fitted.At (x - x0) (y - y0)) ∧
        (x < x0 → y0 ≤ y → y < y0 + fitted.Dy → bg.At x y = fitted.At 0 (y - y0)) ∧
        (x0 + fitted.Dx ≤ x → y0 ≤ y → y < y0 + fitted.Dy →
          bg.At x y = fitted.At (fitted.Dx - 1) (y - y0)) ∧
        (x0 ≤ x → x < x0 + fitted.Dx → y < y0 → bg.At x y = fitted.At (x - x0) 0) ∧
        (x0 ≤ x → x < x0 + fitted.Dx → y0 + fitted.Dy ≤ y →
          bg.At x y = fitted.At (x - x0) (fitted.Dy - 1)) ∧
        (x < x0 → y < y0 → bg.At x y = storeUniform
          ((topRow (fill src fitted.Dx fitted.Dy) fitted.Dx).getD 0 NRGBA.zero)) ∧
        (x0 + fitted.Dx ≤ x → y < y0 → bg.At x y = storeUniform
          ((topRow (fill src fitted.Dx fitted.Dy) fitted.Dx).getD
            (fitted.Dx - 1).toNat NRGBA.zero)) ∧
        (x < x0 → y0 + fitted.Dy ≤ y → bg.At x y = storeUniform
          ((bottomRow (fill src fitted.Dx fitted.Dy) fitted.Dx fitted.Dy).getD 0
            NRGBA.zero)) ∧
        (x0 + fitted.Dx ≤ x → y0 + fitted.Dy ≤ y → bg.At x y = storeUniform
          ((bottomRow (fill src fitted.Dx fitted.Dy) fitted.Dx fitted.Dy).getD
            (fitted.Dx - 1).toNat NRGBA.zero)) := by
  have hw : 0 < width := by omega
  have hh : 0 < height := by omega
  refine ⟨_, stretchBackground_ok fill src fitted width height x0 y0 hw hh (by omega)
    (by omega), ?_⟩
  intro x y hx hxw hy hyh
  have hW : (paint (NewNRGBA (Rect 0 0 width height))
      [⟨(NewNRGBA (Rect 0 0 width height)).Bounds, .uniform ⟨0, 0, 0, 255⟩, .Src⟩,
       ⟨Rect x0 y0 (x0 + fitted.Dx) (y0 + fitted.Dy), .image fitted, .Over⟩]).Dx = width := by
    rw [paint_Dx, NewNRGBA_Dx width height hw]
  have hH : (paint (NewNRGBA (Rect 0 0 width height))
      [⟨(NewNRGBA (Rect 0 0 width height)).Bounds, .uniform ⟨0, 0, 0, 255⟩, .Src⟩,
       ⟨Rect x0 y0 (x0 + fitted.Dx) (y0 + fitted.Dy), .image fitted, .Over⟩]).Dy = height := by
    rw [paint_Dy, NewNRGBA_Dy width height hh]
  have key := strips_At _ fitted (topRow (fill src fitted.Dx fitted.Dy) fitted.Dx)
    (bottomRow (fill src fitted.Dx fitted.Dy) fitted.Dx fitted.Dy) width height x0 y0 hW hH
    hfw hfh hx0 hx1 hy0 hy1 x y hx hxw hy hyh
  have hdraws : paint (NewNRGBA (Rect 0 0 width height))
      (stretchDraws fill src fitted width height x0 y0)
      = paint (paint (paint (paint (paint (paint (NewNRGBA (Rect 0 0 width height))
        [⟨(NewNRGBA (Rect 0 0 width height)).Bounds, .uniform ⟨0, 0, 0, 255⟩, .Src⟩,
         ⟨Rect x0 y0 (x0 + fitted.Dx) (y0 + fitted.Dy), .image fitted, .Over⟩])
        (leftDraw fitted x0 y0)) (rightDraw fitted width x0 y0)) (topDraw fitted x0 y0))
        (bottomDraw fitted height x0 y0))
        (cornerDraws (topRow (fill src fitted.Dx fitted.Dy) fitted.Dx)
          (bottomRow (fill src fitted.Dx fitted.Dy) fitted.Dx fitted.Dy)
          fitted.Dx fitted.Dy width height x0 y0) := by
    unfold stretchDraws
    dsimp only
    rw [paint_append, paint_append, paint_append, paint_append, paint_append]
  rw [hdraws, key]
  refine ⟨?_, ?_, ?_, ?_, ?_, ?_, ?_, ?_, ?_⟩
  · intro h1 h2 h3 h4
    rw [if_neg (by omega), if_pos h2, if_neg (by omega), if_pos h4]
    exact photo_At _ fitted width height x0 y0
      (by rw [Draw_Dx, NewNRGBA_Dx width height hw])
      (by rw [Draw_Dy, NewNRGBA_Dy width height hh])
      hx0 hx1 hy0 hy1 hop x y h1 h2 h3 h4
  · intro h1 h3 h4
    rw [if_pos h1, if_neg (by omega), if_pos h4]
  · intro h1 h3 h4
    rw [if_neg (by omega), if_neg (by omega), if_neg (by omega), if_pos h4]
  · intro h1 h2 h3
    rw [if_neg (by omega), if_pos h2, if_pos h3]
  · intro h1 h2 h3
    rw [if_neg (by omega), if_pos h2, if_neg (by omega), if_neg (by omega)]
  · intro h1 h3
    rw [if_pos h1, if_pos h3]
  · intro h1 h3
    rw [if_neg (by omega), if_neg (by omega), if_pos h3]
  · intro h1 h3
    rw [if_pos h1, if_neg (by omega), if_neg (by omega)]
  · intro h1 h3
    rw [if_neg (by omega), if_neg (by omega), if_neg (by omega), if_neg (by omega)]

theorem fourPixels_Opaque : fourPixels.Opaque := by
  intro x y hx0 hx1 hy0 hy1
  have hx : x < 2 := hx1
  have hy : y < 2 := hy1
  have hR : (10 * x + y).toNat < 256 := by omega
  have hG : (100 : Nat) < 256 := by decide
  have hB : (200 : Nat) < 256 := by decide
  exact ⟨hR, hG, hB, rfl⟩

/-- Witness of C20: a 2x2 photo with four different opaque pixels at (1, 2) of a 5x6 canvas;
the pixel (2, 3) is the pixel (1, 1) of the photo, the pixel (0, 3) of the left gap is the
pixel (0, 1) of the photo and the pixel (4, 0) of the top-right corner is the opaque colour
`topRow[1]`. -/
theorem stretchBackground_pixels_witness :
    ∃ bg, stretchBackground sameFill fourPixels fourPixels 5 6 1 2 = (some bg, none) ∧
      bg.At 2 3 = ⟨11, 100, 200, 255⟩ ∧ bg.At 0 3 = ⟨1, 100, 200, 255⟩ ∧
      bg.At 4 0 = ⟨10, 100, 200, 255⟩ := by
  obtain ⟨bg, hbg, hpix⟩ := stretchBackground_pixels sameFill fourPixels fourPixels 5 6 1 2
    (by decide) (by decide) (by decide) (by decide) (by decide) (by decide) fourPixels_Opaque
  refine ⟨bg, hbg, ?_, ?_, ?_⟩
  · rw [(hpix 2 3 (by decide) (by decide) (by decide) (by decide)).1
      (by decide) (by decide) (by decide) (by decide)]
    rfl
  · rw [(hpix 0 3 (by decide) (by decide) (by decide) (by decide)).2.1
      (by decide) (by decide) (by decide)]
    rfl
  · rw [(hpix 4 0 (by decide) (by decide) (by decide) (by decide)).2.2.2.2.2.2.1
      (by decide) (by decide)]
    decide

/-! ## Theorems: format types and the selection sentinel -/

/-- C24: evaluation at the failing input.  The type " fixed " is accepted by `validateFormat`,
which trims and lower-cases it, and `resolveFormat`, which only lower-cases it, fails with
"unknown format type".  The upper-case type "FIXED" is accepted by both. -/
theorem resolveFormat_rejects_padded_type :
    validateFormat asciiStrings "square" paddedFixed = none ∧
    resolveFormat asciiStrings testFormats paddedFixed 1000 1250
      = (Format.zero, some (.errorf "unknown format type:  fixed ")) ∧
    validateFormat asciiStrings "square" ⟨"FIXED", 1080, 1080, [], 0⟩ = none ∧
    resolveFormat asciiStrings testFormats ⟨"FIXED", 1080, 1080, [], 0⟩ 1000 1250
      = (⟨"FIXED", 1080, 1080, [], 0⟩, none) := by
  refine ⟨by decide, by decide, by decide, by decide⟩

/-- C25: evaluation at the failing input.  The only name of `from_list` is the empty string,
a key of the map with a fixed 1080x1080 format; the loop selects it, `best` is then equal to
its initial value "" and `resolveFormat` returns "auto format has no valid candidates". -/
theorem resolveFormat_empty_name_sentinel :
    unnamedFormats.find "" = some ⟨"fixed", 1080, 1080, [], 0⟩ ∧
    autoLoop asciiStrings unnamedFormats ((1000 : ℚ) / 1250) [""] "" MaxFloat64
      = .ok ("", (1 : ℚ) / 5) ∧
    resolveFormat asciiStrings unnamedFormats unnamedAuto 1000 1250
      = (Format.zero, some (.errorf "auto format has no valid candidates")) := by
  have hfind : unnamedFormats.find "" = some ⟨"fixed", 1080, 1080, [], 0⟩ := by decide
  have hlow : asciiStrings.ToLower "fixed" = "fixed" := by decide
  have hloop : autoLoop asciiStrings unnamedFormats ((1000 : ℚ) / 1250) [""] "" MaxFloat64
      = .ok ("", (1 : ℚ) / 5) := by
    have hd : F64.absDiff ((1000 : ℚ) / 1250) (F64.quot ((1080 : Int) : ℚ) ((1080 : Int) : ℚ))
        = F64.fin ((1 : ℚ) / 5) := by
      rw [absDiff_quot_ne _ _ _ (by norm_num)]
      norm_num [abs_of_neg]
    have hlt : ((1 : ℚ) / 5 < MaxFloat64) = True := lt_MaxFloat64 _ (by norm_num)
    simp only [autoLoop, hfind, hlow, FormatTypeFixed, ne_eq, not_true_eq_false, if_false, hd,
      hlt, if_true]
  refine ⟨hfind, hloop, ?_⟩
  have hauto : asciiStrings.ToLower unnamedAuto.Type_ = "auto" := by decide
  unfold resolveFormat
  simp only [hauto, FormatTypeFixed, FormatTypeAuto]
  rw [if_neg (by decide), if_neg (by decide), if_neg (by decide), if_neg (by decide)]
  have hloop' : autoLoop asciiStrings unnamedFormats (((1000 : Int) : ℚ) / ((1250 : Int) : ℚ))
      unnamedAuto.FromList "" MaxFloat64 = .ok ("", (1 : ℚ) / 5) := by
    have e : (((1000 : Int) : ℚ) / ((1250 : Int) : ℚ)) = (1000 : ℚ) / 1250 := by norm_num
    rw [e]
    exact hloop
  rw [hloop']
  rfl

/-- The part of C24 that holds: for a type without surrounding white space, a format that
`validateFormat` accepts is read by `resolveFormat` as fixed or as auto, a fixed one is
returned unchanged, and the return of "unknown format type" is not taken. -/
theorem resolveFormat_agrees_trimmed (S : Strings) (formats : GoMap Format) (name : String)
    (format : Format) (srcW srcH : Int) (htrim : S.TrimSpace format.Type_ = format.Type_)
    (hv : validateFormat S name format = none) :
    (S.ToLower format.Type_ = FormatTypeFixed ∨ S.ToLower format.Type_ = FormatTypeAuto) ∧
    (S.ToLower (S.TrimSpace format.Type_) = FormatTypeFixed →
      resolveFormat S formats format srcW srcH = (format, none)) := by
  obtain ⟨hkind, _, _⟩ := validateFormat_none S name format hv
  rw [htrim] at hkind
  constructor
  · rcases hkind with h | h
    · exact Or.inl h.1
    · exact Or.inr h.1
  · intro hfixed
    rw [htrim] at hfixed
    unfold resolveFormat
    rw [if_pos hfixed]

theorem autoLoop_ok (S : Strings) (formats : GoMap Format) (s : ℚ) (names : List String)
    (hall : ∀ n ∈ names, ∃ c, formats.find n = some c ∧ S.ToLower c.Type_ = FormatTypeFixed) :
    ∀ (best : String) (bd : ℚ), ∃ r, autoLoop S formats s names best bd = .ok r := by
  induction names with
  | nil => intro best bd; exact ⟨_, rfl⟩
  | cons n rest ih =>
    intro best bd
    obtain ⟨c, hc, ht⟩ := hall n (List.mem_cons_self _ _)
    have ih' := ih (fun m hm => hall m (List.mem_cons_of_mem _ hm))
    unfold autoLoop
    simp only [hc, ht, ne_eq, not_true_eq_false, if_false]
    cases F64.absDiff s (F64.quot (c.Width : ℚ) (c.Height : ℚ)) with
    | fin d =>
      dsimp only
      split_ifs
      · exact ih' _ _
      · exact ih' _ _
    | posInf => exact ih' _ _
    | negInf => exact ih' _ _
    | nan => exact ih' _ _

theorem ratioDist_lt (srcW srcH : Int) (c : Format) (hw : 0 < srcW) (hh : 0 < srcH)
    (hcw : 0 < c.Width) (hch : 0 < c.Height) (hbw : srcW < 2 ^ 63) (hbc : c.Width < 2 ^ 63) :
    ratioDist srcW srcH c < 2 ^ 64 := by
  have h1 : (0 : ℚ) < (srcW : ℚ) := by exact_mod_cast hw
  have h2 : (1 : ℚ) ≤ (srcH : ℚ) := by exact_mod_cast hh
  have h3 : (0 : ℚ) < (c.Width : ℚ) := by exact_mod_cast hcw
  have h4 : (1 : ℚ) ≤ (c.Height : ℚ) := by exact_mod_cast hch
  have h5 : (srcW : ℚ) < 2 ^ 63 := by exact_mod_cast hbw
  have h6 : (c.Width : ℚ) < 2 ^ 63 := by exact_mod_cast hbc
  have a1 : (srcW : ℚ) / (srcH : ℚ) ≤ (srcW : ℚ) := div_le_self (le_of_lt h1) h2
  have a2 : (c.Width : ℚ) / (c.Height : ℚ) ≤ (c.Width : ℚ) := div_le_self (le_of_lt h3) h4
  have a3 : (0 : ℚ) < (srcW : ℚ) / (srcH : ℚ) := div_pos h1 (by linarith)
  have a4 : (0 : ℚ) < (c.Width : ℚ) / (c.Height : ℚ) := div_pos h3 (by linarith)
  unfold ratioDist
  rw [abs_lt]
  have e : (2 : ℚ) ^ 64 = 2 * 2 ^ 63 := by norm_num
  constructor <;> linarith

/-- The part of C25 that holds: when no name of `from_list` is the empty string, every name
is a key of a fixed format with positive width and height, and the sizes are below 2^63 (as
every Go `int` is), `resolveFormat` returns the entry of one of the names. -/
theorem resolveFormat_auto_named (S : Strings) (formats : GoMap Format) (format : Format)
    (srcW srcH : Int) (hfix : S.ToLower format.Type_ ≠ FormatTypeFixed)
    (hauto : S.ToLower format.Type_ = FormatTypeAuto) (hne : format.FromList ≠ [])
    (hall : ∀ n ∈ format.FromList, n ≠ "" ∧ ∃ c, formats.find n = some c ∧
      S.ToLower c.Type_ = FormatTypeFixed ∧ 0 < c.Width ∧ 0 < c.Height ∧ c.Width < 2 ^ 63)
    (hw : 0 < srcW) (hh : 0 < srcH) (hbw : srcW < 2 ^ 63) :
    ∃ n f, n ∈ format.FromList ∧ formats.find n = some f ∧
      resolveFormat S formats format srcW srcH = (f, none) ∧ 0 < f.Width ∧ 0 < f.Height := by
  obtain ⟨⟨best, bd⟩, hloop⟩ := autoLoop_ok S formats ((srcW : ℚ) / (srcH : ℚ)) format.FromList
    (fun n hn => by
      obtain ⟨_, c, hc, ht, _⟩ := hall n hn
      exact ⟨c, hc, ht⟩) "" MaxFloat64
  have hlen : ¬ format.FromList.length = 0 := by
    intro h
    exact hne (List.length_eq_zero.mp h)
  have hres : resolveFormat S formats format srcW srcH
      = (if best = "" then (Format.zero, some (.errorf "auto format has no valid candidates"))
         else ((formats.find best).getD Format.zero, none)) := by
    unfold resolveFormat
    rw [if_neg hfix, if_neg (by simpa using hauto), if_neg hlen, if_neg (by omega)]
    simp only [hloop]
  rcases autoLoop_step S formats srcW srcH format.FromList "" MaxFloat64 best bd hloop with
    ⟨_, _, hfar⟩ | ⟨pre, n, post, f, hsplit, hbest, hf, _, _, _, _⟩
  · exfalso
    cases hl : format.FromList with
    | nil => exact hne hl
    | cons m rest =>
      have hm : m ∈ format.FromList := by rw [hl]; exact List.mem_cons_self _ _
      obtain ⟨_, c, hc, _, hcw, hch, hcb⟩ := hall m hm
      have hge := hfar m hm c hc (ne_of_gt hch)
      have hlt := ratioDist_lt srcW srcH c hw hh hcw hch hbw hcb
      have := lt_of_lt_of_le hlt MaxFloat64_large
      exact absurd hge (not_le.mpr this)
  · have hn : n ∈ format.FromList := by rw [hsplit]; simp
    obtain ⟨hnne, c, hc, _, hcw, hch, _⟩ := hall n hn
    rw [hf] at hc
    cases hc
    refine ⟨n, f, hn, hf, ?_, hcw, hch⟩
    rw [hres, hbest, if_neg hnne, hf]
    rfl

/-! ## Theorems: integer offsets of the fit -/

theorem goInt_half (a : Int) (ha : 0 ≤ a) : goInt ((a : ℚ) / 2) = a / 2 := by
  have hq : (0 : ℚ) ≤ (a : ℚ) / 2 := by
    have : (0 : ℚ) ≤ (a : ℚ) := by exact_mod_cast ha
    positivity
  rw [goInt_eq_floor _ hq, Int.floor_eq_iff]
  have hdiv : a = 2 * (a / 2) + a % 2 := (Int.ediv_add_emod a 2).symm
  have hmod0 : 0 ≤ a % 2 := Int.emod_nonneg a (by decide)
  have hmod1 : a % 2 < 2 := Int.emod_lt_of_pos a (by decide)
  have hq1 : (a : ℚ) = 2 * ((a / 2 : Int) : ℚ) + ((a % 2 : Int) : ℚ) := by exact_mod_cast hdiv
  have hq2 : (0 : ℚ) ≤ ((a % 2 : Int) : ℚ) := by exact_mod_cast hmod0
  have hq3 : ((a % 2 : Int) : ℚ) < 2 := by exact_mod_cast hmod1
  constructor
  · linarith
  · linarith

/-- The calls of `renderImage` without watermark text: the background, the border when
`border_width` is positive, then the blit of the fitted image at `int(x)`, `int(y)`. -/
theorem renderImage_calls (G : Imaging) (P : Painter) (src : Image)
    (resolved : ResolvedProfile) (format : Format) (hw : 0 < format.Width)
    (hh : 0 < format.Height) :
    renderImage G P src resolved format ""
      = (some ⟨format.Width, format.Height, G.pixels format.Width format.Height
          (P.drawBackground src resolved.Background format.Width format.Height
              (fitImage G src format.Width format.Height resolved.PaddingPercent
                resolved.NoUpscale).1
              (goInt (fitImage G src format.Width format.Height resolved.PaddingPercent
                resolved.NoUpscale).2.1)
              (goInt (fitImage G src format.Width format.Height resolved.PaddingPercent
                resolved.NoUpscale).2.2)
            ++ (if resolved.BorderWidth > 0 then
                P.drawBorder
                  (fitImage G src format.Width format.Height resolved.PaddingPercent
                    resolved.NoUpscale).2.1
                  (fitImage G src format.Width format.Height resolved.PaddingPercent
                    resolved.NoUpscale).2.2
                  ((fitImage G src format.Width format.Height resolved.PaddingPercent
                    resolved.NoUpscale).1.Dx : ℚ)
                  ((fitImage G src format.Width format.Height resolved.PaddingPercent
                    resolved.NoUpscale).1.Dy : ℚ)
                  resolved.BorderWidth resolved.BorderColor
              else [])
            ++ [DrawOp.DrawImage
              (fitImage G src format.Width format.Height resolved.PaddingPercent
                resolved.NoUpscale).1
              (goInt (fitImage G src format.Width format.Height resolved.PaddingPercent
                resolved.NoUpscale).2.1)
              (goInt (fitImage G src format.Width format.Height resolved.PaddingPercent
                resolved.NoUpscale).2.2)])⟩, none) := by
  unfold renderImage
  dsimp only
  rw [if_neg (by omega)]
  have hres : ∀ ops : List DrawOp,
      (match resolved.Watermark with
        | some wm =>
          if ("" : String) ≠ "" then
            match P.drawWatermark format.Width format.Height "" wm resolved.AssetsPath with
            | (_, some err) => ((none : Option Image), some err)
            | (wops, none) =>
              (some ((Context.run ⟨format.Width, format.Height, ops⟩ wops).Image G), none)
          else (some ((⟨format.Width, format.Height, ops⟩ : Context).Image G), none)
        | none => (some ((⟨format.Width, format.Height, ops⟩ : Context).Image G), none))
      = (some ((⟨format.Width, format.Height, ops⟩ : Context).Image G), none) := by
    intro ops
    cases resolved.Watermark with
    | none => rfl
    | some wm => simp
  by_cases hb : resolved.BorderWidth > 0
  · simp only [hb, if_true, Context.run, NewContext, List.nil_append, List.append_assoc]
    exact hres _
  · simp only [hb, if_false, Context.run, NewContext, List.nil_append, List.append_nil,
      List.append_assoc]
    exact hres _

theorem fitImage_keeps_small (G : Imaging) (c : NRGBA) (n : Int) (hn : 0 < n) (hlt : n < 200) :
    fitImage G (solidImage n n c) 200 200 0 true
      = (solidImage n n c, (((200 - n : Int) : ℚ)) / 2, (((200 - n : Int) : ℚ)) / 2) := by
  have hq : (0 : ℚ) < (n : ℚ) := by exact_mod_cast hn
  have hq2 : (n : ℚ) < 200 := by exact_mod_cast hlt
  have hscale : (fitScale (solidImage n n c) 200 200 0).gtFin 1 = true := by
    have hav : availSide 200 0 = 200 := by
      unfold availSide
      norm_num
    unfold fitScale
    rw [hav]
    have hne : (n : ℚ) ≠ 0 := ne_of_gt hq
    have h1 : (1 : ℚ) < 200 / (n : ℚ) := by
      rw [lt_div_iff₀ hq]
      linarith
    simp only [solidImage, F64.quot, hne, if_false, F64.min, lt_self_iff_false, F64.gtFin,
      h1, decide_True]
  rw [fitImage_eq, if_pos ⟨rfl, hscale⟩]
  simp only [solidImage]
  push_cast
  rfl

/-- C21: evaluation at the failing input.  A 101x101 photo is kept on a 200x200 target with a
border of 10: `fitImage` returns the offsets 49.5, the photo is blitted at (49, 49), so its
bounding box expanded by 10 is the rectangle (39, 39, 121, 121), and `drawBorder` fills the
rectangle (39.5, 39.5, 121, 121), before the blit.  For a 100x100 photo the offsets are whole
and the rectangle filled, (40, 40, 120, 120), is the expanded bounding box. -/
theorem drawBorder_half_pixel (G : Imaging)
    (bg : Image → Background → Int → Int → Image → Int → Int → List DrawOp) :
    renderImage G (borderPainter asciiStrings bg) (solidImage 101 101 ⟨200, 10, 20, 255⟩)
        framedResolved ⟨"fixed", 200, 200, [], 0⟩ ""
      = (some ⟨200, 200, G.pixels 200 200
          (bg (solidImage 101 101 ⟨200, 10, 20, 255⟩) blackBackground 200 200
              (solidImage 101 101 ⟨200, 10, 20, 255⟩) 49 49
            ++ [DrawOp.SetRGBA 1 1 1 1,
                DrawOp.DrawRectangle ((79 : ℚ) / 2) ((79 : ℚ) / 2) 121 121, DrawOp.Fill,
                DrawOp.DrawImage (solidImage 101 101 ⟨200, 10, 20, 255⟩) 49 49])⟩, none) ∧
    renderImage G (borderPainter asciiStrings bg) (solidImage 100 100 ⟨200, 10, 20, 255⟩)
        framedResolved ⟨"fixed", 200, 200, [], 0⟩ ""
      = (some ⟨200, 200, G.pixels 200 200
          (bg (solidImage 100 100 ⟨200, 10, 20, 255⟩) blackBackground 200 200
              (solidImage 100 100 ⟨200, 10, 20, 255⟩) 50 50
            ++ [DrawOp.SetRGBA 1 1 1 1, DrawOp.DrawRectangle 40 40 120 120, DrawOp.Fill,
                DrawOp.DrawImage (solidImage 100 100 ⟨200, 10, 20, 255⟩) 50 50])⟩, none) := by
  have hcol : setHexColor asciiStrings "#ffffff" 1 = [DrawOp.SetRGBA 1 1 1 1] := by
    have hp : parseHexColor asciiStrings "#ffffff" = (⟨255, 255, 255, 255⟩, none) := by decide
    simp [setHexColor, hp]
  have h49 : goInt ((((200 - 101 : Int) : Int) : ℚ) / 2) = 49 := by
    rw [goInt_half _ (by decide)]
    decide
  have h50 : goInt ((((200 - 100 : Int) : Int) : ℚ) / 2) = 50 := by
    rw [goInt_half _ (by decide)]
    decide
  constructor
  · rw [renderImage_calls G _ _ framedResolved ⟨"fixed", 200, 200, [], 0⟩ (by decide)
      (by decide)]
    simp only [framedResolved, borderPainter]
    rw [fitImage_keeps_small G _ 101 (by decide) (by decide)]
    simp only [h49, drawBorder, hcol, solidImage]
    norm_num
  · rw [renderImage_calls G _ _ framedResolved ⟨"fixed", 200, 200, [], 0⟩ (by decide)
      (by decide)]
    simp only [framedResolved, borderPainter]
    rw [fitImage_keeps_small G _ 100 (by decide) (by decide)]
    simp only [h50, drawBorder, hcol, solidImage]
    norm_num

/-! ## Theorems: colour round trip -/

theorem hexChar_facts : ∀ (u : Bool) (d : Nat), d < 16 →
    hexDigit (hexChar u d) = some d ∧ fmtIsSpace (hexChar u d) = false ∧
    (hexChar u d).toNat ≠ 10 ∧ asciiIsSpace (hexChar u d) = false ∧
    (hexChar u d).utf8Size = 1 := by
  decide

theorem fmtSkipSpace_digit (c : Char) (rest : List Char) (hs : fmtIsSpace c = false)
    (hn : c.toNat ≠ 10) : fmtSkipSpace (c :: rest) = .ok (c :: rest) := by
  simp [fmtSkipSpace, hs, hn]

/-- One verb `%02x` on two hexadecimal digits reads both. -/
theorem scanHexVerb_two (c1 c2 : Char) (d1 d2 : Nat) (rest : List Char)
    (h1 : hexDigit c1 = some d1) (h2 : hexDigit c2 = some d2) (hs : fmtIsSpace c1 = false)
    (hn : c1.toNat ≠ 10) :
    scanHexVerb 2 (c1 :: c2 :: rest) = .ok (d1 * 16 + d2, rest) := by
  unfold scanHexVerb
  rw [fmtSkipSpace_digit c1 _ hs hn]
  simp [h1, h2, scanHexDigits]

/-- One verb `%1x` on a hexadecimal digit reads that digit only. -/
theorem scanHexVerb_one (c1 : Char) (d1 : Nat) (rest : List Char)
    (h1 : hexDigit c1 = some d1) (hs : fmtIsSpace c1 = false) (hn : c1.toNat ≠ 10) :
    scanHexVerb 1 (c1 :: rest) = .ok (d1, rest) := by
  unfold scanHexVerb
  rw [fmtSkipSpace_digit c1 _ hs hn]
  simp [h1, scanHexDigits]

theorem trimSpace_hash (l : List Char) (c : Char) (hc : asciiIsSpace c = false) :
    asciiStrings.TrimSpace (String.mk (Char.ofNat 35 :: (l ++ [c])))
      = String.mk (Char.ofNat 35 :: (l ++ [c])) := by
  have h35 : asciiIsSpace (Char.ofNat 35) = false := by decide
  show String.mk ((((Char.ofNat 35 :: (l ++ [c])).dropWhile asciiIsSpace).reverse.dropWhile
    asciiIsSpace).reverse) = _
  rw [List.dropWhile_cons_of_neg (by simp [h35])]
  have hrev : (Char.ofNat 35 :: (l ++ [c])).reverse = c :: (Char.ofNat 35 :: l).reverse := by
    simp
  rw [hrev, List.dropWhile_cons_of_neg (by simp [hc]), ← hrev, List.reverse_reverse]

theorem parseHexColor_six (u : Nat → Bool) (r g b : Nat) (hr : r < 256) (hg : g < 256)
    (hb : b < 256) :
    parseHexColor asciiStrings (hexColor6 u r g b) = (⟨r, g, b, 255⟩, none) := by
  obtain ⟨r1, r2, r3, r4, r5⟩ := hexChar_facts (u 0) (r / 16) (by omega)
  obtain ⟨s1, s2, s3, s4, s5⟩ := hexChar_facts (u 1) (r % 16) (by omega)
  obtain ⟨g1, g2, g3, g4, g5⟩ := hexChar_facts (u 2) (g / 16) (by omega)
  obtain ⟨k1, k2, k3, k4, k5⟩ := hexChar_facts (u 3) (g % 16) (by omega)
  obtain ⟨b1, b2, b3, b4, b5⟩ := hexChar_facts (u 4) (b / 16) (by omega)
  obtain ⟨c1, c2, c3, c4, c5⟩ := hexChar_facts (u 5) (b % 16) (by omega)
  have htrim : asciiStrings.TrimSpace (hexColor6 u r g b) = hexColor6 u r g b :=
    trimSpace_hash [hexChar (u 0) (r / 16), hexChar (u 1) (r % 16), hexChar (u 2) (g / 16),
      hexChar (u 3) (g % 16), hexChar (u 4) (b / 16)] (hexChar (u 5) (b % 16)) c4
  have hsize : (hexColor6 u r g b).utf8ByteSize = 7 := by
    have h35 : (Char.ofNat 35).utf8Size = 1 := by decide
    simp [hexColor6, String.utf8ByteSize, String.utf8ByteSize.go, r5, s5, g5, k5, b5, c5, h35]
  have hscan : sscanfHex 2 (hexColor6 u r g b) = .ok (r, g, b) := by
    have h35 : (Char.ofNat 35).toNat = 35 := by decide
    simp only [sscanfHex, hexColor6, h35, ne_eq, not_true_eq_false, if_false,
      scanHexVerb_two _ _ _ _ _ r1 s1 r2 r3, scanHexVerb_two _ _ _ _ _ g1 k1 g2 g3,
      scanHexVerb_two _ _ _ _ _ b1 c1 b2 b3]
    have e1 : r / 16 * 16 + r % 16 = r := by omega
    have e2 : g / 16 * 16 + g % 16 = g := by omega
    have e3 : b / 16 * 16 + b % 16 = b := by omega
    rw [e1, e2, e3]
  have hne : hexColor6 u r g b ≠ "" := by
    intro h
    have := congrArg String.utf8ByteSize h
    rw [hsize] at this
    exact absurd this (by decide)
  have hhead : (hexColor6 u r g b).data.head? = some (Char.ofNat 35) := rfl
  unfold parseHexColor
  simp only [htrim, hne, if_false, hhead, ne_eq, not_true_eq_false, hsize, hscan]
  rfl

theorem parseHexColor_three (u : Nat → Bool) (a b c : Nat) (ha : a < 16) (hb : b < 16)
    (hc : c < 16) :
    parseHexColor asciiStrings (hexColor3 u a b c) = (⟨a * 17, b * 17, c * 17, 255⟩, none) := by
  obtain ⟨a1, a2, a3, a4, a5⟩ := hexChar_facts (u 0) a ha
  obtain ⟨b1, b2, b3, b4, b5⟩ := hexChar_facts (u 1) b hb
  obtain ⟨c1, c2, c3, c4, c5⟩ := hexChar_facts (u 2) c hc
  have htrim : asciiStrings.TrimSpace (hexColor3 u a b c) = hexColor3 u a b c :=
    trimSpace_hash [hexChar (u 0) a, hexChar (u 1) b] (hexChar (u 2) c) c4
  have hsize : (hexColor3 u a b c).utf8ByteSize = 4 := by
    have h35 : (Char.ofNat 35).utf8Size = 1 := by decide
    simp [hexColor3, String.utf8ByteSize, String.utf8ByteSize.go, a5, b5, c5, h35]
  have hscan : sscanfHex 1 (hexColor3 u a b c) = .ok (a, b, c) := by
    have h35 : (Char.ofNat 35).toNat = 35 := by decide
    simp only [sscanfHex, hexColor3, h35, ne_eq, not_true_eq_false, if_false,
      scanHexVerb_one _ _ _ a1 a2 a3, scanHexVerb_one _ _ _ b1 b2 b3,
      scanHexVerb_one _ _ _ c1 c2 c3]
  have hne : hexColor3 u a b c ≠ "" := by
    intro h
    have := congrArg String.utf8ByteSize h
    rw [hsize] at this
    exact absurd this (by decide)
  have hhead : (hexColor3 u a b c).data.head? = some (Char.ofNat 35) := rfl
  have ea : a * 17 % 256 = a * 17 := Nat.mod_eq_of_lt (by omega)
  have eb : b * 17 % 256 = b * 17 := Nat.mod_eq_of_lt (by omega)
  have ec : c * 17 % 256 = c * 17 := Nat.mod_eq_of_lt (by omega)
  unfold parseHexColor
  simp only [htrim, hne, if_false, hhead, ne_eq, not_true_eq_false, hsize, hscan, if_true,
    ea, eb, ec]

/-- The string `#rrggbb` of the bytes `17a`, `17b`, `17c` is the string `#aabbcc`. -/
theorem hexColor6_doubled (v : Nat → Bool) (a b c : Nat) (ha : a < 16) (hb : b < 16)
    (hc : c < 16) :
    hexColor6 v (a * 17) (b * 17) (c * 17)
      = String.mk [Char.ofNat 35, hexChar (v 0) a, hexChar (v 1) a, hexChar (v 2) b,
          hexChar (v 3) b, hexChar (v 4) c, hexChar (v 5) c] := by
  have e1 : a * 17 / 16 = a := by omega
  have e2 : a * 17 % 16 = a := by omega
  have e3 : b * 17 / 16 = b := by omega
  have e4 : b * 17 % 16 = b := by omega
  have e5 : c * 17 / 16 = c := by omega
  have e6 : c * 17 % 16 = c := by omega
  simp only [hexColor6, e1, e2, e3, e4, e5, e6]

/-- C22: for all bytes r, g, b, `parseHexColor` of `#` followed by their two-digit
hexadecimal forms, each digit in lower or upper case, returns NRGBA(r, g, b, 255); and for all
hexadecimal digits a, b, c, `parseHexColor` of `#abc` returns the colour of `#aabbcc`, whose
channels are the digits times 17, at most 255. -/
theorem parseHexColor_round_trip (u v : Nat → Bool) (r g b a1 a2 a3 : Nat) (hr : r < 256)
    (hg : g < 256) (hb : b < 256) (h1 : a1 < 16) (h2 : a2 < 16) (h3 : a3 < 16) :
    parseHexColor asciiStrings (hexColor6 u r g b) = (⟨r, g, b, 255⟩, none) ∧
    parseHexColor asciiStrings (hexColor3 u a1 a2 a3)
      = parseHexColor asciiStrings (String.mk [Char.ofNat 35, hexChar (v 0) a1,
          hexChar (v 1) a1, hexChar (v 2) a2, hexChar (v 3) a2, hexChar (v 4) a3,
          hexChar (v 5) a3]) ∧
    parseHexColor asciiStrings (hexColor3 u a1 a2 a3)
      = (⟨a1 * 17, a2 * 17, a3 * 17, 255⟩, none) ∧
    a1 * 17 ≤ 255 ∧ a2 * 17 ≤ 255 ∧ a3 * 17 ≤ 255 := by
  refine ⟨parseHexColor_six u r g b hr hg hb, ?_, parseHexColor_three u a1 a2 a3 h1 h2 h3,
    by omega, by omega, by omega⟩
  rw [parseHexColor_three u a1 a2 a3 h1 h2 h3, ← hexColor6_doubled v a1 a2 a3 h1 h2 h3,
    parseHexColor_six v _ _ _ (by omega) (by omega) (by omega)]

/-- Witness of C22: "#12ab5F" parses to (18, 171, 95, 255), and "#fA0" to the colour
(255, 170, 0, 255) of "#ffAA00". -/
theorem parseHexColor_round_trip_witness :
    parseHexColor asciiStrings "#12ab5F" = (⟨18, 171, 95, 255⟩, none) ∧
    parseHexColor asciiStrings "#fA0" = parseHexColor asciiStrings "#ffAA00" ∧
    parseHexColor asciiStrings "#fA0" = (⟨255, 170, 0, 255⟩, none) := by
  have h := parseHexColor_round_trip (fun i => decide (i = 5 ∨ i = 1))
    (fun i => decide (i = 2 ∨ i = 3)) 18 171 95 15 10 0
    (by decide) (by decide) (by decide) (by decide) (by decide) (by decide)
  have e6 : hexColor6 (fun i => decide (i = 5 ∨ i = 1)) 18 171 95 = "#12ab5F" := by decide
  have e3 : hexColor3 (fun i => decide (i = 5 ∨ i = 1)) 15 10 0 = "#fA0" := by decide
  have ed : String.mk [Char.ofNat 35, hexChar (decide ((0 : Nat) = 2 ∨ (0 : Nat) = 3)) 15,
      hexChar (decide ((1 : Nat) = 2 ∨ (1 : Nat) = 3)) 15,
      hexChar (decide ((2 : Nat) = 2 ∨ (2 : Nat) = 3)) 10,
      hexChar (decide ((3 : Nat) = 2 ∨ (3 : Nat) = 3)) 10,
      hexChar (decide ((4 : Nat) = 2 ∨ (4 : Nat) = 3)) 0,
      hexChar (decide ((5 : Nat) = 2 ∨ (5 : Nat) = 3)) 0] = "#ffAA00" := by decide
  rw [e6, e3] at h
  simp only [ed] at h
  exact ⟨h.1, h.2.1, h.2.2.1⟩

/-! ## Theorems: the regions of the stretched background -/

theorem clip_image_In (dst m : Image) (a b c d : Int) (ha : 0 ≤ a) (hc : c ≤ dst.Dx)
    (hb : 0 ≤ b) (hd : d ≤ dst.Dy) (hmx : m.Dx = c - a) (hmy : m.Dy = d - b) (x y : Int) :
    (clip dst ⟨a, b, c, d⟩ (.image m)).In x y = true ↔ a ≤ x ∧ x < c ∧ b ≤ y ∧ y < d := by
  unfold clip
  dsimp only
  rw [Rectangle.In_Intersect, Rectangle.In_Intersect]
  unfold Image.Bounds Rectangle.Add
  simp only [Rectangle.In_mk, hmx, hmy]
  omega

theorem clip_uniform_In (dst : Image) (col : NRGBA) (a b c d : Int) (ha : 0 ≤ a)
    (hc : c ≤ dst.Dx) (hb : 0 ≤ b) (hd : d ≤ dst.Dy) (x y : Int) :
    (clip dst ⟨a, b, c, d⟩ (.uniform col)).In x y = true ↔ a ≤ x ∧ x < c ∧ b ≤ y ∧ y < d := by
  unfold clip
  dsimp only
  rw [Rectangle.In_Intersect]
  unfold Image.Bounds
  simp only [Rectangle.In_mk]
  omega

theorem writesAt_append (bg : Image) (x y : Int) (a b : List DrawCall) :
    (writesAt bg x y (a ++ b)).length
      = (writesAt bg x y a).length + (writesAt bg x y b).length := by
  simp [writesAt, List.filter_append]

theorem writesAt_nil (bg : Image) (x y : Int) : (writesAt bg x y []).length = 0 := rfl

theorem writesAt_image (bg m : Image) (a b c d : Int) (op : Op) (ha : 0 ≤ a)
    (hc : c ≤ bg.Dx) (hb : 0 ≤ b) (hd : d ≤ bg.Dy) (hmx : m.Dx = c - a) (hmy : m.Dy = d - b)
    (x y : Int) :
    (writesAt bg x y [⟨⟨a, b, c, d⟩, .image m, op⟩]).length
      = if a ≤ x ∧ x < c ∧ b ≤ y ∧ y < d then 1 else 0 := by
  have h := clip_image_In bg m a b c d ha hc hb hd hmx hmy x y
  unfold writesAt
  by_cases hin : a ≤ x ∧ x < c ∧ b ≤ y ∧ y < d
  · rw [if_pos hin]
    simp [List.filter, h.mpr hin]
  · rw [if_neg hin]
    have hf : (clip bg ⟨a, b, c, d⟩ (.image m)).In x y = false := by
      cases hv : (clip bg ⟨a, b, c, d⟩ (.image m)).In x y with
      | false => rfl
      | true => exact absurd (h.mp hv) hin
    simp [List.filter, hf]

theorem writesAt_uniform (bg : Image) (col : NRGBA) (a b c d : Int) (ha : 0 ≤ a)
    (hc : c ≤ bg.Dx) (hb : 0 ≤ b) (hd : d ≤ bg.Dy) (x y : Int) :
    (writesAt bg x y [⟨⟨a, b, c, d⟩, .uniform col, .Src⟩]).length
      = if a ≤ x ∧ x < c ∧ b ≤ y ∧ y < d then 1 else 0 := by
  have h := clip_uniform_In bg col a b c d ha hc hb hd x y
  unfold writesAt
  by_cases hin : a ≤ x ∧ x < c ∧ b ≤ y ∧ y < d
  · rw [if_pos hin]
    simp [List.filter, h.mpr hin]
  · rw [if_neg hin]
    have hf : (clip bg ⟨a, b, c, d⟩ (.uniform col)).In x y = false := by
      cases hv : (clip bg ⟨a, b, c, d⟩ (.uniform col)).In x y with
      | false => rfl
      | true => exact absurd (h.mp hv) hin
    simp [List.filter, hf]

/-- The rectangle of a strip or corner draw, and whether the draw is made: the draw of a
rectangle `Rect a b c d` made only when `cond` holds, with `cond` false only for an empty
rectangle. -/
theorem filter_nonempty_single (a b c d : Int) (hac : a ≤ c) (hbd : b ≤ d) :
    [Rect a b c d].filter (fun r => !r.Empty)
      = if a < c ∧ b < d then [Rect a b c d] else [] := by
  rw [Rect_of_le a b c d hac hbd]
  by_cases h : a < c ∧ b < d
  · have hE : Rectangle.Empty ⟨a, b, c, d⟩ = false := by
      cases hv : Rectangle.Empty ⟨a, b, c, d⟩ with
      | false => rfl
      | true => rw [Rectangle.Empty_mk] at hv; omega
    simp [List.filter, hE, h]
  · have hE : Rectangle.Empty ⟨a, b, c, d⟩ = true := by
      rw [Rectangle.Empty_mk]
      omega
    simp [List.filter, hE, h]

theorem leftDraw_region (bg fitted : Image) (width height x0 y0 : Int)
    (hW : bg.Dx = width) (hH : bg.Dy = height) (hfw : 0 < fitted.Dx)
    (hfh : 0 < fitted.Dy) (hx0 : 0 ≤ x0) (hx1 : x0 + fitted.Dx ≤ width) (hy0 : 0 ≤ y0)
    (hy1 : y0 + fitted.Dy ≤ height) :
    (leftDraw fitted x0 y0).map (fun d => d.r)
      = [Rect 0 y0 x0 (y0 + fitted.Dy)].filter (fun r => !r.Empty) ∧
    ∀ x y : Int, (writesAt bg x y (leftDraw fitted x0 y0)).length
      = if 0 ≤ x ∧ x < x0 ∧ y0 ≤ y ∧ y < y0 + fitted.Dy then 1 else 0 := by
  subst hW hH
  rw [filter_nonempty_single 0 y0 x0 (y0 + fitted.Dy) hx0 (by omega)]
  unfold leftDraw
  by_cases hpos : x0 > 0
  · rw [if_pos hpos, if_pos ⟨hpos, by omega⟩]
    dsimp only
    obtain ⟨hdx, hdy, _⟩ := Resize_Crop_column fitted 0 1 x0 rfl (le_refl 0) (by omega)
      hfh hpos
    refine ⟨rfl, fun x y => ?_⟩
    rw [Rect_of_le 0 y0 x0 (y0 + fitted.Dy) hx0 (by omega)]
    exact writesAt_image bg _ 0 y0 x0 (y0 + fitted.Dy) .Src (le_refl 0) (by omega) hy0 hy1
      (by rw [hdx]; ring) (by rw [hdy]; ring) x y
  · rw [if_neg hpos, if_neg (by omega)]
    refine ⟨rfl, fun x y => ?_⟩
    rw [writesAt_nil, if_neg (by omega)]

theorem rightDraw_region (bg fitted : Image) (width height x0 y0 : Int)
    (hW : bg.Dx = width) (hH : bg.Dy = height) (hfw : 0 < fitted.Dx)
    (hfh : 0 < fitted.Dy) (hx0 : 0 ≤ x0) (hx1 : x0 + fitted.Dx ≤ width) (hy0 : 0 ≤ y0)
    (hy1 : y0 + fitted.Dy ≤ height) :
    (rightDraw fitted width x0 y0).map (fun d => d.r)
      = [Rect (x0 + fitted.Dx) y0 width (y0 + fitted.Dy)].filter (fun r => !r.Empty) ∧
    ∀ x y : Int, (writesAt bg x y (rightDraw fitted width x0 y0)).length
      = if x0 + fitted.Dx ≤ x ∧ x < width ∧ y0 ≤ y ∧ y < y0 + fitted.Dy then 1 else 0 := by
  subst hW hH
  rw [filter_nonempty_single (x0 + fitted.Dx) y0 bg.Dx (y0 + fitted.Dy) hx1 (by omega)]
  unfold rightDraw
  dsimp only
  by_cases hpos : bg.Dx - (x0 + fitted.Dx) > 0
  · rw [if_pos hpos, if_pos ⟨by omega, by omega⟩]
    obtain ⟨hdx, hdy, _⟩ := Resize_Crop_column fitted (fitted.Dx - 1) fitted.Dx
      (bg.Dx - (x0 + fitted.Dx)) (by ring) (by omega) (le_refl _) hfh hpos
    refine ⟨rfl, fun x y => ?_⟩
    rw [Rect_of_le (x0 + fitted.Dx) y0 bg.Dx (y0 + fitted.Dy) hx1 (by omega)]
    exact writesAt_image bg _ (x0 + fitted.Dx) y0 bg.Dx (y0 + fitted.Dy) .Src (by omega)
      (le_refl _) hy0 hy1 (by rw [hdx]) (by rw [hdy]; ring) x y
  · rw [if_neg hpos, if_neg (by omega)]
    refine ⟨rfl, fun x y => ?_⟩
    rw [writesAt_nil, if_neg (by omega)]

theorem topDraw_region (bg fitted : Image) (width height x0 y0 : Int)
    (hW : bg.Dx = width) (hH : bg.Dy = height) (hfw : 0 < fitted.Dx)
    (hfh : 0 < fitted.Dy) (hx0 : 0 ≤ x0) (hx1 : x0 + fitted.Dx ≤ width) (hy0 : 0 ≤ y0)
    (hy1 : y0 + fitted.Dy ≤ height) :
    (topDraw fitted x0 y0).map (fun d => d.r)
      = [Rect x0 0 (x0 + fitted.Dx) y0].filter (fun r => !r.Empty) ∧
    ∀ x y : Int, (writesAt bg x y (topDraw fitted x0 y0)).length
      = if x0 ≤ x ∧ x < x0 + fitted.Dx ∧ 0 ≤ y ∧ y < y0 then 1 else 0 := by
  subst hW hH
  rw [filter_nonempty_single x0 0 (x0 + fitted.Dx) y0 (by omega) hy0]
  unfold topDraw
  by_cases hpos : y0 > 0
  · rw [if_pos hpos, if_pos ⟨by omega, hpos⟩]
    dsimp only
    obtain ⟨hdx, hdy, _⟩ := Resize_Crop_row fitted 0 1 y0 rfl (le_refl 0) (by omega)
      hfw hpos
    refine ⟨rfl, fun x y => ?_⟩
    rw [Rect_of_le x0 0 (x0 + fitted.Dx) y0 (by omega) hy0]
    exact writesAt_image bg _ x0 0 (x0 + fitted.Dx) y0 .Src hx0 hx1 (le_refl 0) (by omega)
      (by rw [hdx]; ring) (by rw [hdy]; ring) x y
  · rw [if_neg hpos, if_neg (by omega)]
    refine ⟨rfl, fun x y => ?_⟩
    rw [writesAt_nil, if_neg (by omega)]

theorem bottomDraw_region (bg fitted : Image) (width height x0 y0 : Int)
    (hW : bg.Dx = width) (hH : bg.Dy = height) (hfw : 0 < fitted.Dx)
    (hfh : 0 < fitted.Dy) (hx0 : 0 ≤ x0) (hx1 : x0 + fitted.Dx ≤ width) (hy0 : 0 ≤ y0)
    (hy1 : y0 + fitted.Dy ≤ height) :
    (bottomDraw fitted height x0 y0).map (fun d => d.r)
      = [Rect x0 (y0 + fitted.Dy) (x0 + fitted.Dx) height].filter (fun r => !r.Empty) ∧
    ∀ x y : Int, (writesAt bg x y (bottomDraw fitted height x0 y0)).length
      = if x0 ≤ x ∧ x < x0 + fitted.Dx ∧ y0 + fitted.Dy ≤ y ∧ y < height then 1 else 0 := by
  subst hW hH
  rw [filter_nonempty_single x0 (y0 + fitted.Dy) (x0 + fitted.Dx) bg.Dy (by omega) hy1]
  unfold bottomDraw
  dsimp only
  by_cases hpos : bg.Dy - (y0 + fitted.Dy) > 0
  · rw [if_pos hpos, if_pos ⟨by omega, by omega⟩]
    obtain ⟨hdx, hdy, _⟩ := Resize_Crop_row fitted (fitted.Dy - 1) fitted.Dy
      (bg.Dy - (y0 + fitted.Dy)) (by ring) (by omega) (le_refl _) hfw hpos
    refine ⟨rfl, fun x y => ?_⟩
    rw [Rect_of_le x0 (y0 + fitted.Dy) (x0 + fitted.Dx) bg.Dy (by omega) hy1]
    exact writesAt_image bg _ x0 (y0 + fitted.Dy) (x0 + fitted.Dx) bg.Dy .Src hx0 hx1
      (by omega) (le_refl _) (by rw [hdx]; ring) (by rw [hdy]) x y
  · rw [if_neg hpos, if_neg (by omega)]
    refine ⟨rfl, fun x y => ?_⟩
    rw [writesAt_nil, if_neg (by omega)]

theorem fillRect_region (bg : Image) (col : NRGBA) (width height a b c d : Int)
    (hW : bg.Dx = width) (hH : bg.Dy = height) (hac : a ≤ c) (hbd : b ≤ d) (ha : 0 ≤ a)
    (hc : c ≤ width) (hb : 0 ≤ b) (hd : d ≤ height) :
    (fillRect (Rect a b c d) col).map (fun d => d.r)
      = [Rect a b c d].filter (fun r => !r.Empty) ∧
    ∀ x y : Int, (writesAt bg x y (fillRect (Rect a b c d) col)).length
      = if a ≤ x ∧ x < c ∧ b ≤ y ∧ y < d then 1 else 0 := by
  subst hW hH
  unfold fillRect
  by_cases hE : (Rect a b c d).Empty = true
  · rw [if_pos hE]
    refine ⟨by simp [List.filter, hE], fun x y => ?_⟩
    rw [Rect_of_le a b c d hac hbd, Rectangle.Empty_mk] at hE
    rw [writesAt_nil, if_neg (by omega)]
  · rw [if_neg hE]
    have hE' : (Rect a b c d).Empty = false := by
      cases hv : (Rect a b c d).Empty with
      | false => rfl
      | true => exact absurd hv hE
    refine ⟨by simp [List.filter, hE'], fun x y => ?_⟩
    rw [Rect_of_le a b c d hac hbd]
    exact writesAt_uniform bg col a b c d ha hc hb hd x y

theorem filter_cons_split (p : Rectangle → Bool) (a : Rectangle) (l : List Rectangle) :
    (a :: l).filter p = [a].filter p ++ l.filter p := by
  by_cases h : p a = true
  · simp [List.filter, h]
  · simp [List.filter, h]

theorem cornerDraws_region (bg : Image) (top bottom : List NRGBA)
    (fitW fitH width height x0 y0 : Int) (hW : bg.Dx = width) (hH : bg.Dy = height)
    (hfw : 0 < fitW) (hfh : 0 < fitH) (hx0 : 0 ≤ x0) (hx1 : x0 + fitW ≤ width)
    (hy0 : 0 ≤ y0) (hy1 : y0 + fitH ≤ height) :
    (cornerDraws top bottom fitW fitH width height x0 y0).map (fun d => d.r)
      = [Rect 0 0 x0 y0, Rect (x0 + fitW) 0 width y0, Rect 0 (y0 + fitH) x0 height,
          Rect (x0 + fitW) (y0 + fitH) width height].filter (fun r => !r.Empty) ∧
    ∀ x y : Int, (writesAt bg x y (cornerDraws top bottom fitW fitH width height x0 y0)).length
      = (if 0 ≤ x ∧ x < x0 ∧ 0 ≤ y ∧ y < y0 then 1 else 0)
        + (if x0 + fitW ≤ x ∧ x < width ∧ 0 ≤ y ∧ y < y0 then 1 else 0)
        + (if 0 ≤ x ∧ x < x0 ∧ y0 + fitH ≤ y ∧ y < height then 1 else 0)
        + (if x0 + fitW ≤ x ∧ x < width ∧ y0 + fitH ≤ y ∧ y < height then 1 else 0) := by
  obtain ⟨r1, w1⟩ := fillRect_region bg (top.getD 0 NRGBA.zero) width height 0 0 x0 y0 hW hH
    hx0 hy0 (le_refl 0) (by omega) (le_refl 0) (by omega)
  obtain ⟨r2, w2⟩ := fillRect_region bg (top.getD (fitW - 1).toNat NRGBA.zero) width height
    (x0 + fitW) 0 width y0 hW hH hx1 hy0 (by omega) (le_refl _) (le_refl 0) (by omega)
  obtain ⟨r3, w3⟩ := fillRect_region bg (bottom.getD 0 NRGBA.zero) width height
    0 (y0 + fitH) x0 height hW hH hx0 hy1 (le_refl 0) (by omega) (by omega) (le_refl _)
  obtain ⟨r4, w4⟩ := fillRect_region bg (bottom.getD (fitW - 1).toNat NRGBA.zero) width height
    (x0 + fitW) (y0 + fitH) width height hW hH hx1 hy1 (by omega) (le_refl _) (by omega)
    (le_refl _)
  unfold cornerDraws
  constructor
  · rw [filter_cons_split _ (Rect 0 0 x0 y0) [Rect (x0 + fitW) 0 width y0,
        Rect 0 (y0 + fitH) x0 height, Rect (x0 + fitW) (y0 + fitH) width height],
      filter_cons_split _ (Rect (x0 + fitW) 0 width y0) [Rect 0 (y0 + fitH) x0 height,
        Rect (x0 + fitW) (y0 + fitH) width height],
      filter_cons_split _ (Rect 0 (y0 + fitH) x0 height)
        [Rect (x0 + fitW) (y0 + fitH) width height],
      List.map_append, List.map_append, List.map_append, r1, r2, r3, r4, List.append_assoc,
      List.append_assoc]
  · intro x y
    rw [writesAt_append, writesAt_append, writesAt_append, w1, w2, w3, w4]

/-- C26: when the photo rectangle lies inside the canvas and the photo has positive size, the
draws of `stretchBackground` after the black fill have the non-empty ones among the nine
rectangles (photo, left, right, top and bottom strips, four corners), in this order, and
every pixel of the canvas is written by exactly one of them, and no pixel outside the canvas
by any: the nine rectangles are pairwise disjoint and their union is the canvas. -/
theorem stretchBackground_partition (fill : Image → Int → Int → Image) (src fitted : Image)
    (width height x0 y0 : Int) (hfw : 0 < fitted.Dx) (hfh : 0 < fitted.Dy) (hx0 : 0 ≤ x0)
    (hx1 : x0 + fitted.Dx ≤ width) (hy0 : 0 ≤ y0) (hy1 : y0 + fitted.Dy ≤ height) :
    ∃ first rest, stretchDraws fill src fitted width height x0 y0 = first :: rest ∧
      first.r = (NewNRGBA (Rect 0 0 width height)).Bounds ∧
      rest.map (fun d => d.r)
        = [Rect x0 y0 (x0 + fitted.Dx) (y0 + fitted.Dy),
            Rect 0 y0 x0 (y0 + fitted.Dy),
            Rect (x0 + fitted.Dx) y0 width (y0 + fitted.Dy),
            Rect x0 0 (x0 + fitted.Dx) y0,
            Rect x0 (y0 + fitted.Dy) (x0 + fitted.Dx) height,
            Rect 0 0 x0 y0,
            Rect (x0 + fitted.Dx) 0 width y0,
            Rect 0 (y0 + fitted.Dy) x0 height,
            Rect (x0 + fitted.Dx) (y0 + fitted.Dy) width height].filter
          (fun r => !r.Empty) ∧
      ∀ x y : Int, (writesAt (NewNRGBA (Rect 0 0 width height)) x y rest).length
        = if 0 ≤ x ∧ x < width ∧ 0 ≤ y ∧ y < height then 1 else 0 := by
  have hw : 0 < width := by omega
  have hh : 0 < height := by omega
  have hW := NewNRGBA_Dx width height hw
  have hH := NewNRGBA_Dy width height hh
  obtain ⟨rl, wl⟩ := leftDraw_region (NewNRGBA (Rect 0 0 width height)) fitted width height
    x0 y0 hW hH hfw hfh hx0 hx1 hy0 hy1
  obtain ⟨rr, wr⟩ := rightDraw_region (NewNRGBA (Rect 0 0 width height)) fitted width height
    x0 y0 hW hH hfw hfh hx0 hx1 hy0 hy1
  obtain ⟨rt, wt⟩ := topDraw_region (NewNRGBA (Rect 0 0 width height)) fitted width height
    x0 y0 hW hH hfw hfh hx0 hx1 hy0 hy1
  obtain ⟨rb, wb⟩ := bottomDraw_region (NewNRGBA (Rect 0 0 width height)) fitted width height
    x0 y0 hW hH hfw hfh hx0 hx1 hy0 hy1
  obtain ⟨rc, wc⟩ := cornerDraws_region (NewNRGBA (Rect 0 0 width height))
    (topRow (fill src fitted.Dx fitted.Dy) fitted.Dx)
    (bottomRow (fill src fitted.Dx fitted.Dy) fitted.Dx fitted.Dy)
    fitted.Dx fitted.Dy width height x0 y0 hW hH hfw hfh hx0 hx1 hy0 hy1
  have hphoto : [Rect x0 y0 (x0 + fitted.Dx) (y0 + fitted.Dy)].filter (fun r => !r.Empty)
      = [Rect x0 y0 (x0 + fitted.Dx) (y0 + fitted.Dy)] := by
    rw [filter_nonempty_single x0 y0 (x0 + fitted.Dx) (y0 + fitted.Dy) (by omega) (by omega),
      if_pos ⟨by omega, by omega⟩]
  refine ⟨⟨(NewNRGBA (Rect 0 0 width height)).Bounds, .uniform ⟨0, 0, 0, 255⟩, .Src⟩,
    [⟨Rect x0 y0 (x0 + fitted.Dx) (y0 + fitted.Dy), .image fitted, .Over⟩]
      ++ (leftDraw fitted x0 y0 ++ (rightDraw fitted width x0 y0
      ++ (topDraw fitted x0 y0 ++ (bottomDraw fitted height x0 y0
      ++ cornerDraws (topRow (fill src fitted.Dx fitted.Dy) fitted.Dx)
        (bottomRow (fill src fitted.Dx fitted.Dy) fitted.Dx fitted.Dy)
        fitted.Dx fitted.Dy width height x0 y0)))), ?_, rfl, ?_, ?_⟩
  · unfold stretchDraws
    simp only [List.cons_append, List.nil_append, List.append_assoc, List.singleton_append]
  · rw [filter_cons_split _ (Rect x0 y0 (x0 + fitted.Dx) (y0 + fitted.Dy))
        [Rect 0 y0 x0 (y0 + fitted.Dy), Rect (x0 + fitted.Dx) y0 width (y0 + fitted.Dy),
          Rect x0 0 (x0 + fitted.Dx) y0, Rect x0 (y0 + fitted.Dy) (x0 + fitted.Dx) height,
          Rect 0 0 x0 y0, Rect (x0 + fitted.Dx) 0 width y0, Rect 0 (y0 + fitted.Dy) x0 height,
          Rect (x0 + fitted.Dx) (y0 + fitted.Dy) width height],
      filter_cons_split _ (Rect 0 y0 x0 (y0 + fitted.Dy))
        [Rect (x0 + fitted.Dx) y0 width (y0 + fitted.Dy),
          Rect x0 0 (x0 + fitted.Dx) y0, Rect x0 (y0 + fitted.Dy) (x0 + fitted.Dx) height,
          Rect 0 0 x0 y0, Rect (x0 + fitted.Dx) 0 width y0, Rect 0 (y0 + fitted.Dy) x0 height,
          Rect (x0 + fitted.Dx) (y0 + fitted.Dy) width height],
      filter_cons_split _ (Rect (x0 + fitted.Dx) y0 width (y0 + fitted.Dy))
        [Rect x0 0 (x0 + fitted.Dx) y0, Rect x0 (y0 + fitted.Dy) (x0 + fitted.Dx) height,
          Rect 0 0 x0 y0, Rect (x0 + fitted.Dx) 0 width y0, Rect 0 (y0 + fitted.Dy) x0 height,
          Rect (x0 + fitted.Dx) (y0 + fitted.Dy) width height],
      filter_cons_split _ (Rect x0 0 (x0 + fitted.Dx) y0)
        [Rect x0 (y0 + fitted.Dy) (x0 + fitted.Dx) height,
          Rect 0 0 x0 y0, Rect (x0 + fitted.Dx) 0 width y0, Rect 0 (y0 + fitted.Dy) x0 height,
          Rect (x0 + fitted.Dx) (y0 + fitted.Dy) width height],
      filter_cons_split _ (Rect x0 (y0 + fitted.Dy) (x0 + fitted.Dx) height)
        [Rect 0 0 x0 y0, Rect (x0 + fitted.Dx) 0 width y0, Rect 0 (y0 + fitted.Dy) x0 height,
          Rect (x0 + fitted.Dx) (y0 + fitted.Dy) width height],
      hphoto, List.map_append, List.map_append, List.map_append, List.map_append,
      List.map_append, rl, rr, rt, rb, rc]
    rfl
  · intro x y
    have wp := writesAt_image (NewNRGBA (Rect 0 0 width height)) fitted x0 y0
      (x0 + fitted.Dx) (y0 + fitted.Dy) .Over hx0 (by rw [hW]; exact hx1) hy0
      (by rw [hH]; exact hy1) (by ring) (by ring) x y
    rw [writesAt_append, writesAt_append, writesAt_append, writesAt_append, writesAt_append,
      wl, wr, wt, wb, wc, Rect_of_le x0 y0 (x0 + fitted.Dx) (y0 + fitted.Dy) (by omega)
        (by omega), wp]
    by_cases hin : 0 ≤ x ∧ x < width ∧ 0 ≤ y ∧ y < height
    · obtain ⟨hx, hxw, hy, hyh⟩ := hin
      have c0 : (0 ≤ x ∧ x < width ∧ 0 ≤ y ∧ y < height) = True :=
        eq_true ⟨hx, hxw, hy, hyh⟩
      have c1 : (x0 + fitted.Dx ≤ x ∧ x < width ∧ y0 + fitted.Dy ≤ y ∧ y < height)
          = (¬ x < x0 + fitted.Dx ∧ ¬ y < y0 + fitted.Dy) := propext (by omega)
      have c2 : (0 ≤ x ∧ x < x0 ∧ y0 + fitted.Dy ≤ y ∧ y < height)
          = (x < x0 ∧ ¬ y < y0 + fitted.Dy) := propext (by omega)
      have c3 : (x0 + fitted.Dx ≤ x ∧ x < width ∧ 0 ≤ y ∧ y < y0)
          = (¬ x < x0 + fitted.Dx ∧ y < y0) := propext (by omega)
      have c4 : (0 ≤ x ∧ x < x0 ∧ 0 ≤ y ∧ y < y0) = (x < x0 ∧ y < y0) := propext (by omega)
      have c5 : (x0 ≤ x ∧ x < x0 + fitted.Dx ∧ y0 + fitted.Dy ≤ y ∧ y < height)
          = (¬ x < x0 ∧ x < x0 + fitted.Dx ∧ ¬ y < y0 + fitted.Dy) := propext (by omega)
      have c6 : (x0 ≤ x ∧ x < x0 + fitted.Dx ∧ 0 ≤ y ∧ y < y0)
          = (¬ x < x0 ∧ x < x0 + fitted.Dx ∧ y < y0) := propext (by omega)
      have c7 : (x0 + fitted.Dx ≤ x ∧ x < width ∧ y0 ≤ y ∧ y < y0 + fitted.Dy)
          = (¬ x < x0 + fitted.Dx ∧ ¬ y < y0 ∧ y < y0 + fitted.Dy) := propext (by omega)
      have c8 : (0 ≤ x ∧ x < x0 ∧ y0 ≤ y ∧ y < y0 + fitted.Dy)
          = (x < x0 ∧ ¬ y < y0 ∧ y < y0 + fitted.Dy) := propext (by omega)
      have c9 : (x0 ≤ x ∧ x < x0 + fitted.Dx ∧ y0 ≤ y ∧ y < y0 + fitted.Dy)
          = (¬ x < x0 ∧ x < x0 + fitted.Dx ∧ ¬ y < y0 ∧ y < y0 + fitted.Dy) :=
        propext (by omega)
      simp only [c0, c1, c2, c3, c4, c5, c6, c7, c8, c9, if_true]
      clear c0 c1 c2 c3 c4 c5 c6 c7 c8 c9
      by_cases h1 : x < x0 <;> by_cases h2 : x < x0 + fitted.Dx <;> by_cases h3 : y < y0 <;>
        by_cases h4 : y < y0 + fitted.Dy <;>
        first
        | (exfalso; omega)
        | simp only [h1, h2, h3, h4, not_true_eq_false, not_false_eq_true, and_true,
            and_false, true_and, false_and, and_self, if_true, if_false, Nat.add_zero,
            Nat.zero_add]
    · have d1 : ¬ (x0 ≤ x ∧ x < x0 + fitted.Dx ∧ y0 ≤ y ∧ y < y0 + fitted.Dy) := by omega
      have d2 : ¬ (0 ≤ x ∧ x < x0 ∧ y0 ≤ y ∧ y < y0 + fitted.Dy) := by omega
      have d3 : ¬ (x0 + fitted.Dx ≤ x ∧ x < width ∧ y0 ≤ y ∧ y < y0 + fitted.Dy) := by omega
      have d4 : ¬ (x0 ≤ x ∧ x < x0 + fitted.Dx ∧ 0 ≤ y ∧ y < y0) := by omega
      have d5 : ¬ (x0 ≤ x ∧ x < x0 + fitted.Dx ∧ y0 + fitted.Dy ≤ y ∧ y < height) := by omega
      have d6 : ¬ (0 ≤ x ∧ x < x0 ∧ 0 ≤ y ∧ y < y0) := by omega
      have d7 : ¬ (x0 + fitted.Dx ≤ x ∧ x < width ∧ 0 ≤ y ∧ y < y0) := by omega
      have d8 : ¬ (0 ≤ x ∧ x < x0 ∧ y0 + fitted.Dy ≤ y ∧ y < height) := by omega
      have d9 : ¬ (x0 + fitted.Dx ≤ x ∧ x < width ∧ y0 + fitted.Dy ≤ y ∧ y < height) := by
        omega
      rw [if_neg d1, if_neg d2, if_neg d3, if_neg d4, if_neg d5, if_neg d6, if_neg d7,
        if_neg d8, if_neg d9, if_neg hin]

/-- Witness of C26: a 2x2 photo at (1, 2) of a 5x6 canvas; all nine rectangles are drawn, the
pixel (4, 5) is written by one draw and the point (7, 7) outside the canvas by none. -/
theorem stretchBackground_partition_witness :
    ∃ first rest, stretchDraws sameFill fourPixels fourPixels 5 6 1 2 = first :: rest ∧
      rest.length = 9 ∧
      (writesAt (NewNRGBA (Rect 0 0 5 6)) 4 5 rest).length = 1 ∧
      (writesAt (NewNRGBA (Rect 0 0 5 6)) 7 7 rest).length = 0 := by
  obtain ⟨first, rest, hd, _, hr, hw⟩ := stretchBackground_partition sameFill fourPixels
    fourPixels 5 6 1 2 (by decide) (by decide) (by decide) (by decide) (by decide) (by decide)
  refine ⟨first, rest, hd, ?_, ?_, ?_⟩
  · rw [← List.length_map rest (fun d => d.r), hr]
    decide
  · rw [hw 4 5]
    decide
  · rw [hw 7 7]
    decide

/-! ## Theorems: the candidates of extractJPEGs -/

theorem getD_drop (data : List Nat) (n k : Nat) :
    (data.drop n).getD k 0 = data.getD (n + k) 0 := by
  simp [List.getD_eq_getElem?_getD, List.getElem?_drop]

theorem indexFFD9_some : ∀ (l : List Nat) (j : Nat), indexFFD9 l = some j →
    j + 2 ≤ l.length ∧ l.getD j 0 = 255 ∧ l.getD (j + 1) 0 = 217 ∧
    ∀ k, k < j → ¬ (l.getD k 0 = 255 ∧ l.getD (k + 1) 0 = 217) := by
  intro l
  induction l with
  | nil => intro j h; simp [indexFFD9] at h
  | cons a t ih =>
    intro j h
    cases t with
    | nil => simp [indexFFD9] at h
    | cons b rest =>
      unfold indexFFD9 at h
      split_ifs at h with hab
      · simp only [Option.some.injEq] at h
        subst h
        refine ⟨by simp, by simpa using hab.1, by simpa using hab.2, fun k hk => ?_⟩
        omega
      · cases hrec : indexFFD9 (b :: rest) with
        | none => simp [hrec] at h
        | some j' =>
          simp only [hrec, Option.map_some', Option.some.injEq] at h
          subst h
          obtain ⟨h1, h2, h3, h4⟩ := ih j' hrec
          refine ⟨by simp at h1 ⊢; omega, by simpa using h2, by simpa using h3, ?_⟩
          intro k hk
          cases k with
          | zero => simpa using hab
          | succ k' =>
            have := h4 k' (by omega)
            simpa using this

theorem indexFFD9_none : ∀ (l : List Nat), indexFFD9 l = none →
    ∀ k, ¬ (l.getD k 0 = 255 ∧ l.getD (k + 1) 0 = 217) := by
  intro l
  induction l with
  | nil => intro _ k; simp
  | cons a t ih =>
    intro h k
    cases t with
    | nil =>
      cases k with
      | zero => simp
      | succ k' => simp
    | cons b rest =>
      unfold indexFFD9 at h
      split_ifs at h with hab
      cases hrec : indexFFD9 (b :: rest) with
      | some j' => simp [hrec] at h
      | none =>
        cases k with
        | zero => simpa using hab
        | succ k' =>
          have := ih hrec k'
          simpa using this

theorem byteSlice_length (data : List Nat) (i e : Nat) (he : e ≤ data.length) :
    (byteSlice data i e).length = e - i := by
  unfold byteSlice
  rw [List.length_take, List.length_drop]
  omega

theorem byteSlice_getD (data : List Nat) (i e k : Nat) (hk : k < e - i) :
    (byteSlice data i e).getD k 0 = data.getD (i + k) 0 := by
  unfold byteSlice
  rw [List.getD_eq_getElem?_getD, List.getElem?_take_of_lt hk, ← List.getD_eq_getElem?_getD,
    getD_drop]

/-- The invariant of the loop of `extractJPEGs`: the slices appended from index `i` on are
candidates that start at or after `i`, each ending before the next starts. -/
theorem extractLoop_spans (data : List Nat) :
    ∀ (fuel i : Nat) (rs : List (List Nat)),
      ∃ spans : List (Nat × Nat),
        extractLoop data fuel i rs = rs ++ spans.map (fun s => byteSlice data s.1 s.2) ∧
        (∀ s ∈ spans, i ≤ s.1 ∧ IsCandidate data s.1 s.2) ∧
        spans.Pairwise (fun s t => s.2 ≤ t.1) := by
  intro fuel
  induction fuel with
  | zero =>
    intro i rs
    exact ⟨[], by simp [extractLoop], by simp, List.Pairwise.nil⟩
  | succ fuel ih =>
    intro i rs
    have hnext : ∃ spans : List (Nat × Nat),
        extractLoop data fuel (i + 1) rs = rs ++ spans.map (fun s => byteSlice data s.1 s.2) ∧
        (∀ s ∈ spans, i ≤ s.1 ∧ IsCandidate data s.1 s.2) ∧
        spans.Pairwise (fun s t => s.2 ≤ t.1) := by
      obtain ⟨spans, h1, h2, h3⟩ := ih (i + 1) rs
      exact ⟨spans, h1, fun s hs => ⟨by have := (h2 s hs).1; omega, (h2 s hs).2⟩, h3⟩
    unfold extractLoop
    split_ifs with h1 h2
    · exact hnext
    · cases hj : indexFFD9 (data.drop (i + 2)) with
      | none => exact hnext
      | some j =>
        dsimp only
        split_ifs with h3
        · exact hnext
        · obtain ⟨spans, e1, e2, e3⟩ := ih (i + 2 + j + 2)
            (rs ++ [(data.drop i).take (i + 2 + j + 2 - i)])
          obtain ⟨j1, j2, j3, j4⟩ := indexFFD9_some _ j hj
          rw [getD_drop] at j2 j3
          have hm : data.getD i 0 = 255 ∧ data.getD (i + 1) 0 = 216 := by
            constructor
            · by_contra hne
              exact h2 (Or.inl hne)
            · by_contra hne
              exact h2 (Or.inr hne)
          refine ⟨(i, i + 2 + j + 2) :: spans, ?_, ?_, ?_⟩
          · rw [e1]
            simp [byteSlice]
          · intro s hs
            rcases List.mem_cons.mp hs with rfl | hs'
            · refine ⟨le_refl _, by omega, by omega, ⟨hm.1, hm.2, ?_, ?_⟩, ?_⟩
              · have e : i + 2 + j + 2 - 2 = i + 2 + j := by omega
                show data.getD (i + 2 + j + 2 - 2) 0 = 255
                rw [e]
                exact j2
              · have e : i + 2 + j + 2 - 2 + 1 = i + 2 + (j + 1) := by omega
                show data.getD (i + 2 + j + 2 - 2 + 1) 0 = 217
                rw [e]
                exact j3
              · intro k hk1 hk2
                have hlt : k - (i + 2) < j := by
                  have hk2' : k + 2 < i + 2 + j + 2 := hk2
                  omega
                have := j4 (k - (i + 2)) hlt
                rw [getD_drop, getD_drop] at this
                have e1' : i + 2 + (k - (i + 2)) = k := by
                  have hk1' : i + 2 ≤ k := hk1
                  omega
                have e2' : i + 2 + (k - (i + 2) + 1) = k + 1 := by
                  have hk1' : i + 2 ≤ k := hk1
                  omega
                rw [e1', e2'] at this
                exact this
            · exact ⟨by have := (e2 s hs').1; omega, (e2 s hs').2⟩
          · exact List.Pairwise.cons (fun t ht => (e2 t ht).1) e3
    · exact ⟨[], by simp, by simp, List.Pairwise.nil⟩

/-- No index expression and no slice expression of the loop is out of range. -/
theorem extractLoopChecked_eq (data : List Nat) :
    ∀ (fuel i : Nat) (rs : List (List Nat)),
      extractLoopChecked data fuel i rs = some (extractLoop data fuel i rs) := by
  intro fuel
  induction fuel with
  | zero => intro i rs; rfl
  | succ fuel ih =>
    intro i rs
    unfold extractLoopChecked extractLoop
    by_cases h1 : i + 1 < data.length
    · rw [if_pos h1, if_pos h1]
      have hi : data[i]? = some (data.getD i 0) := by
        rw [List.getD_eq_getElem?_getD, List.getElem?_eq_getElem (by omega)]
        rfl
      have hi1 : data[i + 1]? = some (data.getD (i + 1) 0) := by
        rw [List.getD_eq_getElem?_getD, List.getElem?_eq_getElem h1]
        rfl
      rw [hi]
      dsimp only
      by_cases ha : data.getD i 0 ≠ 255
      · rw [if_pos ha, if_pos (Or.inl ha)]
        exact ih _ _
      · rw [if_neg ha, hi1]
        dsimp only
        by_cases hb : data.getD (i + 1) 0 ≠ 216
        · rw [if_pos hb, if_pos (Or.inr hb)]
          exact ih _ _
        · rw [if_neg hb, if_neg (show ¬ data.length < i + 2 by omega),
            if_neg (show ¬ (data.getD i 0 ≠ 255 ∨ data.getD (i + 1) 0 ≠ 216) by tauto)]
          cases hj : indexFFD9 (data.drop (i + 2)) with
          | none => exact ih _ _
          | some j =>
            dsimp only
            by_cases h3 : i + 2 + j + 2 > data.length
            · rw [if_pos h3, if_pos h3]
              exact ih _ _
            · rw [if_neg h3, if_neg h3, if_neg (show ¬ i + 2 + j + 2 < i by omega)]
              exact ih _ _
    · rw [if_neg h1, if_neg h1]

theorem getD_markers_lt (data : List Nat) (i : Nat) (h : data.getD (i + 1) 0 = 216) :
    i + 1 < data.length := by
  by_contra hge
  rw [List.getD_eq_default _ _ (by omega)] at h
  exact absurd h (by decide)

/-- The loop finds nothing exactly when no FF D8 from index `i` on is followed, two bytes
later or more, by FF D9. -/
theorem extractLoop_nil_iff (data : List Nat) :
    ∀ (fuel i : Nat), data.length ≤ i + fuel →
      (extractLoop data fuel i [] = [] ↔
        ¬ ∃ i1 j, i ≤ i1 ∧ i1 + 2 ≤ j ∧ markersAt data i1 j) := by
  intro fuel
  induction fuel with
  | zero =>
    intro i hlen
    constructor
    · rintro _ ⟨i1, j, h1, _, hm⟩
      have := getD_markers_lt data i1 hm.2.1
      omega
    · intro _
      rfl
  | succ fuel ih =>
    intro i hlen
    unfold extractLoop
    by_cases h1 : i + 1 < data.length
    · rw [if_pos h1]
      by_cases h2 : data.getD i 0 ≠ 255 ∨ data.getD (i + 1) 0 ≠ 216
      · rw [if_pos h2, ih (i + 1) (by omega)]
        constructor
        · rintro hno ⟨i1, j, hi1, hj, hm⟩
          rcases Nat.eq_or_lt_of_le hi1 with rfl | hlt
          · rcases h2 with h | h
            · exact h hm.1
            · exact h hm.2.1
          · exact hno ⟨i1, j, hlt, hj, hm⟩
        · rintro hno ⟨i1, j, hi1, hj, hm⟩
          exact hno ⟨i1, j, by omega, hj, hm⟩
      · rw [if_neg h2]
        cases hj : indexFFD9 (data.drop (i + 2)) with
        | none =>
          dsimp only
          have hnone := indexFFD9_none _ hj
          have hno : ¬ ∃ i1 j, i ≤ i1 ∧ i1 + 2 ≤ j ∧ markersAt data i1 j := by
            rintro ⟨i1, j, hi1, hj1, hm⟩
            have := hnone (j - (i + 2))
            rw [getD_drop, getD_drop] at this
            have e1 : i + 2 + (j - (i + 2)) = j := by omega
            have e2 : i + 2 + (j - (i + 2) + 1) = j + 1 := by omega
            rw [e1, e2] at this
            exact this ⟨hm.2.2.1, hm.2.2.2⟩
          rw [ih (i + 1) (by omega)]
          constructor
          · intro _
            exact hno
          · rintro _ ⟨i1, j, hi1, hj1, hm⟩
            exact hno ⟨i1, j, by omega, hj1, hm⟩
        | some j =>
          dsimp only
          obtain ⟨j1, j2, j3, _⟩ := indexFFD9_some _ j hj
          rw [List.length_drop] at j1
          rw [getD_drop] at j2 j3
          rw [if_neg (by omega), extractLoop_append]
          constructor
          · intro h
            simp at h
          · intro hno
            exfalso
            apply hno
            refine ⟨i, i + 2 + j, le_refl _, by omega, ?_, ?_, j2, j3⟩
            · by_contra hne
              exact h2 (Or.inl hne)
            · by_contra hne
              exact h2 (Or.inr hne)
    · rw [if_neg h1]
      constructor
      · rintro _ ⟨i1, j, hi1, _, hm⟩
        have := getD_markers_lt data i1 hm.2.1
        omega
      · intro _
        rfl

/-- C28: for every byte string, the loop of `extractJPEGs` ends by its own test within
`len(data)` turns and no index or slice expression is out of range; the result is the list
of the slices `data[i:e]` of spans that are candidates (inside `data`, at least four bytes,
FF D8 at the start, FF D9 at the end, no FF D9 pair at or after offset 2 ending earlier),
each span ending before the next starts; and the result is empty exactly when no FF D8 in
`data` is followed, at least two bytes later, by an FF D9. -/
theorem extractJPEGs_candidates (data : List Nat) :
    extractLoopChecked data data.length 0 [] = some (extractJPEGs data) ∧
    (∀ k, extractLoop data (data.length + k) 0 [] = extractJPEGs data) ∧
    (∃ spans : List (Nat × Nat),
      extractJPEGs data = spans.map (fun s => byteSlice data s.1 s.2) ∧
      (∀ s ∈ spans, IsCandidate data s.1 s.2 ∧
        (byteSlice data s.1 s.2).length = s.2 - s.1 ∧
        ∀ k, k < s.2 - s.1 → (byteSlice data s.1 s.2).getD k 0 = data.getD (s.1 + k) 0) ∧
      spans.Pairwise (fun s t => s.2 ≤ t.1)) ∧
    (extractJPEGs data = [] ↔ ¬ ∃ i j, i + 2 ≤ j ∧ markersAt data i j) := by
  refine ⟨extractLoopChecked_eq data _ _ _,
    fun k => extractLoop_fuel data data.length 0 [] (by omega) k, ?_, ?_⟩
  · obtain ⟨spans, h1, h2, h3⟩ := extractLoop_spans data data.length 0 []
    refine ⟨spans, by simpa [extractJPEGs] using h1, fun s hs => ?_, h3⟩
    have hc := (h2 s hs).2
    exact ⟨hc, byteSlice_length data s.1 s.2 hc.2.1, fun k hk => byteSlice_getD data s.1 s.2 k hk⟩
  · unfold extractJPEGs
    rw [extractLoop_nil_iff data data.length 0 (by omega)]
    constructor
    · rintro hno ⟨i, j, hj, hm⟩
      exact hno ⟨i, j, Nat.zero_le _, hj, hm⟩
    · rintro hno ⟨i, j, _, hj, hm⟩
      exact hno ⟨i, j, hj, hm⟩

/-! ## Theorems: rounding to float64 -/

namespace IEEE

theorem log2Fuel_spec : ∀ (fuel n : Nat), 0 < n → n ≤ fuel →
    2 ^ log2Fuel fuel n ≤ n ∧ n < 2 ^ (log2Fuel fuel n + 1) := by
  intro fuel
  induction fuel with
  | zero => intro n h0 h1; omega
  | succ k ih =>
    intro n h0 h1
    unfold log2Fuel
    split_ifs with h2
    · constructor <;> simp <;> omega
    · have := ih (n / 2) (by omega) (by omega)
      obtain ⟨a, b⟩ := this
      constructor
      · rw [pow_succ]; omega
      · rw [pow_succ]; omega

theorem ilog2_spec (n : Nat) (h : 0 < n) : 2 ^ ilog2 n ≤ n ∧ n < 2 ^ (ilog2 n + 1) :=
  log2Fuel_spec n n h (le_refl n)

theorem exponent_spec (q : ℚ) (hq : 0 < q) :
    (2 : ℚ) ^ exponent q ≤ q ∧ q < (2 : ℚ) ^ (exponent q + 1) := by
  have hn : 0 < q.num := Rat.num_pos.mpr hq
  have hnn : 0 < q.num.natAbs := Int.natAbs_pos.mpr (ne_of_gt hn)
  have hd : 0 < q.den := q.den_pos
  obtain ⟨a1, a2⟩ := ilog2_spec _ hnn
  obtain ⟨b1, b2⟩ := ilog2_spec _ hd
  have hqe : q = (q.num.natAbs : ℚ) / (q.den : ℚ) := by
    have h1 : (q.num.natAbs : Int) = q.num := Int.natAbs_of_nonneg (le_of_lt hn)
    have h2 : (q.num.natAbs : ℚ) = (q.num : ℚ) := by
      rw [← Int.cast_natCast, h1]
    rw [h2]
    exact (Rat.num_div_den q).symm
  have hdq : (0 : ℚ) < (q.den : ℚ) := by exact_mod_cast hd
  have two : (2 : ℚ) ≠ 0 := two_ne_zero
  have e0 : ∀ (x y : Nat), (2 : ℚ) ^ ((x : Int) - (y : Int)) = (2 : ℚ) ^ x / (2 : ℚ) ^ y := by
    intro x y
    rw [zpow_sub₀ two, zpow_natCast, zpow_natCast]
  have pa : (0 : ℚ) < (2 : ℚ) ^ (ilog2 q.den) := by positivity
  have pb : (0 : ℚ) < (2 : ℚ) ^ (ilog2 q.den + 1) := by positivity
  have A1 : ((2 : ℚ) ^ (ilog2 q.num.natAbs)) ≤ (q.num.natAbs : ℚ) := by exact_mod_cast a1
  have A2 : (q.num.natAbs : ℚ) < ((2 : ℚ) ^ (ilog2 q.num.natAbs + 1)) := by exact_mod_cast a2
  have B1 : ((2 : ℚ) ^ (ilog2 q.den)) ≤ (q.den : ℚ) := by exact_mod_cast b1
  have B2 : (q.den : ℚ) < ((2 : ℚ) ^ (ilog2 q.den + 1)) := by exact_mod_cast b2
  have npos : (0 : ℚ) < (q.num.natAbs : ℚ) := by exact_mod_cast hnn
  -- upper: q < 2^(g+1)
  have up : q < (2 : ℚ) ^ ((ilog2 q.num.natAbs : Int) - (ilog2 q.den : Int) + 1) := by
    have e : ((ilog2 q.num.natAbs : Int) - (ilog2 q.den : Int) + 1)
        = (((ilog2 q.num.natAbs + 1 : Nat) : Int) - (ilog2 q.den : Int)) := by push_cast; ring
    rw [e, e0]
    refine lt_of_eq_of_lt hqe ?_
    rw [div_lt_div_iff₀ hdq pa]
    calc (q.num.natAbs : ℚ) * 2 ^ ilog2 q.den
        ≤ (q.num.natAbs : ℚ) * (q.den : ℚ) := by
          exact mul_le_mul_of_nonneg_left B1 (le_of_lt npos)
      _ < 2 ^ (ilog2 q.num.natAbs + 1) * (q.den : ℚ) := by
          exact mul_lt_mul_of_pos_right A2 hdq
  have lo : (2 : ℚ) ^ ((ilog2 q.num.natAbs : Int) - (ilog2 q.den : Int) - 1) ≤ q := by
    have e : ((ilog2 q.num.natAbs : Int) - (ilog2 q.den : Int) - 1)
        = ((ilog2 q.num.natAbs : Int) - ((ilog2 q.den + 1 : Nat) : Int)) := by push_cast; ring
    rw [e, e0]
    refine le_of_le_of_eq ?_ hqe.symm
    rw [div_le_div_iff₀ pb hdq]
    have p2 : (0 : ℚ) < (2 : ℚ) ^ (ilog2 q.num.natAbs) := by positivity
    calc (2 : ℚ) ^ ilog2 q.num.natAbs * (q.den : ℚ)
        ≤ (2 : ℚ) ^ ilog2 q.num.natAbs * 2 ^ (ilog2 q.den + 1) := by
          exact mul_le_mul_of_nonneg_left (le_of_lt B2) (le_of_lt p2)
      _ ≤ (q.num.natAbs : ℚ) * 2 ^ (ilog2 q.den + 1) := by
          exact mul_le_mul_of_nonneg_right A1 (le_of_lt pb)
  unfold exponent
  split_ifs with h
  · exact ⟨h, up⟩
  · refine ⟨lo, ?_⟩
    rw [sub_add_cancel]
    exact not_le.mp h

theorem exponent_mono (q1 q2 : ℚ) (h1 : 0 < q1) (h : q1 ≤ q2) : exponent q1 ≤ exponent q2 := by
  obtain ⟨a1, _⟩ := exponent_spec q1 h1
  obtain ⟨_, b2⟩ := exponent_spec q2 (lt_of_lt_of_le h1 h)
  have : (2 : ℚ) ^ exponent q1 < (2 : ℚ) ^ (exponent q2 + 1) :=
    lt_of_le_of_lt (le_trans a1 h) b2
  have := (zpow_lt_zpow_iff_right₀ (by norm_num : (1 : ℚ) < 2)).mp this
  omega

theorem roundHalfEven_ge (x : ℚ) (a : Int) (h : (a : ℚ) ≤ x) : a ≤ roundHalfEven x := by
  have : a ≤ ⌊x⌋ := Int.le_floor.mpr h
  unfold roundHalfEven
  split_ifs <;> omega

theorem roundHalfEven_le (x : ℚ) (b : Int) (h : x ≤ (b : ℚ)) : roundHalfEven x ≤ b := by
  have h1 : ⌊x⌋ ≤ b := by
    have := Int.floor_le x
    exact_mod_cast (Int.floor_le_floor h).trans (le_of_eq (Int.floor_intCast b))
  by_cases hb : ⌊x⌋ = b
  · have hx : x = (⌊x⌋ : ℚ) := by
      apply le_antisymm
      · rw [hb]; exact h
      · exact Int.floor_le x
    unfold roundHalfEven
    have : x - (⌊x⌋ : ℚ) = 0 := by linarith
    rw [this]
    norm_num
    omega
  · have : ⌊x⌋ + 1 ≤ b := by omega
    unfold roundHalfEven
    split_ifs <;> omega

theorem roundHalfEven_int (n : Int) : roundHalfEven (n : ℚ) = n :=
  le_antisymm (roundHalfEven_le _ _ (le_refl _)) (roundHalfEven_ge _ _ (le_refl _))

theorem roundHalfEven_mono (x y : ℚ) (h : x ≤ y) : roundHalfEven x ≤ roundHalfEven y := by
  have hf : ⌊x⌋ ≤ ⌊y⌋ := Int.floor_le_floor h
  by_cases he : ⌊x⌋ = ⌊y⌋
  · unfold roundHalfEven
    rw [he]
    have hxy : x - (⌊y⌋ : ℚ) ≤ y - (⌊y⌋ : ℚ) := by linarith
    split_ifs <;> first | omega | (exfalso; linarith)
  · have h1 : roundHalfEven x ≤ ⌊x⌋ + 1 := by
      unfold roundHalfEven
      split_ifs <;> omega
    have h2 : ⌊y⌋ ≤ roundHalfEven y := by
      unfold roundHalfEven
      split_ifs <;> omega
    omega

theorem quantum_pos (q : ℚ) : 0 < quantum q := by
  unfold quantum
  exact zpow_pos (by norm_num) _

/-- The binade of the rounded magnitude. -/
theorem roundMag_binade (q : ℚ) (hq : 0 < q) :
    0 ≤ roundMag q ∧ roundMag q ≤ (2 : ℚ) ^ (max (exponent q) (-1022) + 1) ∧
    (-1022 ≤ exponent q → (2 : ℚ) ^ (exponent q) ≤ roundMag q) := by
  obtain ⟨s1, s2⟩ := exponent_spec q hq
  have hu := quantum_pos q
  have two : (2 : ℚ) ≠ 0 := two_ne_zero
  have one2 : (1 : ℚ) ≤ 2 := by norm_num
  have e53 : (2 : ℚ) ^ (max (exponent q) (-1022) + 1) = ((2 ^ 53 : Int) : ℚ) * quantum q := by
    unfold quantum
    have : max (exponent q) (-1022) + 1 = 53 + (max (exponent q) (-1022) - 52) := by ring
    rw [this, zpow_add₀ two]
    norm_num
  have e52 : (2 : ℚ) ^ (max (exponent q) (-1022)) = ((2 ^ 52 : Int) : ℚ) * quantum q := by
    unfold quantum
    have : max (exponent q) (-1022) = 52 + (max (exponent q) (-1022) - 52) := by ring
    nth_rewrite 1 [this]
    rw [zpow_add₀ two]
    norm_num
  have hup : q ≤ (2 : ℚ) ^ (max (exponent q) (-1022) + 1) :=
    le_trans (le_of_lt s2) (zpow_le_zpow_right₀ one2 (by omega))
  refine ⟨?_, ?_, ?_⟩
  · unfold roundMag
    have : (0 : Int) ≤ roundHalfEven (q / quantum q) :=
      roundHalfEven_ge _ 0 (by simpa using le_of_lt (div_pos hq hu))
    have : (0 : ℚ) ≤ (roundHalfEven (q / quantum q) : ℚ) := by exact_mod_cast this
    exact mul_nonneg this (le_of_lt hu)
  · rw [e53]
    unfold roundMag
    apply mul_le_mul_of_nonneg_right _ (le_of_lt hu)
    have : roundHalfEven (q / quantum q) ≤ (2 ^ 53 : Int) := by
      apply roundHalfEven_le
      rw [div_le_iff₀ hu, ← e53]
      exact hup
    exact_mod_cast this
  · intro he
    have hmax : max (exponent q) (-1022) = exponent q := max_eq_left he
    rw [hmax] at e52
    rw [e52]
    unfold roundMag
    apply mul_le_mul_of_nonneg_right _ (le_of_lt hu)
    have : (2 ^ 52 : Int) ≤ roundHalfEven (q / quantum q) := by
      apply roundHalfEven_ge
      rw [le_div_iff₀ hu, ← e52]
      exact s1
    exact_mod_cast this

theorem roundMag_zero : roundMag 0 = 0 := by
  unfold roundMag
  rw [zero_div]
  have : roundHalfEven 0 = 0 := by simpa using roundHalfEven_int 0
  rw [this]
  simp

theorem roundMag_nonneg (q : ℚ) (hq : 0 ≤ q) : 0 ≤ roundMag q := by
  rcases eq_or_lt_of_le hq with h | h
  · rw [← h, roundMag_zero]
  · exact (roundMag_binade q h).1

theorem roundMag_mono (q1 q2 : ℚ) (h1 : 0 ≤ q1) (h : q1 ≤ q2) : roundMag q1 ≤ roundMag q2 := by
  rcases eq_or_lt_of_le h1 with h0 | h0
  · rw [← h0, roundMag_zero]
    exact roundMag_nonneg q2 (le_trans h1 h)
  · have h2 : 0 < q2 := lt_of_lt_of_le h0 h
    have he := exponent_mono q1 q2 h0 h
    obtain ⟨_, u1, _⟩ := roundMag_binade q1 h0
    obtain ⟨_, _, l2⟩ := roundMag_binade q2 h2
    by_cases hE : max (exponent q1) (-1022) = max (exponent q2) (-1022)
    · have hq : quantum q1 = quantum q2 := by unfold quantum; rw [hE]
      unfold roundMag
      rw [hq]
      apply mul_le_mul_of_nonneg_right _ (le_of_lt (quantum_pos q2))
      have : roundHalfEven (q1 / quantum q2) ≤ roundHalfEven (q2 / quantum q2) :=
        roundHalfEven_mono _ _ (div_le_div_of_nonneg_right h (le_of_lt (quantum_pos q2)))
      exact_mod_cast this
    · have hlt : max (exponent q1) (-1022) + 1 ≤ exponent q2 := by omega
      have hge : -1022 ≤ exponent q2 := by omega
      exact le_trans u1 (le_trans (zpow_le_zpow_right₀ (by norm_num) hlt) (l2 hge))

theorem zpow_natCast_two (t : Nat) : (2 : ℚ) ^ (t : Int) = ((2 ^ t : Nat) : ℚ) := by
  rw [zpow_natCast]
  push_cast
  rfl

/-- Values `k * 2^j` with `k < 2^53` and `j ≥ -1074` are float64 values. -/
theorem roundMag_repr (k : Nat) (j : Int) (hk : k < 2 ^ 53) (hj : -1074 ≤ j) :
    roundMag ((k : ℚ) * (2 : ℚ) ^ j) = (k : ℚ) * (2 : ℚ) ^ j := by
  rcases Nat.eq_zero_or_pos k with h0 | h0
  · subst h0
    simp [roundMag_zero]
  have two : (2 : ℚ) ≠ 0 := two_ne_zero
  have pj : (0 : ℚ) < (2 : ℚ) ^ j := zpow_pos (by norm_num) _
  have kq : (0 : ℚ) < (k : ℚ) := by exact_mod_cast h0
  have hq : (0 : ℚ) < (k : ℚ) * (2 : ℚ) ^ j := mul_pos kq pj
  obtain ⟨s1, _⟩ := exponent_spec _ hq
  have hlt : (k : ℚ) * (2 : ℚ) ^ j < (2 : ℚ) ^ (53 + j) := by
    rw [zpow_add₀ two]
    apply mul_lt_mul_of_pos_right _ pj
    have h53 : (2 : ℚ) ^ (53 : Int) = ((2 ^ 53 : Nat) : ℚ) := by norm_num
    rw [h53]
    exact_mod_cast hk
  have he : exponent ((k : ℚ) * (2 : ℚ) ^ j) < 53 + j :=
    (zpow_lt_zpow_iff_right₀ (by norm_num : (1 : ℚ) < 2)).mp (lt_of_le_of_lt s1 hlt)
  have hE : 0 ≤ j - (max (exponent ((k : ℚ) * (2 : ℚ) ^ j)) (-1022) - 52) := by omega
  obtain ⟨t, ht⟩ := Int.eq_ofNat_of_zero_le hE
  have hqu : (2 : ℚ) ^ j = ((2 ^ t : Nat) : ℚ) * quantum ((k : ℚ) * (2 : ℚ) ^ j) := by
    unfold quantum
    rw [← zpow_natCast_two t, ← zpow_add₀ two]
    congr 1
    omega
  have hup := quantum_pos ((k : ℚ) * (2 : ℚ) ^ j)
  unfold roundMag
  generalize quantum ((k : ℚ) * (2 : ℚ) ^ j) = Q at hqu hup
  generalize (2 : ℚ) ^ j = P at hqu
  subst hqu
  have hdiv : (k : ℚ) * (((2 ^ t : Nat) : ℚ) * Q) / Q = (((k * 2 ^ t : Nat) : Int) : ℚ) := by
    rw [div_eq_iff (ne_of_gt hup)]
    push_cast
    ring
  rw [hdiv, roundHalfEven_int]
  push_cast
  ring

theorem two53_lt : ((2 ^ 53 : Nat) : ℚ) < (2 : ℚ) ^ (1024 : Nat) := by
  have h : (2 : ℚ) ^ (53 : Nat) < (2 : ℚ) ^ (1024 : Nat) :=
    pow_lt_pow_right₀ (by norm_num) (by norm_num)
  have e : ((2 ^ 53 : Nat) : ℚ) = (2 : ℚ) ^ (53 : Nat) := by push_cast; rfl
  rw [e]
  exact h

theorem not_overflow (r : ℚ) (h : r ≤ ((2 ^ 53 : Nat) : ℚ)) : ¬ (2 : ℚ) ^ (1024 : Nat) ≤ r :=
  fun hc => absurd (lt_of_lt_of_le two53_lt hc) (not_lt.mpr h)

theorem roundMag_natCast (n : Nat) (h : n ≤ 2 ^ 53) : roundMag (n : ℚ) = (n : ℚ) := by
  rcases Nat.lt_or_ge n (2 ^ 53) with h1 | h1
  · have := roundMag_repr n 0 h1 (by norm_num)
    simpa using this
  · have e : n = 2 ^ 53 := le_antisymm h h1
    have := roundMag_repr (2 ^ 52) 1 (by norm_num) (by norm_num)
    rw [e]
    norm_num at this ⊢
    exact this

theorem roundMag_half (n : Nat) (h : n ≤ 2 ^ 53) : roundMag ((n : ℚ) / 2) = (n : ℚ) / 2 := by
  rcases Nat.lt_or_ge n (2 ^ 53) with h1 | h1
  · have := roundMag_repr n (-1) h1 (by norm_num)
    have e : (n : ℚ) * (2 : ℚ) ^ (-1 : Int) = (n : ℚ) / 2 := by
      rw [zpow_neg_one, div_eq_mul_inv]
    rw [e] at this
    exact this
  · have e : n = 2 ^ 53 := le_antisymm h h1
    have := roundMag_repr (2 ^ 52) 0 (by norm_num) (by norm_num)
    rw [e]
    norm_num at this ⊢
    exact this

theorem roundMag_le_nat (q : ℚ) (n : Nat) (hn : n ≤ 2 ^ 53) (h0 : 0 ≤ q) (h : q ≤ (n : ℚ)) :
    roundMag q ≤ (n : ℚ) := by
  have := roundMag_mono q n h0 h
  rwa [roundMag_natCast n hn] at this

theorem roundMag_ge_nat (q : ℚ) (n : Nat) (hn : n ≤ 2 ^ 53) (h : (n : ℚ) ≤ q) :
    (n : ℚ) ≤ roundMag q := by
  have := roundMag_mono n q (by positivity) h
  rwa [roundMag_natCast n hn] at this

theorem nearest_of_nonneg (q : ℚ) (h : 0 ≤ q) :
    nearest q = if (2 : ℚ) ^ (1024 : Nat) ≤ roundMag q then .posInf else .fin (roundMag q) := by
  unfold nearest
  rw [abs_of_nonneg h]
  simp only [h, if_true]

theorem nearest_of_neg (q : ℚ) (h : q < 0) :
    nearest q = if (2 : ℚ) ^ (1024 : Nat) ≤ roundMag (-q) then .negInf
      else .fin (- roundMag (-q)) := by
  unfold nearest
  rw [abs_of_neg h]
  simp only [not_le.mpr h, if_false]

/-- Rounding does not cross a whole number up to `2^53` from below. -/
theorem nearest_le (q : ℚ) (b : Int) (hb : |b| ≤ 2 ^ 53) (h : q ≤ (b : ℚ)) :
    nearest q = .negInf ∨ ∃ r, nearest q = .fin r ∧ r ≤ (b : ℚ) := by
  obtain ⟨hb1, hb2⟩ := abs_le.mp hb
  rcases le_or_lt 0 q with h0 | h0
  · right
    have hb0 : (0 : ℚ) ≤ (b : ℚ) := le_trans h0 h
    have hb0' : 0 ≤ b := by exact_mod_cast hb0
    obtain ⟨n, hn⟩ := Int.eq_ofNat_of_zero_le hb0'
    subst hn
    have hn53 : n ≤ 2 ^ 53 := by exact_mod_cast hb2
    have hr := roundMag_le_nat q n hn53 h0 (by simpa using h)
    have hlt : ¬ (2 : ℚ) ^ (1024 : Nat) ≤ roundMag q :=
      not_overflow _ (le_trans hr (by exact_mod_cast hn53))
    rw [nearest_of_nonneg q h0, if_neg hlt]
    exact ⟨_, rfl, by simpa using hr⟩
  · rw [nearest_of_neg q h0]
    split_ifs with hc
    · left; rfl
    · right
      refine ⟨_, rfl, ?_⟩
      have hR := roundMag_nonneg (-q) (by linarith)
      rcases le_or_lt 0 b with hb0 | hb0
      · have : (0 : ℚ) ≤ (b : ℚ) := by exact_mod_cast hb0
        linarith
      · obtain ⟨n, hn⟩ := Int.eq_ofNat_of_zero_le (show 0 ≤ -b by omega)
        have hbn : b = -(n : Int) := by omega
        subst hbn
        have hn53 : n ≤ 2 ^ 53 := by
          have : (n : Int) ≤ 2 ^ 53 := by omega
          exact_mod_cast this
        have hq : (n : ℚ) ≤ -q := by
          have : q ≤ -(n : ℚ) := by simpa using h
          linarith
        have := roundMag_ge_nat (-q) n hn53 hq
        push_cast
        linarith

/-- Rounding does not cross a whole number up to `2^53` from above. -/
theorem nearest_ge (q : ℚ) (a : Int) (ha : |a| ≤ 2 ^ 53) (h : (a : ℚ) ≤ q) :
    nearest q = .posInf ∨ ∃ r, nearest q = .fin r ∧ (a : ℚ) ≤ r := by
  obtain ⟨ha1, ha2⟩ := abs_le.mp ha
  rcases le_or_lt 0 q with h0 | h0
  · rw [nearest_of_nonneg q h0]
    split_ifs with hc
    · left; rfl
    · right
      refine ⟨_, rfl, ?_⟩
      have hR := roundMag_nonneg q h0
      rcases le_or_lt a 0 with ha0 | ha0
      · have : (a : ℚ) ≤ 0 := by exact_mod_cast ha0
        linarith
      · obtain ⟨n, hn⟩ := Int.eq_ofNat_of_zero_le (le_of_lt ha0)
        subst hn
        have hn53 : n ≤ 2 ^ 53 := by exact_mod_cast ha2
        have := roundMag_ge_nat q n hn53 (by simpa using h)
        simpa using this
  · right
    have ha0 : (a : ℚ) < 0 := lt_of_le_of_lt h h0
    have ha0' : a < 0 := by exact_mod_cast ha0
    obtain ⟨n, hn⟩ := Int.eq_ofNat_of_zero_le (show 0 ≤ -a by omega)
    have han : a = -(n : Int) := by omega
    subst han
    have hn53 : n ≤ 2 ^ 53 := by
      have : (n : Int) ≤ 2 ^ 53 := by omega
      exact_mod_cast this
    have hq : -q ≤ (n : ℚ) := by
      have : -(n : ℚ) ≤ q := by simpa using h
      linarith
    have hr := roundMag_le_nat (-q) n hn53 (by linarith) hq
    have hlt : ¬ (2 : ℚ) ^ (1024 : Nat) ≤ roundMag (-q) :=
      not_overflow _ (le_trans hr (by exact_mod_cast hn53))
    rw [nearest_of_neg q h0, if_neg hlt]
    refine ⟨_, rfl, ?_⟩
    push_cast
    linarith

theorem nearest_between (q : ℚ) (a b : Int) (ha : |a| ≤ 2 ^ 53) (hb : |b| ≤ 2 ^ 53)
    (h1 : (a : ℚ) ≤ q) (h2 : q ≤ (b : ℚ)) :
    ∃ r, nearest q = .fin r ∧ (a : ℚ) ≤ r ∧ r ≤ (b : ℚ) := by
  rcases nearest_le q b hb h2 with h | ⟨r, hr, hrb⟩
  · rcases nearest_ge q a ha h1 with h' | ⟨r', hr', _⟩
    · rw [h] at h'; cases h'
    · rw [h] at hr'; cases hr'
  · rcases nearest_ge q a ha h1 with h' | ⟨r', hr', hra⟩
    · rw [hr] at h'; cases h'
    · rw [hr] at hr'
      cases hr'
      exact ⟨r, hr, hra, hrb⟩

/-- Whole numbers up to `2^53` in magnitude are float64 values. -/
theorem nearest_int (n : Int) (h : |n| ≤ 2 ^ 53) : nearest (n : ℚ) = .fin (n : ℚ) := by
  obtain ⟨r, hr, h1, h2⟩ := nearest_between (n : ℚ) n n h h (le_refl _) (le_refl _)
  rw [hr, le_antisymm h2 h1]

theorem ofInt_eq (n : Int) (h : |n| ≤ 2 ^ 53) : ofInt n = .fin (n : ℚ) := nearest_int n h

/-- Halves of whole numbers up to `2^53` in magnitude are float64 values. -/
theorem nearest_half (n : Int) (h : |n| ≤ 2 ^ 53) :
    nearest ((n : ℚ) / 2) = .fin ((n : ℚ) / 2) := by
  obtain ⟨h1, h2⟩ := abs_le.mp h
  rcases le_or_lt 0 n with h0 | h0
  · obtain ⟨k, hk⟩ := Int.eq_ofNat_of_zero_le h0
    subst hk
    have hk53 : k ≤ 2 ^ 53 := by exact_mod_cast h2
    have hq : (0 : ℚ) ≤ ((k : Int) : ℚ) / 2 := by positivity
    rw [nearest_of_nonneg _ hq]
    have e : (((k : Int) : ℚ) / 2) = (k : ℚ) / 2 := by push_cast; rfl
    rw [e, roundMag_half k hk53]
    have hlt : ¬ (2 : ℚ) ^ (1024 : Nat) ≤ (k : ℚ) / 2 := by
      have h53 : (k : ℚ) ≤ ((2 ^ 53 : Nat) : ℚ) := by exact_mod_cast hk53
      have k0 : (0 : ℚ) ≤ (k : ℚ) := Nat.cast_nonneg k
      exact not_overflow _ (le_trans (half_le_self k0) h53)
    rw [if_neg hlt]
  · obtain ⟨k, hk⟩ := Int.eq_ofNat_of_zero_le (show 0 ≤ -n by omega)
    have hnk : n = -(k : Int) := by omega
    subst hnk
    have hk53 : k ≤ 2 ^ 53 := by
      have : (k : Int) ≤ 2 ^ 53 := by omega
      exact_mod_cast this
    have hk0 : (0 : ℚ) < (k : ℚ) := by
      have : (0 : Int) < (k : Int) := by omega
      exact_mod_cast this
    have hq : ((-(k : Int) : Int) : ℚ) / 2 < 0 := by
      push_cast
      linarith
    rw [nearest_of_neg _ hq]
    have e : -(((-(k : Int) : Int) : ℚ) / 2) = (k : ℚ) / 2 := by push_cast; ring
    rw [e, roundMag_half k hk53]
    have hlt : ¬ (2 : ℚ) ^ (1024 : Nat) ≤ (k : ℚ) / 2 := by
      have h53 : (k : ℚ) ≤ ((2 ^ 53 : Nat) : ℚ) := by exact_mod_cast hk53
      exact not_overflow _ (le_trans (half_le_self (le_of_lt hk0)) h53)
    rw [if_neg hlt]
    congr 1
    push_cast
    ring

/-! ## Theorems: format selection in float64 -/

theorem within_of_not_lt (lo hi : ℚ) (x : F64)
    (h : ¬ (lt x (.fin lo) = true ∨ lt (.fin hi) x = true)) : WithinOrNaN lo hi x := by
  cases x with
  | fin q =>
    right
    refine ⟨q, rfl, ?_, ?_⟩
    · exact not_lt.mp (fun hlt => h (Or.inl (by simpa [lt] using hlt)))
    · exact not_lt.mp (fun hlt => h (Or.inr (by simpa [lt] using hlt)))
  | posInf => exact absurd (Or.inr rfl) h
  | negInf => exact absurd (Or.inl rfl) h
  | nan => exact Or.inl rfl

theorem positive_of_not_le (x : F64) (h : ¬ le x (.fin 0) = true) :
    x = .nan ∨ lt (.fin 0) x = true := by
  cases x with
  | fin q =>
    right
    have : ¬ q ≤ 0 := fun hle => h (by simpa [le] using hle)
    simpa [lt] using not_le.mp this
  | posInf => exact Or.inr rfl
  | negInf => exact absurd rfl h
  | nan => exact Or.inl rfl

theorem defaultQuality_maps_float (c : Config) :
    c.defaultQuality.Formats = c.Formats ∧ c.defaultQuality.Backgrounds = c.Backgrounds ∧
    c.defaultQuality.Watermarks = c.Watermarks ∧ c.defaultQuality.Profiles = c.Profiles ∧
    c.defaultQuality.Settings.AssetsPath = c.Settings.AssetsPath := by
  unfold Config.defaultQuality
  split_ifs <;> exact ⟨rfl, rfl, rfl, rfl, rfl⟩

theorem defaultAssets_maps_float (S : Strings) (c : Config) :
    (c.defaultAssets S).Formats = c.Formats ∧ (c.defaultAssets S).Backgrounds = c.Backgrounds ∧
    (c.defaultAssets S).Watermarks = c.Watermarks ∧ (c.defaultAssets S).Profiles = c.Profiles ∧
    (c.defaultAssets S).Settings.JpegQuality = c.Settings.JpegQuality := by
  unfold Config.defaultAssets
  split_ifs <;> exact ⟨rfl, rfl, rfl, rfl, rfl⟩

theorem validateMaps_none_float (S : Strings) (c : Config) (h : c.validateMaps S = none) :
    (∀ k v, c.Formats.find k = some v → validateFormat S k v = none) ∧
    (∀ k v, c.Formats.find k = some v → S.ToLower (S.TrimSpace v.Type_) = FormatTypeAuto →
      ∀ ref ∈ v.FromList, checkFromList S c.Formats k ref = none) ∧
    (∀ k v, c.Backgrounds.find k = some v → validateBackground S k v = none) ∧
    (∀ k v, c.Watermarks.find k = some v → validateWatermark S k v = none) ∧
    (∀ k v, c.Profiles.find k = some v → c.validateProfile S k v = none) := by
  unfold Config.validateMaps at h
  split at h
  · simp at h
  · rename_i hf
    split at h
    · simp at h
    · rename_i hr
      split at h
      · simp at h
      · rename_i hb
        split at h
        · simp at h
        · rename_i hw
          rw [firstErr_none_iff] at hf hr hb hw h
          refine ⟨?_, ?_, ?_, ?_, ?_⟩
          · intro k v hk
            exact hf (k, v) (GoMap.range_mem _ k v hk)
          · intro k v hk hauto ref href
            have := hr (k, v) (GoMap.range_mem _ k v hk)
            simp only [hauto, ne_eq, not_true_eq_false, if_false] at this
            exact (firstErr_none_iff _ _).mp this ref href
          · intro k v hk
            exact hb (k, v) (GoMap.range_mem _ k v hk)
          · intro k v hk
            exact hw (k, v) (GoMap.range_mem _ k v hk)
          · intro k v hk
            exact h (k, v) (GoMap.range_mem _ k v hk)

/-- What a successful `Validate` establishes. -/
theorem Validate_ok_float (S : Strings) (c c' : Config) (h : c.Validate S = (c', none)) :
    c'.Formats = c.Formats ∧ c'.Backgrounds = c.Backgrounds ∧ c'.Watermarks = c.Watermarks ∧
    c'.Profiles = c.Profiles ∧
    (1 ≤ c'.Settings.JpegQuality ∧ c'.Settings.JpegQuality ≤ 100) ∧
    c'.validateMaps S = none := by
  unfold Config.Validate at h
  simp only at h
  split_ifs at h with hq
  · simp at h
  · simp only [Prod.mk.injEq] at h
    obtain ⟨h1, h2⟩ := h
    have dq := defaultQuality_maps_float c
    have da := defaultAssets_maps_float S c.defaultQuality
    subst h1
    refine ⟨da.1.trans dq.1, da.2.1.trans dq.2.1, da.2.2.1.trans dq.2.2.1,
      da.2.2.2.1.trans dq.2.2.2.1, ?_, h2⟩
    rw [da.2.2.2.2]
    constructor
    · exact not_lt.mp (fun hlt => hq (Or.inl hlt))
    · exact not_lt.mp (fun hlt => hq (Or.inr hlt))

/-- The result of `ResolveProfile` on a profile whose references all validate. -/
theorem ResolveProfile_succeeds_float (S : Strings) (c : Config) (name : String) (prof : Profile)
    (hv : c.validateMaps S = none) (hp : c.Profiles.find name = some prof) :
    ∃ f, c.Formats.find prof.FormatRef = some f ∧
      (c.ResolveProfile S name).2 = none ∧ (c.ResolveProfile S name).1.Format = f ∧
      (prof.WatermarkRef = "" → (c.ResolveProfile S name).1.Watermark = none) := by
  obtain ⟨vf, _, vb, vw, vp⟩ := validateMaps_none_float S c hv
  have hprof := vp name prof hp
  unfold Config.validateProfile at hprof
  split_ifs at hprof with h1 h2 h3 h4 h5 h6
  cases hf : c.Formats.find prof.FormatRef with
  | none => simp [hf] at h4
  | some f =>
    cases hb : c.Backgrounds.find prof.BackgroundRef with
    | none => simp [hb] at h3
    | some bg =>
      have hvf := vf prof.FormatRef f hf
      have hvb := vb prof.BackgroundRef bg hb
      refine ⟨f, rfl, ?_⟩
      unfold Config.ResolveProfile
      simp only [hp, hf, hvf, hb, hvb]
      by_cases hw : prof.WatermarkRef = ""
      · simp [hw]
      · cases hwf : c.Watermarks.find prof.WatermarkRef with
        | none => simp [hw, hwf] at h5
        | some wm =>
          have hvw := vw prof.WatermarkRef wm hwf
          simp [hw, hwf, hvw]

theorem validateFormat_none_float (S : Strings) (name : String) (f : Format)
    (h : validateFormat S name f = none) :
    ((S.ToLower (S.TrimSpace f.Type_) = FormatTypeFixed ∧ 0 < f.Width ∧ 0 < f.Height ∧
        f.FromList = []) ∨
     (S.ToLower (S.TrimSpace f.Type_) = FormatTypeAuto ∧ f.FromList ≠ [] ∧ f.Width = 0 ∧
        f.Height = 0)) ∧
    WithinOrNaN 0 50 f.PaddingPercent := by
  unfold validateFormat at h
  simp only at h
  split at h
  · simp at h
  · rename_i hk
    split_ifs at h with hpad
    refine ⟨?_, within_of_not_lt _ _ _ hpad⟩
    split_ifs at hk with h1 h2 h3 h4 h5 h6
    · refine Or.inl ⟨h1, ?_, ?_, ?_⟩
      · exact not_le.mp (fun hle => h2 (Or.inl hle))
      · exact not_le.mp (fun hle => h2 (Or.inr hle))
      · exact List.length_eq_zero.mp (Nat.le_zero.mp (not_lt.mp h3))
    · refine Or.inr ⟨h4, ?_, ?_, ?_⟩
      · exact fun hnil => h5 (by simp [hnil])
      · exact not_not.mp (fun hne => h6 (Or.inl hne))
      · exact not_not.mp (fun hne => h6 (Or.inr hne))

/-- The part of C8 that holds: after a successful `Validate` every format is either fixed
with positive width and height and no `from_list`, or auto with a non-empty `from_list`,
width 0 and height 0 and with every listed name a key of `Formats` that maps to a fixed
format; its padding is in [0, 50] or `NaN`. -/
theorem Validate_formats_well_formed_or_nan (S : Strings) (c : Config)
    (h : (c.Validate S).2 = none) :
    ∀ name f, c.Formats.find name = some f → FormatWellFormed S c.Formats f := by
  intro name f hfind
  rcases hv : c.Validate S with ⟨c', e⟩
  rw [hv] at h
  simp only at h
  subst h
  obtain ⟨hfm, _, _, _, _, hmaps⟩ := Validate_ok_float S c c' hv
  obtain ⟨vf, vr, _, _, _⟩ := validateMaps_none_float S c' hmaps
  rw [hfm] at vf vr
  obtain ⟨hkind, hpad⟩ := validateFormat_none_float S name f (vf name f hfind)
  refine ⟨?_, hpad⟩
  rcases hkind with hfix | ⟨hauto, hne, hw, hh⟩
  · exact Or.inl hfix
  · refine Or.inr ⟨hauto, hne, hw, hh, ?_⟩
    intro n hn
    have hc := vr name f hfind hauto n hn
    unfold checkFromList at hc
    cases hcf : c.Formats.find n with
    | none => simp [hcf] at hc
    | some cand =>
      simp only [hcf] at hc
      split_ifs at hc with hty
      exact ⟨cand, rfl, not_not.mp hty⟩

theorem validateWatermark_none_float (S : Strings) (name : String) (wm : Watermark)
    (h : validateWatermark S name wm = none) :
    (wm.Size = .nan ∨ lt (.fin 0) wm.Size = true) ∧ WithinOrNaN 0 1 wm.Opacity := by
  unfold validateWatermark at h
  split_ifs at h with h1 h2 h3 h4
  exact ⟨positive_of_not_le _ h2, within_of_not_lt _ _ _ h3⟩

theorem validateProfile_none_float (S : Strings) (c : Config) (name : String) (prof : Profile)
    (h : c.validateProfile S name prof = none) :
    (prof.JpegQuality ≠ 0 → 1 ≤ prof.JpegQuality ∧ prof.JpegQuality ≤ 100) ∧
    (∀ p, prof.PaddingPercent = some p → WithinOrNaN 0 50 p) := by
  unfold Config.validateProfile at h
  split_ifs at h with h1 h2 h3 h4 h5 h6
  constructor
  · intro hq
    have hr : ¬ (prof.JpegQuality < 1 ∨ prof.JpegQuality > 100) := fun hr => h6 ⟨hq, hr⟩
    omega
  · intro p hp
    rw [hp] at h
    simp only at h
    split_ifs at h with h7
    exact within_of_not_lt _ _ _ h7

/-- The parts of a successful `ResolveProfile` that carry the checked values. -/
theorem ResolveProfile_parts_float (S : Strings) (c : Config) (name : String) (r : ResolvedProfile)
    (h : c.ResolveProfile S name = (r, none)) :
    ∃ prof f, c.Profiles.find name = some prof ∧ c.Formats.find prof.FormatRef = some f ∧
      validateFormat S prof.FormatRef f = none ∧
      r.PaddingPercent = prof.PaddingPercent.getD f.PaddingPercent ∧
      r.JpegQuality = (if prof.JpegQuality ≠ 0 then prof.JpegQuality else c.Settings.JpegQuality) ∧
      r.AssetsPath = (if S.TrimSpace c.Settings.AssetsPath = "" then "assets"
        else S.TrimSpace c.Settings.AssetsPath) ∧
      ∀ wm, r.Watermark = some wm → validateWatermark S prof.WatermarkRef wm = none := by
  unfold Config.ResolveProfile at h
  cases hp : c.Profiles.find name with
  | none => simp [hp] at h
  | some prof =>
    simp only [hp] at h
    cases hf : c.Formats.find prof.FormatRef with
    | none => simp [hf] at h
    | some f =>
      simp only [hf] at h
      cases hvf : validateFormat S prof.FormatRef f with
      | some e => simp [hvf] at h
      | none =>
        simp only [hvf] at h
        cases hb : c.Backgrounds.find prof.BackgroundRef with
        | none => simp [hb] at h
        | some bg =>
          simp only [hb] at h
          cases hvb : validateBackground S prof.BackgroundRef bg with
          | some e => simp [hvb] at h
          | none =>
            simp only [hvb] at h
            refine ⟨prof, f, rfl, hf, hvf, ?_⟩
            by_cases hw : prof.WatermarkRef = ""
            · simp only [hw, ne_eq, not_true_eq_false, if_false, Prod.mk.injEq, and_true] at h
              subst h
              cases hpp : prof.PaddingPercent <;> simp
            · simp only [hw, ne_eq, not_false_eq_true, if_true] at h
              cases hwf : c.Watermarks.find prof.WatermarkRef with
              | none => simp [hwf] at h
              | some wm =>
                simp only [hwf] at h
                cases hvw : validateWatermark S prof.WatermarkRef wm with
                | some e => simp [hvw] at h
                | none =>
                  simp only [hvw, Prod.mk.injEq, and_true] at h
                  subst h
                  cases hpp : prof.PaddingPercent <;> simp [hvw]

/-- The part of C23 that holds: on the configuration that a successful `Validate` leaves,
`ResolveProfile` succeeds for a name exactly when the name is a key of `Profiles`, and every
resolved profile has a JPEG quality in 1..100, a padding percent in [0, 50] or `NaN`, a
non-empty assets path and, when it has a watermark, a watermark whose size is above 0 or
`NaN` and whose opacity is in [0, 1] or `NaN`. -/
theorem Validate_resolved_invariants_or_nan (S : Strings) (c : Config)
    (h : (c.Validate S).2 = none) (name : String) :
    (((c.Validate S).1.ResolveProfile S name).2 = none ↔
      ∃ prof, (c.Validate S).1.Profiles.find name = some prof) ∧
    ∀ r, (c.Validate S).1.ResolveProfile S name = (r, none) →
      1 ≤ r.JpegQuality ∧ r.JpegQuality ≤ 100 ∧ WithinOrNaN 0 50 r.PaddingPercent ∧
      r.AssetsPath ≠ "" ∧
      ∀ wm, r.Watermark = some wm →
        (wm.Size = .nan ∨ lt (.fin 0) wm.Size = true) ∧ WithinOrNaN 0 1 wm.Opacity := by
  have hpair : c.Validate S = ((c.Validate S).1, none) := Prod.ext rfl h
  obtain ⟨_, _, _, _, hq, hv⟩ := Validate_ok_float S c (c.Validate S).1 hpair
  obtain ⟨vf, _, vb, vw, vp⟩ := validateMaps_none_float S (c.Validate S).1 hv
  constructor
  · constructor
    · intro hres
      cases hp : (c.Validate S).1.Profiles.find name with
      | some prof => exact ⟨prof, rfl⟩
      | none =>
        exfalso
        unfold Config.ResolveProfile at hres
        simp [hp] at hres
    · rintro ⟨prof, hp⟩
      obtain ⟨f, _, hres, _⟩ := ResolveProfile_succeeds_float S (c.Validate S).1 name prof hv hp
      exact hres
  · intro r hr
    obtain ⟨prof, f, hp, hf, hvf, hpad, hjq, hap, hwm⟩ :=
      ResolveProfile_parts_float S (c.Validate S).1 name r hr
    obtain ⟨hpq, hpp⟩ := validateProfile_none_float S (c.Validate S).1 name prof (vp name prof hp)
    obtain ⟨_, hfpad⟩ := validateFormat_none_float S prof.FormatRef f hvf
    have hquality : 1 ≤ r.JpegQuality ∧ r.JpegQuality ≤ 100 := by
      rw [hjq]
      by_cases hz : prof.JpegQuality = 0
      · rw [if_neg (by simpa using hz)]
        exact hq
      · rw [if_pos hz]
        exact hpq hz
    have hpadding : WithinOrNaN 0 50 r.PaddingPercent := by
      rw [hpad]
      cases hpo : prof.PaddingPercent with
      | none => exact hfpad
      | some p => exact hpp p hpo
    have hassets : r.AssetsPath ≠ "" := by
      rw [hap]
      split_ifs with ht
      · decide
      · exact ht
    exact ⟨hquality.1, hquality.2, hpadding, hassets,
      fun wm hw => validateWatermark_none_float S prof.WatermarkRef wm (hwm wm hw)⟩

/-! ## Theorems: configuration values that are not numbers -/

/-- C8, evaluated: a configuration whose fixed format has the padding `NaN` passes
`Validate`, because `NaN < 0` and `NaN > 50` are both false; the padding of the validated
format is not in [0, 50]. -/
theorem Validate_accepts_nan_padding :
    (nanFormatConfig.Validate asciiStrings).2 = none ∧
    (nanFormatConfig.Validate asciiStrings).1.Formats.find "square"
      = some ⟨"fixed", 100, 100, [], .nan⟩ ∧
    le (.fin 0) F64.nan = false ∧ le F64.nan (.fin 50) = false := by
  decide

/-- C23, evaluated: a configuration whose profile overrides the padding with `NaN` and whose
watermark has the size and the opacity `NaN` passes `Validate`, and `ResolveProfile` returns
for it a profile without error whose padding, watermark size and watermark opacity are
`NaN`. -/
theorem ResolveProfile_returns_nan :
    (nanProfileConfig.Validate asciiStrings).2 = none ∧
    ((nanProfileConfig.Validate asciiStrings).1.ResolveProfile asciiStrings "default").2 = none ∧
    ((nanProfileConfig.Validate asciiStrings).1.ResolveProfile asciiStrings "default").1.PaddingPercent
      = .nan ∧
    ((nanProfileConfig.Validate asciiStrings).1.ResolveProfile asciiStrings "default").1.Watermark
      = some ⟨"roboto.ttf", .nan, "#ffffff", .nan, "", .fin 0, .fin 0, false, "", .fin 0⟩ ∧
    le (.fin 0) F64.nan = false ∧ le F64.nan (.fin 50) = false ∧
    lt (.fin 0) F64.nan = false ∧ le F64.nan (.fin 1) = false := by
  decide

/-! ## Theorems: the available area of the fit in float64 -/

theorem abs_le_of_range (n : Int) (h0 : 0 ≤ n) (h : n ≤ 2 ^ 53) : |n| ≤ 2 ^ 53 :=
  abs_le.mpr ⟨by omega, h⟩

theorem Max_zero_cases (p : F64) (hp : p ≠ .nan) :
    Max p (.fin 0) = .posInf ∨ ∃ r, Max p (.fin 0) = .fin r ∧ 0 ≤ r := by
  cases p with
  | fin q =>
    right
    by_cases h : q < 0
    · exact ⟨0, by simp [Max, h], le_refl 0⟩
    · exact ⟨q, by simp [Max, h], not_lt.mp h⟩
  | posInf => left; rfl
  | negInf => right; exact ⟨0, rfl, le_refl 0⟩
  | nan => exact absurd rfl hp

theorem mul_pos_const_cases (x : F64) (c : ℚ) (hc : 0 < c)
    (hx : x = .posInf ∨ ∃ r, x = .fin r ∧ 0 ≤ r) :
    mul x (.fin c) = .posInf ∨ ∃ r, mul x (.fin c) = .fin r ∧ 0 ≤ r := by
  rcases hx with h | ⟨r, h, hr⟩
  · subst h
    left
    simp [mul, ne_of_gt hc, hc]
  · subst h
    have := nearest_ge (r * c) 0 (by norm_num) (by simpa using mul_nonneg hr (le_of_lt hc))
    simpa [mul] using this

theorem div_pos_const_cases (x : F64) (c : ℚ) (hc : 0 < c)
    (hx : x = .posInf ∨ ∃ r, x = .fin r ∧ 0 ≤ r) :
    div x (.fin c) = .posInf ∨ ∃ r, div x (.fin c) = .fin r ∧ 0 ≤ r := by
  rcases hx with h | ⟨r, h, hr⟩
  · subst h
    left
    simp [div, le_of_lt hc]
  · subst h
    have := nearest_ge (r / c) 0 (by norm_num) (by simpa using div_nonneg hr (le_of_lt hc))
    simpa [div, ne_of_gt hc] using this

theorem one_sub_cases (x : F64) (hx : x = .posInf ∨ ∃ r, x = .fin r ∧ 0 ≤ r) :
    sub (.fin 1) x = .negInf ∨ ∃ r, sub (.fin 1) x = .fin r ∧ r ≤ 1 := by
  rcases hx with h | ⟨r, h, hr⟩
  · subst h
    left
    rfl
  · subst h
    have := nearest_le (1 + -r) 1 (by norm_num) (by simpa using hr)
    simpa [sub, neg, add] using this

theorem mul_canvas_cases (W : Int) (h1 : 1 ≤ W) (h2 : W ≤ 2 ^ 53) (t : F64)
    (ht : t = .negInf ∨ ∃ r, t = .fin r ∧ r ≤ 1) :
    mul (.fin (W : ℚ)) t = .negInf ∨ ∃ r, mul (.fin (W : ℚ)) t = .fin r ∧ r ≤ (W : ℚ) := by
  have hW : (0 : ℚ) < (W : ℚ) := by exact_mod_cast (show (0 : Int) < W by omega)
  rcases ht with h | ⟨r, h, hr⟩
  · subst h
    left
    simp [mul, ne_of_gt hW, hW]
  · subst h
    have := nearest_le ((W : ℚ) * r) W (abs_le_of_range W (by omega) h2) (by nlinarith)
    simpa [mul] using this

/-- The available side computed by `fitImage` is a finite value between 1 and the target. -/
theorem availSide_spec (target : Int) (p : F64) (hp : p ≠ .nan) (h1 : 1 ≤ target)
    (h2 : target ≤ 2 ^ 53) :
    ∃ a, availSide target p = .fin a ∧ 1 ≤ a ∧ a ≤ (target : ℚ) := by
  have hc := mul_canvas_cases target h1 h2 _
    (one_sub_cases _ (div_pos_const_cases _ 100 (by norm_num)
      (mul_pos_const_cases _ 2 (by norm_num) (Max_zero_cases p hp))))
  have hT : (1 : ℚ) ≤ (target : ℚ) := by exact_mod_cast h1
  unfold availSide
  rw [ofInt_eq target (abs_le_of_range target (by omega) h2)]
  rcases hc with h | ⟨r, h, hr⟩
  · rw [h]
    exact ⟨1, by simp [lt], le_refl 1, hT⟩
  · rw [h]
    by_cases hlt : r < 1
    · exact ⟨1, by simp [lt, hlt], le_refl 1, hT⟩
    · exact ⟨r, by simp [lt, hlt], not_lt.mp hlt, hr⟩

theorem lt_Min (c : ℚ) (u v : F64) (h : lt (.fin c) (Min u v) = true) :
    lt (.fin c) u = true ∧ lt (.fin c) v = true := by
  cases u <;> cases v <;> simp only [Min, lt] at h ⊢ <;> try (exact absurd h (by decide))
  all_goals first
    | exact ⟨h, trivial⟩
    | exact ⟨trivial, h⟩
    | exact ⟨trivial, trivial⟩
    | skip
  rename_i a b
  split_ifs at h with hab
  · simp only [lt, decide_eq_true_eq] at h ⊢
    exact ⟨h, lt_trans h hab⟩
  · simp only [lt, decide_eq_true_eq] at h ⊢
    exact ⟨lt_of_lt_of_le h (not_lt.mp hab), h⟩

/-- A quotient above 1 needs a divisor below the dividend. -/
theorem lt_one_div (a : ℚ) (s : Int) (ha1 : 1 ≤ a) (ha2 : a ≤ ((2 ^ 53 : Nat) : ℚ))
    (h : lt (.fin 1) (div (.fin a) (ofInt s)) = true) : (s : ℚ) < a := by
  by_contra hns
  have hsa : a ≤ (s : ℚ) := not_lt.mp hns
  have hs1 : (1 : ℚ) ≤ (s : ℚ) := le_trans ha1 hsa
  have hs1' : 1 ≤ s := by exact_mod_cast hs1
  have key : ∀ r : ℚ, a ≤ r → lt (.fin 1) (div (.fin a) (.fin r)) = false := by
    intro r har
    have hr : 0 < r := lt_of_lt_of_le (lt_of_lt_of_le zero_lt_one ha1) har
    have hq : a / r ≤ ((1 : Int) : ℚ) := by
      rw [div_le_iff₀ hr]
      simpa using har
    rcases nearest_le (a / r) 1 (by norm_num) hq with h' | ⟨x, h', hx⟩
    · simp [div, ne_of_gt hr, h', lt]
    · simp only [div, ne_of_gt hr, if_false, h', lt, decide_eq_false_iff_not, not_lt]
      simpa using hx
  rcases le_or_lt s (2 ^ 53) with hle | hgt
  · rw [ofInt_eq s (abs_le_of_range s (by omega) hle), key _ hsa] at h
    cases h
  · have h53 : (((2 ^ 53 : Int)) : ℚ) ≤ (s : ℚ) := by exact_mod_cast (le_of_lt hgt)
    rcases nearest_ge (s : ℚ) (2 ^ 53) (by norm_num) h53 with h' | ⟨x, h', hx⟩
    · unfold ofInt at h
      rw [h'] at h
      simp only [div, lt] at h
      exact absurd h (by norm_num)
    · unfold ofInt at h
      rw [h', key x (le_trans ha2 (by simpa using hx))] at h
      cases h

theorem fitImage_branches (G : Imaging) (src : Image) (targetW targetH : Int) (p : F64)
    (noUpscale : Bool) :
    fitImage G src targetW targetH p noUpscale =
      (if noUpscale = true ∧ lt (.fin 1) (fitScale src targetW targetH p) = true then
        (src, div (sub (ofInt targetW) (ofInt src.Dx)) (.fin 2),
          div (sub (ofInt targetH) (ofInt src.Dy)) (.fin 2))
      else
        (G.Fit src (toInt (availSide targetW p)) (toInt (availSide targetH p)),
          div (sub (ofInt targetW)
            (ofInt (G.Fit src (toInt (availSide targetW p)) (toInt (availSide targetH p))).Dx))
            (.fin 2),
          div (sub (ofInt targetH)
            (ofInt (G.Fit src (toInt (availSide targetW p)) (toInt (availSide targetH p))).Dy))
            (.fin 2))) := by
  unfold fitImage fitScale availSide
  simp only
  split_ifs <;> rfl

/-- The centring offset of a fitted side `d` on a canvas side `W` is exact. -/
theorem offset_exact (W d : Int) (h0 : 0 ≤ d) (hd : d ≤ W) (hW : W ≤ 2 ^ 53) :
    div (sub (ofInt W) (ofInt d)) (.fin 2) = .fin (((W : ℚ) - (d : ℚ)) / 2) := by
  rw [ofInt_eq W (abs_le_of_range W (by omega) hW), ofInt_eq d (abs_le_of_range d h0 (by omega))]
  have e1 : sub (.fin (W : ℚ)) (.fin (d : ℚ)) = .fin (((W - d : Int) : ℚ)) := by
    have := nearest_int (W - d) (abs_le_of_range (W - d) (by omega) (by omega))
    simp only [sub, neg, add]
    rw [← this]
    congr 1
    push_cast
    ring
  rw [e1]
  have e2 := nearest_half (W - d) (abs_le_of_range (W - d) (by omega) (by omega))
  simp only [div]
  rw [if_neg (by norm_num), e2]
  congr 1
  push_cast
  ring

theorem toInt_of_range (a : ℚ) (W : Int) (h1 : 1 ≤ a) (h2 : a ≤ (W : ℚ)) (hW : W ≤ 2 ^ 53) :
    toInt (.fin a) = goInt a ∧ 1 ≤ goInt a ∧ ((goInt a : Int) : ℚ) ≤ a ∧ goInt a ≤ W := by
  obtain ⟨g1, g2⟩ := goInt_of_one_le a h1
  have g3 : goInt a ≤ W := by
    have : ((goInt a : Int) : ℚ) ≤ (W : ℚ) := le_trans g2 h2
    exact_mod_cast this
  refine ⟨?_, g1, g2, g3⟩
  simp only [toInt]
  rw [if_pos]
  constructor
  · have : -(2 : Int) ^ 63 ≤ 1 := by norm_num
    omega
  · have : (2 : Int) ^ 53 < 2 ^ 63 := by norm_num
    omega

/-- In the no-resize branch the source is below the float64 available area. -/
theorem fitScale_gt_one_float (src : Image) (targetW targetH : Int) (p : F64) (hp : p ≠ .nan)
    (hW1 : 1 ≤ targetW) (hW2 : targetW ≤ 2 ^ 53) (hH1 : 1 ≤ targetH) (hH2 : targetH ≤ 2 ^ 53)
    (hs : lt (.fin 1) (fitScale src targetW targetH p) = true) :
    ∃ a b, availSide targetW p = .fin a ∧ availSide targetH p = .fin b ∧
      1 ≤ a ∧ a ≤ (targetW : ℚ) ∧ 1 ≤ b ∧ b ≤ (targetH : ℚ) ∧
      (src.Dx : ℚ) < a ∧ (src.Dy : ℚ) < b := by
  obtain ⟨a, ha, a1, a2⟩ := availSide_spec targetW p hp hW1 hW2
  obtain ⟨b, hb, b1, b2⟩ := availSide_spec targetH p hp hH1 hH2
  unfold fitScale at hs
  rw [ha, hb] at hs
  obtain ⟨s1, s2⟩ := lt_Min 1 _ _ hs
  have cW : (targetW : ℚ) ≤ ((2 ^ 53 : Nat) : ℚ) := by exact_mod_cast hW2
  have cH : (targetH : ℚ) ≤ ((2 ^ 53 : Nat) : ℚ) := by exact_mod_cast hH2
  exact ⟨a, b, ha, hb, a1, a2, b1, b2, lt_one_div a src.Dx a1 (le_trans a2 cW) s1,
    lt_one_div b src.Dy b1 (le_trans b2 cH) s2⟩

theorem renderImage_canvas (G : Imaging) (P : Painter) (src : Image)
    (resolved : ResolvedProfile) (format : Format) (text : String) (out : Image)
    (h : (renderImage G P src resolved format text).1 = some out) :
    out.Dx = format.Width ∧ out.Dy = format.Height := by
  unfold renderImage at h
  simp only at h
  split_ifs at h <;> (repeat' split at h) <;>
    first
    | (simp only [Option.some.injEq] at h; subst h; exact ⟨rfl, rfl⟩)
    | (simp at h)

/-! ## Theorems: the scale of a source below the available area -/

theorem roundHalfEven_above_half (x : ℚ) (n : Int) (h : (n : ℚ) + 1 / 2 < x) :
    n + 1 ≤ roundHalfEven x := by
  have hn : n ≤ ⌊x⌋ := Int.le_floor.mpr (by linarith)
  rcases lt_or_eq_of_le hn with hlt | heq
  · have := roundHalfEven_ge x ⌊x⌋ (Int.floor_le x)
    omega
  · unfold roundHalfEven
    have hfr : (1 : ℚ) / 2 < x - (⌊x⌋ : ℚ) := by
      rw [← heq]
      linarith
    rw [if_neg (not_lt.mpr (le_of_lt hfr)), if_pos hfr]
    omega

theorem exponent_eq_zero (q : ℚ) (h1 : 1 ≤ q) (h2 : q < 2) : exponent q = 0 := by
  obtain ⟨s1, s2⟩ := exponent_spec q (lt_of_lt_of_le zero_lt_one h1)
  have one2 : (1 : ℚ) < 2 := by norm_num
  have a : (2 : ℚ) ^ exponent q < (2 : ℚ) ^ (1 : Int) := by
    rw [zpow_one]
    exact lt_of_le_of_lt s1 h2
  have b : (2 : ℚ) ^ (0 : Int) < (2 : ℚ) ^ (exponent q + 1) := by
    rw [zpow_zero]
    exact lt_of_le_of_lt h1 s2
  have a' := (zpow_lt_zpow_iff_right₀ one2).mp a
  have b' := (zpow_lt_zpow_iff_right₀ one2).mp b
  omega

theorem exponent_nonneg (q : ℚ) (h1 : 1 ≤ q) : 0 ≤ exponent q := by
  obtain ⟨_, s2⟩ := exponent_spec q (lt_of_lt_of_le zero_lt_one h1)
  have one2 : (1 : ℚ) < 2 := by norm_num
  have b : (2 : ℚ) ^ (0 : Int) < (2 : ℚ) ^ (exponent q + 1) := by
    rw [zpow_zero]
    exact lt_of_le_of_lt h1 s2
  have b' := (zpow_lt_zpow_iff_right₀ one2).mp b
  omega

/-- A rational above `1 + 2^-53` rounds to a float64 value above 1. -/
theorem roundMag_above_one (q : ℚ) (h : 1 + (2 : ℚ) ^ (-53 : Int) < q) : 1 < roundMag q := by
  have p53 : (0 : ℚ) < (2 : ℚ) ^ (-53 : Int) := zpow_pos (by norm_num) _
  rcases lt_or_le q 2 with h2 | h2
  · have he := exponent_eq_zero q (by linarith) h2
    have hq : quantum q = (2 : ℚ) ^ (-52 : Int) := by
      unfold quantum
      rw [he]
      norm_num
    have e52 : (2 : ℚ) ^ (-52 : Int) * (2 : ℚ) ^ (52 : Int) = 1 := by
      rw [← zpow_add₀ (two_ne_zero)]
      norm_num
    have e53 : (2 : ℚ) ^ (-53 : Int) * (2 : ℚ) ^ (52 : Int) = 1 / 2 := by
      rw [← zpow_add₀ (two_ne_zero)]
      norm_num
    have p52 : (0 : ℚ) < (2 : ℚ) ^ (52 : Int) := zpow_pos (by norm_num) _
    have hdiv : q / (2 : ℚ) ^ (-52 : Int) = q * (2 : ℚ) ^ (52 : Int) := by
      rw [div_eq_iff (ne_of_gt (zpow_pos (by norm_num) _))]
      rw [mul_assoc, mul_comm ((2 : ℚ) ^ (52 : Int)), e52, mul_one]
    have hx : ((2 ^ 52 : Int) : ℚ) + 1 / 2 < q / (2 : ℚ) ^ (-52 : Int) := by
      rw [hdiv]
      have : (1 + (2 : ℚ) ^ (-53 : Int)) * (2 : ℚ) ^ (52 : Int) < q * (2 : ℚ) ^ (52 : Int) :=
        mul_lt_mul_of_pos_right h p52
      have e : (1 + (2 : ℚ) ^ (-53 : Int)) * (2 : ℚ) ^ (52 : Int)
          = ((2 ^ 52 : Int) : ℚ) + 1 / 2 := by
        rw [add_mul, e53, one_mul]
        norm_num
      rw [e] at this
      exact this
    have hm := roundHalfEven_above_half _ _ hx
    unfold roundMag
    rw [hq]
    have hm' : ((2 ^ 52 : Int) : ℚ) + 1 ≤ (roundHalfEven (q / (2 : ℚ) ^ (-52 : Int)) : ℚ) := by
      exact_mod_cast hm
    have p52' : (0 : ℚ) < (2 : ℚ) ^ (-52 : Int) := zpow_pos (by norm_num) _
    have : (((2 ^ 52 : Int) : ℚ) + 1) * (2 : ℚ) ^ (-52 : Int)
        ≤ (roundHalfEven (q / (2 : ℚ) ^ (-52 : Int)) : ℚ) * (2 : ℚ) ^ (-52 : Int) :=
      mul_le_mul_of_nonneg_right hm' (le_of_lt p52')
    have e1 : (((2 ^ 52 : Int) : ℚ) + 1) * (2 : ℚ) ^ (-52 : Int)
        = 1 + (2 : ℚ) ^ (-52 : Int) := by
      rw [add_mul, one_mul]
      congr 1
      have : ((2 ^ 52 : Int) : ℚ) = (2 : ℚ) ^ (52 : Int) := by norm_num
      rw [this, mul_comm, e52]
    rw [e1] at this
    linarith
  · have := roundMag_mono 2 q (by norm_num) h2
    have e2 : roundMag 2 = 2 := by
      have := roundMag_natCast 2 (by norm_num)
      simpa using this
    rw [e2] at this
    linarith

/-- A float64 magnitude is a whole multiple of its quantum. -/
theorem multiple_of_quantum (a : ℚ) (h : roundMag a = a) :
    ∃ m : Int, a = (m : ℚ) * quantum a :=
  ⟨roundHalfEven (a / quantum a), h.symm⟩

/-- Above a positive whole number `s` below `2^53`, the next float64 value is at least one
quantum of `s` away. -/
theorem next_float_gap (s : Nat) (a : ℚ) (hs1 : 1 ≤ s) (hs : s ≤ 2 ^ 53)
    (hrep : roundMag a = a) (hlt : (s : ℚ) < a) :
    (s : ℚ) + quantum (s : ℚ) ≤ a := by
  have hs1q : (1 : ℚ) ≤ (s : ℚ) := by exact_mod_cast hs1
  have ha1 : (1 : ℚ) ≤ a := le_trans hs1q (le_of_lt hlt)
  have es := exponent_nonneg _ hs1q
  have ea := exponent_nonneg _ ha1
  have hmono := exponent_mono (s : ℚ) a (lt_of_lt_of_le zero_lt_one hs1q) (le_of_lt hlt)
  obtain ⟨k, hk⟩ := multiple_of_quantum (s : ℚ) (roundMag_natCast s hs)
  obtain ⟨m, hm⟩ := multiple_of_quantum a hrep
  have us := quantum_pos (s : ℚ)
  have qs : quantum (s : ℚ) = (2 : ℚ) ^ (exponent (s : ℚ) - 52) := by
    unfold quantum
    rw [max_eq_left (by omega)]
  have qa : quantum a = (2 : ℚ) ^ (exponent a - 52) := by
    unfold quantum
    rw [max_eq_left (by omega)]
  rcases lt_or_eq_of_le hmono with hne | heq
  · -- a lies in a higher binade
    obtain ⟨_, s2⟩ := exponent_spec (s : ℚ) (lt_of_lt_of_le zero_lt_one hs1q)
    obtain ⟨a1, _⟩ := exponent_spec a (lt_of_lt_of_le zero_lt_one ha1)
    have e53 : (2 : ℚ) ^ (exponent (s : ℚ) + 1) = ((2 ^ 53 : Int) : ℚ) * quantum (s : ℚ) := by
      rw [qs]
      have : exponent (s : ℚ) + 1 = 53 + (exponent (s : ℚ) - 52) := by ring
      rw [this, zpow_add₀ (two_ne_zero)]
      norm_num
    have hk53 : k < 2 ^ 53 := by
      have h1 : (k : ℚ) * quantum (s : ℚ) < ((2 ^ 53 : Int) : ℚ) * quantum (s : ℚ) := by
        rw [← hk, ← e53]
        exact s2
      have := lt_of_mul_lt_mul_right h1 (le_of_lt us)
      exact_mod_cast this
    have hk1 : ((k + 1 : Int) : ℚ) ≤ ((2 ^ 53 : Int) : ℚ) := by
      have : k + 1 ≤ 2 ^ 53 := by omega
      exact_mod_cast this
    have step : (s : ℚ) + quantum (s : ℚ) ≤ (2 : ℚ) ^ (exponent (s : ℚ) + 1) := by
      rw [e53]
      nth_rewrite 1 [hk]
      have : (k : ℚ) * quantum (s : ℚ) + quantum (s : ℚ)
          = ((k + 1 : Int) : ℚ) * quantum (s : ℚ) := by
        push_cast
        ring
      rw [this]
      exact mul_le_mul_of_nonneg_right hk1 (le_of_lt us)
    have up : (2 : ℚ) ^ (exponent (s : ℚ) + 1) ≤ (2 : ℚ) ^ exponent a :=
      zpow_le_zpow_right₀ (by norm_num) (by omega)
    exact le_trans step (le_trans up a1)
  · -- the same binade: both are multiples of the same quantum
    have hq : quantum a = quantum (s : ℚ) := by rw [qa, qs, heq]
    rw [hq] at hm
    have hkm : k < m := by
      have h1 : (k : ℚ) * quantum (s : ℚ) < (m : ℚ) * quantum (s : ℚ) := by
        rw [← hk, ← hm]
        exact hlt
      have := lt_of_mul_lt_mul_right h1 (le_of_lt us)
      exact_mod_cast this
    have hkm1 : ((k + 1 : Int) : ℚ) ≤ (m : ℚ) := by
      have : k + 1 ≤ m := by omega
      exact_mod_cast this
    have e : (s : ℚ) + quantum (s : ℚ) = ((k + 1 : Int) : ℚ) * quantum (s : ℚ) := by
      nth_rewrite 1 [hk]
      push_cast
      ring
    rw [e, hm]
    exact mul_le_mul_of_nonneg_right hkm1 (le_of_lt us)

/-- The float64 quotient of a float64 value by a smaller positive whole number is above 1. -/
theorem lt_one_div_of_lt (a : ℚ) (s : Int) (hs1 : 1 ≤ s) (ha : a ≤ ((2 ^ 53 : Nat) : ℚ))
    (hrep : roundMag a = a) (hlt : (s : ℚ) < a) :
    lt (.fin 1) (div (.fin a) (ofInt s)) = true := by
  obtain ⟨n, hn⟩ := Int.eq_ofNat_of_zero_le (show 0 ≤ s by omega)
  subst hn
  have hn1 : 1 ≤ n := by omega
  have hnq : (1 : ℚ) ≤ (n : ℚ) := by exact_mod_cast hn1
  have hlt' : (n : ℚ) < a := by simpa using hlt
  have hn53 : n ≤ 2 ^ 53 := by
    have : (n : ℚ) ≤ ((2 ^ 53 : Nat) : ℚ) := le_trans (le_of_lt hlt') ha
    exact_mod_cast this
  have hn53' : ((n : Int)) ≤ 2 ^ 53 := by exact_mod_cast hn53
  have npos : (0 : ℚ) < (n : ℚ) := lt_of_lt_of_le zero_lt_one hnq
  have gap := next_float_gap n a hn1 hn53 hrep hlt'
  obtain ⟨_, s2⟩ := exponent_spec (n : ℚ) npos
  have es := exponent_nonneg _ hnq
  have qs : quantum (n : ℚ) = (2 : ℚ) ^ (exponent (n : ℚ) - 52) := by
    unfold quantum
    rw [max_eq_left (by omega)]
  have hq : (2 : ℚ) ^ (-53 : Int) * (n : ℚ) < quantum (n : ℚ) := by
    have e : quantum (n : ℚ) = (2 : ℚ) ^ (-53 : Int) * (2 : ℚ) ^ (exponent (n : ℚ) + 1) := by
      rw [qs, ← zpow_add₀ (two_ne_zero)]
      congr 1
      ring
    rw [e]
    exact mul_lt_mul_of_pos_left s2 (zpow_pos (by norm_num) _)
  have hquot : 1 + (2 : ℚ) ^ (-53 : Int) < a / (n : ℚ) := by
    rw [lt_div_iff₀ npos]
    have : (1 + (2 : ℚ) ^ (-53 : Int)) * (n : ℚ) = (n : ℚ) + (2 : ℚ) ^ (-53 : Int) * (n : ℚ) := by
      ring
    rw [this]
    linarith
  have hbig := roundMag_above_one _ hquot
  have hq0 : (0 : ℚ) ≤ a / (n : ℚ) := div_nonneg (by linarith) (le_of_lt npos)
  have hle : a / (n : ℚ) ≤ ((2 ^ 53 : Nat) : ℚ) := by
    rw [div_le_iff₀ npos]
    have h53 : (0 : ℚ) ≤ ((2 ^ 53 : Nat) : ℚ) := Nat.cast_nonneg _
    nlinarith
  have hr := roundMag_le_nat (a / (n : ℚ)) (2 ^ 53) (le_refl _) hq0 hle
  rw [ofInt_eq (n : Int) (abs_le_of_range _ (by omega) hn53')]
  have hne : ((n : Int) : ℚ) ≠ 0 := by
    simpa using ne_of_gt npos
  simp only [div, hne, if_false]
  have ecast : a / ((n : Int) : ℚ) = a / (n : ℚ) := by simp
  rw [ecast, nearest_of_nonneg _ hq0, if_neg (not_overflow _ hr)]
  simpa [lt] using hbig

/-- The result of rounding a non-negative rational is a float64 value. -/
theorem roundMag_idem (q : ℚ) (hq : 0 ≤ q) : roundMag (roundMag q) = roundMag q := by
  rcases eq_or_lt_of_le hq with h0 | h0
  · rw [← h0, roundMag_zero, roundMag_zero]
  obtain ⟨_, s2⟩ := exponent_spec q h0
  have hu := quantum_pos q
  have two : (2 : ℚ) ≠ 0 := two_ne_zero
  have hm0 : (0 : Int) ≤ roundHalfEven (q / quantum q) :=
    roundHalfEven_ge _ 0 (by simpa using le_of_lt (div_pos h0 hu))
  have e53 : (2 : ℚ) ^ (max (exponent q) (-1022) + 1) = ((2 ^ 53 : Int) : ℚ) * quantum q := by
    unfold quantum
    have : max (exponent q) (-1022) + 1 = 53 + (max (exponent q) (-1022) - 52) := by ring
    rw [this, zpow_add₀ two]
    norm_num
  have hm53 : roundHalfEven (q / quantum q) ≤ (2 ^ 53 : Int) := by
    apply roundHalfEven_le
    rw [div_le_iff₀ hu, ← e53]
    exact le_trans (le_of_lt s2) (zpow_le_zpow_right₀ (by norm_num) (by omega))
  obtain ⟨m, hm⟩ := Int.eq_ofNat_of_zero_le hm0
  have hj : -1074 ≤ max (exponent q) (-1022) - 52 := by omega
  have hval : roundMag q = (m : ℚ) * (2 : ℚ) ^ (max (exponent q) (-1022) - 52) := by
    unfold roundMag
    rw [hm]
    rfl
  rw [hval]
  rcases Nat.lt_or_ge m (2 ^ 53) with hlt | hge
  · exact roundMag_repr m _ hlt hj
  · have hm' : m = 2 ^ 53 := by
      have : (m : Int) ≤ 2 ^ 53 := by rw [← hm]; exact hm53
      have : m ≤ 2 ^ 53 := by exact_mod_cast this
      omega
    have e : (m : ℚ) * (2 : ℚ) ^ (max (exponent q) (-1022) - 52)
        = ((2 ^ 52 : Nat) : ℚ) * (2 : ℚ) ^ (max (exponent q) (-1022) - 52 + 1) := by
      rw [hm', zpow_add₀ two]
      norm_num
      ring
    rw [e]
    exact roundMag_repr (2 ^ 52) _ (by norm_num) (by omega)

theorem nearest_is_float (q r : ℚ) (h : nearest q = .fin r) (hr : 0 ≤ r) : roundMag r = r := by
  rcases le_or_lt 0 q with h0 | h0
  · rw [nearest_of_nonneg q h0] at h
    split_ifs at h
    cases h
    exact roundMag_idem q h0
  · rw [nearest_of_neg q h0] at h
    split_ifs at h
    cases h
    have hR := roundMag_nonneg (-q) (by linarith)
    have : roundMag (-q) = 0 := by linarith
    rw [this]
    simp [roundMag_zero]

/-- The available side is a float64 value. -/
theorem availSide_is_float (target : Int) (p : F64) (a : ℚ)
    (h : availSide target p = .fin a) : roundMag a = a := by
  have one : roundMag 1 = 1 := by
    have := roundMag_natCast 1 (by norm_num)
    simpa using this
  unfold availSide at h
  split_ifs at h with hc
  · cases h
    exact one
  · have ha1 : ¬ a < 1 := by
      rw [h] at hc
      simpa [lt] using hc
    have ha0 : 0 ≤ a := by linarith
    revert h
    generalize sub (.fin 1) (div (mul (Max p (.fin 0)) (.fin 2)) (.fin 100)) = t
    generalize ofInt target = w
    intro h
    cases w <;> cases t <;> simp only [mul] at h <;>
      first
      | exact nearest_is_float _ _ h ha0
      | (split_ifs at h)
      | cases h

theorem lt_Min_of_both (c : ℚ) (u v : F64) (hu : lt (.fin c) u = true)
    (hv : lt (.fin c) v = true) : lt (.fin c) (Min u v) = true := by
  cases u <;> cases v <;>
    first
    | (simp only [lt] at hu; exact absurd hu (by decide))
    | (simp only [lt] at hv; exact absurd hv (by decide))
    | rfl
    | exact hu
    | exact hv
    | (simp only [Min]; split_ifs <;> assumption)

/-- For a source of positive size the scale is above 1 exactly when the source is strictly
smaller than the float64 available area in both dimensions. -/
theorem fitScale_gt_one_iff (src : Image) (targetW targetH : Int) (p : F64) (a b : ℚ)
    (hsw : 0 < src.Dx) (hsh : 0 < src.Dy) (hp : p ≠ .nan)
    (hW1 : 1 ≤ targetW) (hW2 : targetW ≤ 2 ^ 53) (hH1 : 1 ≤ targetH) (hH2 : targetH ≤ 2 ^ 53)
    (ha : availSide targetW p = .fin a) (hb : availSide targetH p = .fin b) :
    lt (.fin 1) (fitScale src targetW targetH p) = true ↔
      (src.Dx : ℚ) < a ∧ (src.Dy : ℚ) < b := by
  constructor
  · intro hs
    obtain ⟨a', b', ha', hb', _, _, _, _, sa, sb⟩ :=
      fitScale_gt_one_float src targetW targetH p hp hW1 hW2 hH1 hH2 hs
    rw [ha] at ha'
    rw [hb] at hb'
    cases ha'
    cases hb'
    exact ⟨sa, sb⟩
  · rintro ⟨sa, sb⟩
    obtain ⟨a', ha', _, a2⟩ := availSide_spec targetW p hp hW1 hW2
    obtain ⟨b', hb', _, b2⟩ := availSide_spec targetH p hp hH1 hH2
    rw [ha] at ha'
    rw [hb] at hb'
    cases ha'
    cases hb'
    have cW : (targetW : ℚ) ≤ ((2 ^ 53 : Nat) : ℚ) := by exact_mod_cast hW2
    have cH : (targetH : ℚ) ≤ ((2 ^ 53 : Nat) : ℚ) := by exact_mod_cast hH2
    unfold fitScale
    rw [ha, hb]
    exact lt_Min_of_both 1 _ _
      (lt_one_div_of_lt a src.Dx (by omega) (le_trans a2 cW)
        (availSide_is_float targetW p a ha) sa)
      (lt_one_div_of_lt b src.Dy (by omega) (le_trans b2 cH)
        (availSide_is_float targetH p b hb) sb)

/-! ## Theorems: fit geometry in float64 -/

theorem availSide_nan (target : Int) : availSide target .nan = .nan := by
  unfold availSide
  cases ofInt target <;> rfl

/-- C9 (amended): with `noUpscale` set, for a target between 1x1 and `2^53 x 2^53`, a source
with positive dimensions that is strictly smaller, in both dimensions, than the available
area `availW x availH` that `fitImage` computes in float64 has a float64 `scale` above 1 and
is returned itself, at its native size, with the offsets
`((targetW - srcW)/2, (targetH - srcH)/2)`; the canvas that `renderImage` returns for the
target format is still `targetW x targetH`. -/
theorem fitImage_noUpscale_keeps_source_float (G : Imaging) (src : Image)
    (targetW targetH : Int) (p : F64) (a b : ℚ) (hsw : 0 < src.Dx) (hsh : 0 < src.Dy)
    (hW1 : 1 ≤ targetW) (hW2 : targetW ≤ 2 ^ 53) (hH1 : 1 ≤ targetH) (hH2 : targetH ≤ 2 ^ 53)
    (ha : availSide targetW p = .fin a) (hb : availSide targetH p = .fin b)
    (hw : (src.Dx : ℚ) < a) (hh : (src.Dy : ℚ) < b) :
    lt (.fin 1) (fitScale src targetW targetH p) = true ∧
    fitImage G src targetW targetH p true
      = (src, .fin (((targetW : ℚ) - (src.Dx : ℚ)) / 2),
          .fin (((targetH : ℚ) - (src.Dy : ℚ)) / 2)) ∧
    ∀ (P : Painter) (resolved : ResolvedProfile) (format : Format) (text : String) (out : Image),
      format.Width = targetW → format.Height = targetH →
      (renderImage G P src resolved format text).1 = some out →
      out.Dx = targetW ∧ out.Dy = targetH := by
  have hp : p ≠ .nan := by
    intro hnan
    rw [hnan, availSide_nan] at ha
    cases ha
  have hs := (fitScale_gt_one_iff src targetW targetH p a b hsw hsh hp hW1 hW2 hH1 hH2
    ha hb).mpr ⟨hw, hh⟩
  obtain ⟨a', ha', _, a2⟩ := availSide_spec targetW p hp hW1 hW2
  obtain ⟨b', hb', _, b2⟩ := availSide_spec targetH p hp hH1 hH2
  rw [ha] at ha'
  rw [hb] at hb'
  cases ha'
  cases hb'
  have dW : src.Dx ≤ targetW := by
    have : (src.Dx : ℚ) ≤ (targetW : ℚ) := le_of_lt (lt_of_lt_of_le hw a2)
    exact_mod_cast this
  have dH : src.Dy ≤ targetH := by
    have : (src.Dy : ℚ) ≤ (targetH : ℚ) := le_of_lt (lt_of_lt_of_le hh b2)
    exact_mod_cast this
  refine ⟨hs, ?_, ?_⟩
  · rw [fitImage_branches, if_pos ⟨rfl, hs⟩,
      offset_exact targetW src.Dx (le_of_lt hsw) dW hW2,
      offset_exact targetH src.Dy (le_of_lt hsh) dH hH2]
  · intro P resolved format text out hfw hfh hout
    have := renderImage_canvas G P src resolved format text out hout
    rw [hfw, hfh] at this
    exact this

theorem availSide_500_0 : availSide 500 (.fin 0) = .fin 500 := by decide!

/-- Witness of C9 (amended): a 100x100 source, a 500x500 target and padding 0 give the source
itself at offset (200, 200), on a 500x500 canvas. -/
theorem fitImage_noUpscale_keeps_source_float_witness :
    availSide 500 (.fin 0) = .fin 500 ∧
    lt (.fin 1) (fitScale (solidImage 100 100 ⟨255, 0, 0, 255⟩) 500 500 (.fin 0)) = true ∧
    fitImage cutImaging (solidImage 100 100 ⟨255, 0, 0, 255⟩) 500 500 (.fin 0) true
      = (solidImage 100 100 ⟨255, 0, 0, 255⟩, .fin 200, .fin 200) ∧
    ∀ (P : Painter) (resolved : ResolvedProfile) (text : String) (out : Image),
      (renderImage cutImaging P (solidImage 100 100 ⟨255, 0, 0, 255⟩) resolved
        ⟨"fixed", 500, 500, [], .fin 0⟩ text).1 = some out →
      out.Dx = 500 ∧ out.Dy = 500 := by
  have h := fitImage_noUpscale_keeps_source_float cutImaging
    (solidImage 100 100 ⟨255, 0, 0, 255⟩) 500 500 (.fin 0) 500 500 (by decide) (by decide)
    (by decide) (by norm_num) (by decide) (by norm_num) availSide_500_0 availSide_500_0
    (by simp [solidImage]; norm_num) (by simp [solidImage]; norm_num)
  refine ⟨availSide_500_0, h.1, ?_, ?_⟩
  · rw [h.2.1]
    simp [solidImage]
    norm_num
  · intro P resolved text out hout
    exact h.2.2 P resolved ⟨"fixed", 500, 500, [], .fin 0⟩ text out rfl rfl hout

/-- Counterexample to C9: a 29x29 source on a 35x35 target with the padding
8.571428571428571 is strictly smaller than the exact available area
`35 * (1 - 2p/100) > 29`, yet with `noUpscale` set `fitImage` resizes it: the float64
available side is 28.999999999999996, the scale is below 1 and the fit primitive is called
for the box 28x28. -/
theorem fitImage_keeps_source_counterexample :
    (29 : ℚ) < availSpec 35 ((4825285315039817 : ℚ) / 562949953421312) ∧
    availSide 35 pad8571 = .fin ((8162774324609023 : ℚ) / 281474976710656) ∧
    lt (.fin 1) (fitScale (solidImage 29 29 ⟨255, 0, 0, 255⟩) 35 35 pad8571) = false ∧
    (fitImage cutImaging (solidImage 29 29 ⟨255, 0, 0, 255⟩) 35 35 pad8571 true).1.Dx = 28 ∧
    (fitImage cutImaging (solidImage 29 29 ⟨255, 0, 0, 255⟩) 35 35 pad8571 true).1.Dy = 28 := by
  refine ⟨?_, by decide!, by decide!, by decide!, by decide!⟩
  unfold availSpec
  norm_num

theorem availSide_eq_Max (target : Int) (q : ℚ) (hq : 0 ≤ q) :
    availSide target (.fin q)
      = Max (.fin 1) (mul (ofInt target)
          (sub (.fin 1) (div (mul (.fin q) (.fin 2)) (.fin 100)))) := by
  have hm : Max (.fin q) (.fin 0) = .fin q := by
    simp [Max, not_lt.mpr hq]
  unfold availSide
  rw [hm]
  cases mul (ofInt target) (sub (.fin 1) (div (mul (.fin q) (.fin 2)) (.fin 100))) with
  | fin r =>
    simp only [lt, Max, decide_eq_true_eq]
    rcases lt_trichotomy r 1 with h | h | h
    · rw [if_pos h, if_neg (not_lt.mpr (le_of_lt h))]
    · subst h
      simp
    · rw [if_neg (not_lt.mpr (le_of_lt h)), if_pos h]
  | posInf => rfl
  | negInf => rfl
  | nan => rfl

/-- C10 (amended): for a target between 1x1 and `2^53 x 2^53` and a padding percent `p` in
[0, 50], `fitImage` works with the available box `availW = max(1, targetW * (1 - p*2/100))`,
`availH = max(1, targetH * (1 - p*2/100))` computed in float64, every operation rounded; both
are finite, at least 1 and at most the target side.  When the resize branch is taken, the
fitted image is the result of the fit primitive for the box `int(availW) x int(availH)`, and
it is no wider than `availW` and no taller than `availH` provided the fit primitive never
returns more than the box it is given. -/
theorem fitImage_resize_within_float_box (G : Imaging) (src : Image) (targetW targetH : Int)
    (q : ℚ) (noUpscale : Bool) (hp0 : 0 ≤ q) (_hp50 : q ≤ 50)
    (hW1 : 1 ≤ targetW) (hW2 : targetW ≤ 2 ^ 53) (hH1 : 1 ≤ targetH) (hH2 : targetH ≤ 2 ^ 53)
    (hfit : ∀ (img : Image) (w h : Int), 1 ≤ w → 1 ≤ h →
      (G.Fit img w h).Dx ≤ w ∧ (G.Fit img w h).Dy ≤ h)
    (hbranch : ¬ (noUpscale = true ∧ lt (.fin 1) (fitScale src targetW targetH (.fin q)) = true)) :
    availSide targetW (.fin q)
      = Max (.fin 1) (mul (ofInt targetW)
          (sub (.fin 1) (div (mul (.fin q) (.fin 2)) (.fin 100)))) ∧
    availSide targetH (.fin q)
      = Max (.fin 1) (mul (ofInt targetH)
          (sub (.fin 1) (div (mul (.fin q) (.fin 2)) (.fin 100)))) ∧
    ∃ a b, availSide targetW (.fin q) = .fin a ∧ availSide targetH (.fin q) = .fin b ∧
      1 ≤ a ∧ a ≤ (targetW : ℚ) ∧ 1 ≤ b ∧ b ≤ (targetH : ℚ) ∧
      (fitImage G src targetW targetH (.fin q) noUpscale).1 = G.Fit src (goInt a) (goInt b) ∧
      1 ≤ goInt a ∧ 1 ≤ goInt b ∧
      ((fitImage G src targetW targetH (.fin q) noUpscale).1.Dx : ℚ) ≤ a ∧
      ((fitImage G src targetW targetH (.fin q) noUpscale).1.Dy : ℚ) ≤ b := by
  refine ⟨availSide_eq_Max targetW q hp0, availSide_eq_Max targetH q hp0, ?_⟩
  obtain ⟨a, ha, a1, a2⟩ := availSide_spec targetW (.fin q) (by simp) hW1 hW2
  obtain ⟨b, hb, b1, b2⟩ := availSide_spec targetH (.fin q) (by simp) hH1 hH2
  obtain ⟨ta, ga1, ga2, _⟩ := toInt_of_range a targetW a1 a2 hW2
  obtain ⟨tb, gb1, gb2, _⟩ := toInt_of_range b targetH b1 b2 hH2
  have hfitted : (fitImage G src targetW targetH (.fin q) noUpscale).1
      = G.Fit src (goInt a) (goInt b) := by
    rw [fitImage_branches, if_neg hbranch, ha, hb, ta, tb]
  obtain ⟨hdx, hdy⟩ := hfit src _ _ ga1 gb1
  refine ⟨a, b, ha, hb, a1, a2, b1, b2, hfitted, ga1, gb1, ?_, ?_⟩
  · rw [hfitted]
    exact le_trans (by exact_mod_cast hdx) ga2
  · rw [hfitted]
    exact le_trans (by exact_mod_cast hdy) gb2

theorem availSide_500_10 : availSide 500 (.fin 10) = .fin 400 := by decide!

/-- Witness of C10 (amended): a 1000x400 source, a 500x500 target and padding 10 without the
no-upscale flag: the box is 400x400 and the fitted image fits into it. -/
theorem fitImage_resize_within_float_box_witness :
    availSide 500 (.fin 10) = .fin 400 ∧
    ∃ a b, availSide 500 (.fin 10) = .fin a ∧ availSide 500 (.fin 10) = .fin b ∧
      1 ≤ a ∧ a ≤ ((500 : Int) : ℚ) ∧ 1 ≤ b ∧ b ≤ ((500 : Int) : ℚ) ∧
      (fitImage cutImaging (solidImage 1000 400 ⟨255, 0, 0, 255⟩) 500 500 (.fin 10) false).1
        = cutImaging.Fit (solidImage 1000 400 ⟨255, 0, 0, 255⟩) (goInt a) (goInt b) ∧
      1 ≤ goInt a ∧ 1 ≤ goInt b ∧
      ((fitImage cutImaging (solidImage 1000 400 ⟨255, 0, 0, 255⟩) 500 500 (.fin 10) false).1.Dx
        : ℚ) ≤ a ∧
      ((fitImage cutImaging (solidImage 1000 400 ⟨255, 0, 0, 255⟩) 500 500 (.fin 10) false).1.Dy
        : ℚ) ≤ b :=
  ⟨availSide_500_10,
    (fitImage_resize_within_float_box cutImaging (solidImage 1000 400 ⟨255, 0, 0, 255⟩)
      500 500 10 false (by norm_num) (by norm_num) (by decide) (by norm_num) (by decide)
      (by norm_num) (fun img w h _ _ => ⟨min_le_right _ _, min_le_right _ _⟩) (by simp)).2.2⟩

/-- Counterexample to C10: for the target 500 and the padding 45 the exact box side
`max(1, 500 * (1 - 90/100))` is 50, but the float64 side is 49.999999999999986 and the fit
primitive is called for the box 49x49; for the target 15 and the padding 3.3333333333333335
the exact side is below 14, but the float64 side is 14 and the fitted image of a 100x100
source is 14 wide, wider than the exact side. -/
theorem fitImage_resize_box_counterexample :
    goInt (availSpec 500 45) = 50 ∧
    toInt (availSide 500 (.fin 45)) = 49 ∧
    (fitImage cutImaging (solidImage 100 100 ⟨255, 0, 0, 255⟩) 500 500 (.fin 45) false).1.Dx
      = 49 ∧
    availSpec 15 ((7505999378950827 : ℚ) / 2251799813685248) < 14 ∧
    availSide 15 pad3333 = .fin 14 ∧
    (fitImage cutImaging (solidImage 100 100 ⟨255, 0, 0, 255⟩) 15 15 pad3333 false).1.Dx
      = 14 := by
  refine ⟨?_, by decide!, by decide!, ?_, by decide!, by decide!⟩
  · have : availSpec 500 45 = 50 := by
      unfold availSpec
      norm_num
    rw [this]
    decide!
  · unfold availSpec
    norm_num

/-! ## Theorems: offsets of the fit in float64 -/

/-- The rounding of the available area: for the target 33 and the padding
27.272727272727273 the exact side `33 * (1 - 2p/100)` is below 15, the float64 side is
15.000000000000002, and a 15x15 source with `noUpscale` takes the no-resize branch. -/
theorem fitImage_rounded_area :
    availSpec 33 ((3838295136963491 : ℚ) / 140737488355328) < 15 ∧
    availSide 33 pad2727 = .fin ((8444249301319681 : ℚ) / 562949953421312) ∧
    lt (.fin 1) (fitScale (solidImage 15 15 ⟨255, 0, 0, 255⟩) 33 33 pad2727) = true ∧
    (fitImage cutImaging (solidImage 15 15 ⟨255, 0, 0, 255⟩) 33 33 pad2727 true).2
      = (.fin 9, .fin 9) := by
  refine ⟨?_, by decide!, by decide!, by decide!⟩
  unfold availSpec
  norm_num

/-! ## Theorems: watermark outline in float64 -/

theorem add_one_int (k : Int) (h : |k + 1| ≤ 2 ^ 53) :
    add (.fin (k : ℚ)) (.fin 1) = .fin ((k + 1 : Int) : ℚ) := by
  have := nearest_int (k + 1) h
  simp only [add]
  rw [← this]
  congr 1
  push_cast
  rfl

theorem add_one_at_two53 :
    add (.fin (((2 : Int) ^ 53 : Int) : ℚ)) (.fin 1) = .fin (((2 : Int) ^ 53 : Int) : ℚ) := by
  decide!

/-- The float64 loop up to `2^53` never ends: at `2^53` the increment is rounded away. -/
theorem floatRange_stuck :
    ∀ (fuel : Nat) (lo : Int), -2 ^ 53 ≤ lo → lo ≤ 2 ^ 53 →
      floatRange fuel (.fin (lo : ℚ)) (.fin (((2 : Int) ^ 53 : Int) : ℚ)) = none := by
  intro fuel
  induction fuel with
  | zero => intro lo _ _; rfl
  | succ f ih =>
    intro lo h1 h2
    have hq : (lo : ℚ) ≤ (((2 : Int) ^ 53 : Int) : ℚ) := by exact_mod_cast h2
    simp only [floatRange, le, hq, decide_True, if_true]
    rcases lt_or_eq_of_le h2 with hlt | heq
    · rw [add_one_int lo (abs_le.mpr ⟨by omega, by omega⟩), ih (lo + 1) (by omega) (by omega)]
      rfl
    · rw [heq, add_one_at_two53, ih (2 ^ 53) (by norm_num) (le_refl _)]
      rfl

/-- For the `outline_width` `2^53` the outline loops of `drawWatermark` do not end, whatever
the number of iterations allowed. -/
theorem drawWatermark_outline_unbounded (fuel : Nat) :
    drawWatermark asciiStrings plainFonts fuel 800 600 "text"
      (outlinedWatermark (.fin (((2 : Int) ^ 53 : Int) : ℚ))) "assets" = none := by
  have hneg : neg (.fin (((2 : Int) ^ 53 : Int) : ℚ)) = .fin (((-2 ^ 53 : Int)) : ℚ) := by
    simp [neg]
  have hr := floatRange_stuck fuel (-2 ^ 53) (le_refl _) (by norm_num)
  have e0 : eq (F64.fin (((2 : Int) ^ 53 : Int) : ℚ)) (.fin 0) = false := by decide!
  unfold drawWatermark
  simp only [outlinedWatermark, plainFonts, e0, Bool.false_eq_true, if_false, if_true,
    outlineOffsets, hneg, hr, Option.map_none']

end IEEE

end Instafix
